import Mathlib

/-!
# CatGenius: water sensor (`water.c`) and CatGenie 120 hardware worker (`catgenie120.c`)

A shallow embedding of the two C modules and the properties proved about them.

* Machine integers are `Nat`; an explicit `% 256` is written where an
  `unsigned char` operation can overflow (`++`, `<<= 1`).
* External callbacks (`waterdetection_event`, `watersensor_event`, the
  debouncer handlers) are recorded as a list of events in call order.
* `hardware.h` and the timer module are not part of the sources: the constants
  of the former are parameters (`Hardware`, `Board`, `Actuators`), the latter is
  modelled from the specification (`Timer`).
* Port registers, latches and masks are bytes; `~m` on a byte is `255 ^^^ m`.
-/

namespace CatGenius

/-! ## Soft timer -/

/-- Modelled from the spec: `timer.h`/`timer.c` are absent from the sources. A
timer is disarmed (`never`), the always-expired sentinel (`expired`), or
`pending` with a deadline on the wrapping tick counter. The initialisers
`{0xFFFF, 0xFFFFFFFF}` and `{0x0000, 0x00000000}` of `catgenie120.c` are the
`never` and `expired` sentinels. -/
inductive Timer where
  | never : Timer
  | expired : Timer
  | pending (deadline : Nat) : Timer
  deriving DecidableEq, Repr

/-- Modelled from the spec: the tick counter is an unsigned counter of `bits`
bits that wraps silently; this is its modulus. -/
def tickModulus (bits : Nat) : Nat := 2 ^ bits

/-- Modelled from the spec: `settimeout(timer, duration)` sets
`deadline = now + duration` on the wrapping counter and makes the timer pending. -/
def settimeout (bits now duration : Nat) : Timer :=
  Timer.pending ((now + duration) % tickModulus bits)

/-- Modelled from the spec: `timeoutexpired(timer)` is true for the `expired`
sentinel, false for `never`, and for a pending timer true exactly when the
wrap-safe difference `now - deadline` is non-negative, i.e. lies in the lower
half of the counter range. -/
def timeoutexpired (bits now : Nat) : Timer → Bool
  | Timer.never => false
  | Timer.expired => true
  | Timer.pending deadline =>
      decide ((now % tickModulus bits + tickModulus bits - deadline % tickModulus bits)
        % tickModulus bits < tickModulus bits / 2)

/-- Modelled from the spec: `timeoutnever(timer)` disarms the timer. -/
def timeoutnever : Timer := Timer.never

/-! ## `water.c` -/

namespace Water

/-- Constants that `water.c` takes from `hardware.h` and `timer.h` (both absent),
and the build switch `WATERSENSOR_ANALOG`. -/
structure Hardware where
  SECOND : Nat
  TICK_BITS : Nat
  WATERSENSOR_ANALOG : Bool
  WATERSENSOR_LED_MASK : Nat
  WATERSENSORANALOG_MASK : Nat
  WATERVALVEPULLUP_MASK : Nat
  EVENTLOG_TAP : Nat
  deriving DecidableEq, Repr

def DETECTTIME (hw : Hardware) : Nat := hw.SECOND / 1000
def WATERSENSORPOLLING (hw : Hardware) : Nat := hw.SECOND / 4
def HYSTERESIS_MAX : Nat := 8
def DETECTION_THRESHOLD : Nat := 520
def UNDETECTION_THRESHOLD : Nat := 503
def DETECTION_MARGIN : Nat := DETECTION_THRESHOLD - UNDETECTION_THRESHOLD

def LED_ON : Nat := 0
def START_CONVERSION : Nat := 1
def PROCESS_RESULT : Nat := 2

/-- Calls made by `water.c` to the application and to the event log
(`eventlog.h`, absent), in call order. -/
inductive Event where
  | waterdetection_event (detected : Nat) : Event
  | watersensor_event (reflectionquality : Nat) : Event
  | eventlog_track (id : Nat) (value : Nat) : Event
  deriving DecidableEq, Repr

/-- The module's static data, the function-static data of `water_work`, and the
hardware registers the module reads and writes. `GO_nDONE` is the single
`ADCON0` bit that the code names both `GO` and `nDONE`. The two latches
`WATERSENSOR_LED(LAT)` and `WATERVALVEPULLUP(LAT)` are kept as two registers;
each function is described on the latch it names. -/
structure WaterState where
  sensortimer : Timer
  state : Nat
  hysteresis : Nat
  filling : Bool
  detected : Bool
  ledalwayson : Bool
  cur_reflectionquality : Nat
  old_reflectionquality : Nat
  event_skips : Nat
  WATERSENSOR_LED_LAT : Nat
  WATERSENSORANALOG_PORT : Nat
  GO_nDONE : Bool
  ADRES : Nat
  WATERVALVEPULLUP_LAT : Nat
  deriving DecidableEq, Repr

/-- Power-on values of the data of `water.c`, with the registers given (the
valve pull-up latch clear). -/
def initial (ledLat port adres : Nat) (busy : Bool) : WaterState :=
  { sensortimer := Timer.expired, state := 0, hysteresis := 0, filling := false,
    detected := false, ledalwayson := false, cur_reflectionquality := 0,
    old_reflectionquality := 0, event_skips := 0, WATERSENSOR_LED_LAT := ledLat,
    WATERSENSORANALOG_PORT := port, GO_nDONE := busy, ADRES := adres,
    WATERVALVEPULLUP_LAT := 0 }

/-- The value a `bit` passes to an `unsigned char` parameter. -/
def bitval (b : Bool) : Nat := if b then 1 else 0

/-- Lines 171-187 of `water_work`: evaluate `cur_reflectionquality` against the
threshold with the hysteresis counter. The `&&` chains short-circuit, so the
counter is decremented (incremented) whenever it is above 0 (below
`HYSTERESIS_MAX`), also when `detected` does not flip. -/
def evaluate (s : WaterState) : WaterState × List Event :=
  if s.cur_reflectionquality ≤ UNDETECTION_THRESHOLD - DETECTION_MARGIN then
    if s.hysteresis > 0 then
      let s1 := { s with hysteresis := s.hysteresis - 1 }
      if s1.hysteresis = 0 ∧ s1.detected = true then
        ({ s1 with detected := false, event_skips := 255 },
          [Event.waterdetection_event (bitval false)])
      else (s1, [])
    else (s, [])
  else
    if s.hysteresis < HYSTERESIS_MAX then
      let s1 := { s with hysteresis := (s.hysteresis + 1) % 256 }
      if s1.hysteresis ≥ HYSTERESIS_MAX ∧ s1.detected = false then
        ({ s1 with detected := true, event_skips := 255 },
          [Event.waterdetection_event (bitval true)])
      else (s1, [])
    else (s, [])

/-- Lines 205-219 of `water_work`: the rate-limited reflection quality report. -/
def report (s : WaterState) : WaterState × List Event :=
  if (if s.cur_reflectionquality > s.old_reflectionquality
        then s.cur_reflectionquality - s.old_reflectionquality
        else s.old_reflectionquality - s.cur_reflectionquality) > 4
      ∨ s.event_skips ≥ 240 then
    if s.cur_reflectionquality ≠ s.old_reflectionquality then
      ({ s with old_reflectionquality := s.cur_reflectionquality, event_skips := 0 },
        [Event.watersensor_event s.cur_reflectionquality])
    else ({ s with event_skips := 0 }, [])
  else ({ s with event_skips := (s.event_skips + 1) % 256 }, [])

/-- Lines 160/165 to 169 of `water_work`: store the reading `raw` and switch the
IR LED off unless filling or always-on. -/
def sample (hw : Hardware) (raw : Nat) (s : WaterState) : WaterState :=
  let s1 := { s with cur_reflectionquality := raw }
  if !s1.filling && !s1.ledalwayson
    then { s1 with WATERSENSOR_LED_LAT := s1.WATERSENSOR_LED_LAT &&& (255 ^^^ hw.WATERSENSOR_LED_MASK) }
    else s1

/-- Lines 160/165 to 223 of `water_work`: the `PROCESS_RESULT` case once the
reading `raw` is available. It stores the reading, handles the IR LED,
evaluates, reports, re-arms the timer for the poll interval and returns to
`LED_ON`. -/
def process_result (hw : Hardware) (now raw : Nat) (s : WaterState) :
    WaterState × List Event :=
  let r3 := evaluate (sample hw raw s)
  let r4 := report r3.1
  ({ r4.1 with sensortimer := settimeout hw.TICK_BITS now (WATERSENSORPOLLING hw),
               state := LED_ON },
    r3.2 ++ r4.2)

/-- The `LED_ON` case of `water_work` (also reached by fall-through from
`default`). -/
def led_on (hw : Hardware) (now : Nat) (s : WaterState) : WaterState × List Event :=
  if !timeoutexpired hw.TICK_BITS now s.sensortimer then (s, [])
  else
    ({ s with WATERSENSOR_LED_LAT := s.WATERSENSOR_LED_LAT ||| hw.WATERSENSOR_LED_MASK,
              sensortimer := settimeout hw.TICK_BITS now (DETECTTIME hw),
              state := if hw.WATERSENSOR_ANALOG then START_CONVERSION else PROCESS_RESULT },
      [])

/-- One call of `water_work`; the tick counter reads `now` throughout the call.
An unrecognised `state` is set to `LED_ON` and falls through to that case. -/
def water_work (hw : Hardware) (now : Nat) (s : WaterState) : WaterState × List Event :=
  if s.state = LED_ON then led_on hw now s
  else if s.state = START_CONVERSION then
    if !timeoutexpired hw.TICK_BITS now s.sensortimer then (s, [])
    else ({ s with GO_nDONE := true, state := PROCESS_RESULT }, [])
  else if s.state = PROCESS_RESULT then
    if hw.WATERSENSOR_ANALOG then
      if s.GO_nDONE then (s, [])
      else process_result hw now s.ADRES s
    else
      if !timeoutexpired hw.TICK_BITS now s.sensortimer then (s, [])
      else process_result hw now
        (if s.WATERSENSORANALOG_PORT &&& hw.WATERSENSORANALOG_MASK ≠ 0
          then DETECTION_THRESHOLD else 0) s
  else led_on hw now { s with state := LED_ON }

/-- One completed poll: tick and reading. -/
structure Poll where
  now : Nat
  raw : Nat
  deriving DecidableEq, Repr

/-- A sequence of completed polls: the state after each poll and the events
of that poll, one entry per poll. -/
def runPolls (hw : Hardware) (s : WaterState) : List Poll → List (WaterState × List Event)
  | [] => []
  | p :: ps =>
      process_result hw p.now p.raw s :: runPolls hw (process_result hw p.now p.raw s).1 ps

/-- State reached by a sequence of completed polls. -/
def afterPolls (hw : Hardware) (s : WaterState) : List Poll → WaterState
  | [] => s
  | p :: ps => afterPolls hw (process_result hw p.now p.raw s).1 ps

/-- A sample analog build: 1000 ticks per second on a 16-bit tick counter. -/
def bench : Hardware :=
  { SECOND := 1000, TICK_BITS := 16, WATERSENSOR_ANALOG := true,
    WATERSENSOR_LED_MASK := 0x20, WATERSENSORANALOG_MASK := 0x01,
    WATERVALVEPULLUP_MASK := 0x08, EVENTLOG_TAP := 3 }

/-- The power-on state with all registers clear. -/
def powerOn : WaterState := initial 0 0 0 false

/-- A state with water detected and the counter saturated. -/
def submerged : WaterState := { powerOn with hysteresis := 8, detected := true }

/-- A state one poll short of the forced report: 239 polls skipped. -/
def stale : WaterState := { powerOn with event_skips := 239 }

/-- The result of the last poll of a run, `dflt` for an empty run. -/
def lastPoll (dflt : WaterState) (rs : List (WaterState × List Event)) : WaterState × List Event :=
  rs.getLastD (dflt, [])

/-- Arguments of the `waterdetection_event` calls in a list of events. -/
def detectionCalls : List Event → List Nat
  | [] => []
  | Event.waterdetection_event d :: es => d :: detectionCalls es
  | Event.watersensor_event _ :: es => detectionCalls es
  | Event.eventlog_track _ _ :: es => detectionCalls es

/-- Arguments of the `watersensor_event` calls in a list of events. -/
def sensorCalls : List Event → List Nat
  | [] => []
  | Event.waterdetection_event _ :: es => sensorCalls es
  | Event.watersensor_event q :: es => q :: sensorCalls es
  | Event.eventlog_track _ _ :: es => sensorCalls es

/-- Assignment of an `unsigned char` to a `bit` variable: the compiler of
`htc.h` keeps the least significant bit. -/
def lsb (v : Nat) : Bool := decide (v % 2 = 1)

/-- The accessor `water_detected`: the state it leaves and the value returned. -/
def water_detected (s : WaterState) : WaterState × Nat := (s, bitval s.detected)

/-- The function `water_ledalwayson`. -/
def water_ledalwayson (on_ : Nat) (s : WaterState) : WaterState :=
  { s with ledalwayson := lsb on_ }

/-- The accessor `water_filling`: the state it leaves and the value returned. -/
def water_filling (s : WaterState) : WaterState × Nat := (s, bitval s.filling)

/-- The function `water_fill`: store the flag, pull the valve line up or down,
and track the event. -/
def water_fill (hw : Hardware) (fill : Nat) (s : WaterState) : WaterState × List Event :=
  let s1 := { s with filling := lsb fill }
  let s2 := if s1.filling
    then { s1 with WATERVALVEPULLUP_LAT := s1.WATERVALVEPULLUP_LAT ||| hw.WATERVALVEPULLUP_MASK }
    else { s1 with WATERVALVEPULLUP_LAT := s1.WATERVALVEPULLUP_LAT &&& (255 ^^^ hw.WATERVALVEPULLUP_MASK) }
  (s2, [Event.eventlog_track hw.EVENTLOG_TAP fill])

/-- What the hardware presents to one call of `water_work`: the time in ticks
(not wrapped), the A/D result register, whether a running conversion has
finished, and the sensor port. -/
structure Sense where
  now : Nat
  ADRES : Nat
  done : Bool
  PORT : Nat
  deriving DecidableEq, Repr

/-- The registers as `water_work` finds them: the hardware has written the
result register and the port, and has cleared `GO/nDONE` if the conversion
finished. -/
def sense (s : WaterState) (x : Sense) : WaterState :=
  { s with ADRES := x.ADRES, WATERSENSORANALOG_PORT := x.PORT,
           GO_nDONE := s.GO_nDONE && !x.done }

/-- One call of `water_work` from the super-loop. -/
def work (hw : Hardware) (s : WaterState) (x : Sense) : WaterState × List Event :=
  water_work hw x.now (sense s x)

/-- A sequence of calls of `water_work`: the state after each call and the
events of that call, one entry per call. -/
def waterRun (hw : Hardware) (s : WaterState) : List Sense → List (WaterState × List Event)
  | [] => []
  | x :: xs => work hw s x :: waterRun hw (work hw s x).1 xs

/-- State reached by a sequence of calls of `water_work`. -/
def waterAfter (hw : Hardware) (s : WaterState) : List Sense → WaterState
  | [] => s
  | x :: xs => waterAfter hw (work hw s x).1 xs

/-- All events of a sequence of calls of `water_work`, in call order. -/
def waterEvents (hw : Hardware) (s : WaterState) : List Sense → List Event
  | [] => []
  | x :: xs => (work hw s x).2 ++ waterEvents hw (work hw s x).1 xs

/-- Whether a call of `water_work` on state `t` completes a poll: it is in
`PROCESS_RESULT` and the conversion (analog) or the settle timer (digital) is
ready. -/
def completes (hw : Hardware) (now : Nat) (t : WaterState) : Bool :=
  decide (t.state = PROCESS_RESULT) &&
    (if hw.WATERSENSOR_ANALOG then !t.GO_nDONE else timeoutexpired hw.TICK_BITS now t.sensortimer)

/-- The reading a completing call of `water_work` takes on state `t`. -/
def reading (hw : Hardware) (t : WaterState) : Nat :=
  if hw.WATERSENSOR_ANALOG then t.ADRES
  else if t.WATERSENSORANALOG_PORT &&& hw.WATERSENSORANALOG_MASK ≠ 0 then DETECTION_THRESHOLD else 0

/-- The number of completed polls of a run that satisfy `sel` on the state the
call finds. -/
def countPolls (hw : Hardware) (sel : WaterState → Bool) (s : WaterState) : List Sense → Nat
  | [] => 0
  | x :: xs =>
      (if completes hw x.now (sense s x) && sel (sense s x) then 1 else 0)
        + countPolls hw sel (work hw s x).1 xs

/-- The sensor pin reads high. -/
def pinHigh (hw : Hardware) (t : WaterState) : Bool :=
  decide (t.WATERSENSORANALOG_PORT &&& hw.WATERSENSORANALOG_MASK ≠ 0)

/-- The sensor pin reads low. -/
def pinLow (hw : Hardware) (t : WaterState) : Bool :=
  decide (t.WATERSENSORANALOG_PORT &&& hw.WATERSENSORANALOG_MASK = 0)

/-- The hysteresis counter and `detected` are consistent: the counter is at
most `HYSTERESIS_MAX`, at `HYSTERESIS_MAX` water is detected, at 0 it is not. -/
def Consistent (s : WaterState) : Prop :=
  s.hysteresis ≤ HYSTERESIS_MAX ∧ (s.hysteresis = HYSTERESIS_MAX → s.detected = true) ∧
    (s.hysteresis = 0 → s.detected = false)

/-- The distance between two readings, as `water_work` computes it. -/
def distance (a b : Nat) : Nat := if a > b then a - b else b - a

/-- No two consecutive values of a list are equal. -/
def NoRepeat : List Nat → Prop
  | [] => True
  | [_] => True
  | a :: b :: rest => a ≠ b ∧ NoRepeat (b :: rest)

/-- A sample digital build: as `bench`, without the A/D converter. -/
def digital : Hardware := { bench with WATERSENSOR_ANALOG := false }

/-- The phase a value of `state` stands for: a value outside the three
recognised ones is treated as `LED_ON`. -/
def phase (st : Nat) : Nat :=
  if st = START_CONVERSION ∨ st = PROCESS_RESULT then st else LED_ON

/-- The phase that follows phase `n` in the polling cycle. -/
def nextPhase (hw : Hardware) (n : Nat) : Nat :=
  if n = LED_ON then (if hw.WATERSENSOR_ANALOG then START_CONVERSION else PROCESS_RESULT)
  else if n = START_CONVERSION then PROCESS_RESULT
  else LED_ON

/-- A state in phase `LED_ON` whose timer is pending until tick 500. -/
def settling : WaterState := { powerOn with sensortimer := Timer.pending 500 }

/-- A state in `PROCESS_RESULT`, conversion done, one poll short of detection:
counter 7, last reported value 488, reading 489, no report skipped yet. -/
def brink : WaterState :=
  { powerOn with state := PROCESS_RESULT, hysteresis := 7, old_reflectionquality := 488,
                 ADRES := 489 }

/-- Three calls of `water_work` that make up one poll of the analog build
reading 600: light the LED, start the conversion, process the result. -/
def onePoll : List Sense :=
  [{ now := 0, ADRES := 0, done := false, PORT := 0 },
   { now := 10, ADRES := 0, done := false, PORT := 0 },
   { now := 20, ADRES := 600, done := true, PORT := 0 }]

/-- The result of the last call of a run, `dflt` for an empty run. -/
def lastCall (dflt : WaterState) (rs : List (WaterState × List Event)) : WaterState × List Event :=
  rs.getLastD (dflt, [])

/-- A state in `PROCESS_RESULT`, conversion done, LED lit, no override. -/
def lit : WaterState :=
  { powerOn with state := PROCESS_RESULT, WATERSENSOR_LED_LAT := 0x21, ADRES := 100 }

/-- A call at tick `t` with the sensor pin high. -/
def high (t : Nat) : Sense := { now := t, ADRES := 0, done := false, PORT := 1 }

/-- Two calls of `water_work` that make up one poll of the digital build with
the sensor pin high: light the LED, process the result. -/
def highPoll : List Sense := [high 0, high 10]

/-- The loop `while (!(mask & 0x01)) { mask >>= 0x01; channel ++; }` of
`water_init` on two `unsigned char` variables, allowed at most `fuel`
executions of its body: the values of `mask` and `channel` when the loop
exits, or `none` if the condition still holds after `fuel` executions. -/
def channel_loop : Nat → Nat → Nat → Option (Nat × Nat)
  | 0, mask, channel => if mask &&& 0x01 ≠ 0 then some (mask, channel) else none
  | fuel + 1, mask, channel =>
      if mask &&& 0x01 ≠ 0 then some (mask, channel)
      else channel_loop fuel (mask >>> 0x01) ((channel + 1) % 256)

/-- The A/D converter fields that `water_init` writes: `ADON` and `CHS` of
`ADCON0`, and `ADFM`, `ADCS`, `ADNREF`, `ADPREF` of `ADCON1`. -/
structure ADC where
  ADON : Nat
  CHS : Nat
  ADFM : Nat
  ADCS : Nat
  ADNREF : Nat
  ADPREF : Nat
  deriving DecidableEq, Repr

/-- The function `water_init`, with at most `fuel` executions of the body of
its loop: in the analog build it derives the channel from the mask and sets up
the converter; in the digital build it does nothing. `none` if the loop has not
exited within `fuel` executions. -/
def water_init (hw : Hardware) (fuel : Nat) (adc : ADC) : Option ADC :=
  if hw.WATERSENSOR_ANALOG then
    match channel_loop fuel (hw.WATERSENSORANALOG_MASK % 256) 0 with
    | none => none
    | some (_, channel) =>
        some { adc with ADON := 1, CHS := channel, ADFM := 1, ADCS := 7, ADNREF := 0,
                        ADPREF := 0 }
  else some adc

/-- A sample analog build with the sensor on analog input 5. -/
def bench5 : Hardware := { bench with WATERSENSORANALOG_MASK := 0x20 }

/-- The converter switched off. -/
def adcOff : ADC := { ADON := 0, CHS := 0, ADFM := 0, ADCS := 0, ADNREF := 0, ADPREF := 0 }

end Water

/-! ## `catgenie120.c` -/

namespace CatGenie

/-- The five I/O ports of the controller. -/
inductive Port where
  | A : Port
  | B : Port
  | C : Port
  | D : Port
  | E : Port
  deriving DecidableEq, Repr

/-- The port registers. Each holds a byte. -/
structure Ports where
  PORTA : Nat
  PORTB : Nat
  PORTC : Nat
  PORTD : Nat
  PORTE : Nat
  deriving DecidableEq, Repr

/-- Read through a `volatile char *port`. -/
def Ports.read (r : Ports) : Port → Nat
  | Port.A => r.PORTA
  | Port.B => r.PORTB
  | Port.C => r.PORTC
  | Port.D => r.PORTD
  | Port.E => r.PORTE

/-- Write through a `volatile char *port`. -/
def Ports.write (r : Ports) (p : Port) (v : Nat) : Ports :=
  match p with
  | Port.A => { r with PORTA := v }
  | Port.B => { r with PORTB := v }
  | Port.C => { r with PORTC := v }
  | Port.D => { r with PORTD := v }
  | Port.E => { r with PORTE := v }

/-- Constants that `catgenie120.c` takes from `hardware.h` and `timer.h` (both
absent). The code itself scans `PORTA` for the water sensor and `PORTB` for the
two buttons and the heat sensor; the `*_PORT` a debouncer re-samples is a
constant of `hardware.h`. Masks are bytes. -/
structure Board where
  SECOND : Nat
  TICK_BITS : Nat
  STARTBUTTON_PORT : Port
  STARTBUTTON_MASK : Nat
  SETUPBUTTON_PORT : Port
  SETUPBUTTON_MASK : Nat
  WATERSENSOR_PORT : Port
  WATERSENSOR_MASK : Nat
  HEATSENSOR_PORT : Port
  HEATSENSOR_MASK : Nat
  BEEPER_PORT : Port
  BEEPER_MASK : Nat
  LED_ERROR_PORT : Port
  LED_ERROR_MASK : Nat
  LED_LOCKED_PORT : Port
  LED_LOCKED_MASK : Nat
  LED_CARTRIDGE_PORT : Port
  LED_CARTRIDGE_MASK : Nat
  LED_CAT_PORT : Port
  LED_CAT_MASK : Nat
  deriving DecidableEq, Repr

def BUTTON_DEBOUNCE (b : Board) : Nat := b.SECOND / 20
def WATERSENSOR_DEBOUNCE (b : Board) : Nat := 3 * b.SECOND
def HEATSENSOR_DEBOUNCE : Nat := 0
def PACER_BITTIME (b : Board) : Nat := b.SECOND / 5

def DEBOUNCER_BUTTON_START : Nat := 0
def DEBOUNCER_BUTTON_SETUP : Nat := 1
def DEBOUNCER_SENSOR_WATER : Nat := 2
def DEBOUNCER_SENSOR_HEAT : Nat := 3
def DEBOUNCER_MAX : Nat := 4

def PACER_BEEPER : Nat := 0
def PACER_LED_ERROR : Nat := 1
def PACER_LED_LOCKED : Nat := 2
def PACER_LED_CARTRIDGE : Nat := 3
def PACER_LED_CAT : Nat := 4
def PACER_MAX : Nat := 5

/-- The functions a debouncer's `handler` pointer can hold. -/
inductive Handler where
  | startbutton_event : Handler
  | setupbutton_event : Handler
  | watersensor_event : Handler
  | heatsensor_event : Handler
  deriving DecidableEq, Repr

/-- One call through `debouncers[temp].handler`: the index `temp` of the
debouncer, the function called and its argument. -/
structure Call where
  temp : Nat
  handler : Handler
  arg : Nat
  deriving DecidableEq, Repr

structure debouncer where
  timer : Timer
  timeout : Nat
  state : Nat
  port : Port
  port_mask : Nat
  handler : Handler
  deriving DecidableEq, Repr

structure pacer where
  timer : Timer
  mask : Nat
  pattern : Nat
  repeat_ : Nat
  port : Port
  port_mask : Nat
  deriving DecidableEq, Repr

/-- The static initialiser of `debouncers[]`. -/
def debouncers_init (b : Board) : List debouncer :=
  [ { timer := Timer.never, timeout := BUTTON_DEBOUNCE b, state := 0,
      port := b.STARTBUTTON_PORT, port_mask := b.STARTBUTTON_MASK,
      handler := Handler.startbutton_event },
    { timer := Timer.never, timeout := BUTTON_DEBOUNCE b, state := 0,
      port := b.SETUPBUTTON_PORT, port_mask := b.SETUPBUTTON_MASK,
      handler := Handler.setupbutton_event },
    { timer := Timer.never, timeout := WATERSENSOR_DEBOUNCE b, state := 0,
      port := b.WATERSENSOR_PORT, port_mask := b.WATERSENSOR_MASK,
      handler := Handler.watersensor_event },
    { timer := Timer.never, timeout := HEATSENSOR_DEBOUNCE, state := 0,
      port := b.HEATSENSOR_PORT, port_mask := b.HEATSENSOR_MASK,
      handler := Handler.heatsensor_event } ]

/-- The static initialiser of `pacers[]`. -/
def pacers_init (b : Board) : List pacer :=
  [ { timer := Timer.expired, mask := 0x01, pattern := 0x00, repeat_ := 0,
      port := b.BEEPER_PORT, port_mask := b.BEEPER_MASK },
    { timer := Timer.expired, mask := 0x01, pattern := 0x00, repeat_ := 0,
      port := b.LED_ERROR_PORT, port_mask := b.LED_ERROR_MASK },
    { timer := Timer.expired, mask := 0x01, pattern := 0x00, repeat_ := 0,
      port := b.LED_LOCKED_PORT, port_mask := b.LED_LOCKED_MASK },
    { timer := Timer.expired, mask := 0x01, pattern := 0x00, repeat_ := 0,
      port := b.LED_CARTRIDGE_PORT, port_mask := b.LED_CARTRIDGE_MASK },
    { timer := Timer.expired, mask := 0x01, pattern := 0x00, repeat_ := 0,
      port := b.LED_CAT_PORT, port_mask := b.LED_CAT_MASK } ]

/-- The module's static data and the port registers. -/
structure State where
  PORTA_old : Nat
  PORTB_old : Nat
  debouncers : List debouncer
  pacers : List pacer
  ports : Ports
  deriving DecidableEq, Repr

/-- Assignment to one array element: `xs[i] = f(xs[i])`. -/
def updateAt {α : Type} (f : α → α) : Nat → List α → List α
  | _, [] => []
  | 0, x :: xs => f x :: xs
  | i + 1, x :: xs => x :: updateAt f i xs

/-- The statement `settimeout(&debouncers[i].timer, debouncers[i].timeout)`. -/
def rearm (b : Board) (now i : Nat) (ds : List debouncer) : List debouncer :=
  updateAt (fun d => { d with timer := settimeout b.TICK_BITS now d.timeout }) i ds

/-- The statement `if (temp & MASK) settimeout(&debouncers[i].timer,
debouncers[i].timeout);` of the scan. -/
def edge_rearm (b : Board) (now temp mask i : Nat) (s : State) : State :=
  if temp &&& mask ≠ 0 then { s with debouncers := rearm b now i s.debouncers } else s

/-- Lines 184-205 of `catgenie_work`: poll ports A and B for changes and re-arm
the timer of every debouncer whose input bit changed since the previous scan. -/
def scan (b : Board) (now : Nat) (s : State) : State :=
  let status := s.ports.read Port.A
  let temp := status ^^^ s.PORTA_old
  let s1 := { s with PORTA_old := status }
  let s2 := edge_rearm b now temp b.WATERSENSOR_MASK DEBOUNCER_SENSOR_WATER s1
  let status := s2.ports.read Port.B
  let temp := status ^^^ s2.PORTB_old
  let s3 := { s2 with PORTB_old := status }
  let s4 := edge_rearm b now temp b.STARTBUTTON_MASK DEBOUNCER_BUTTON_START s3
  let s5 := edge_rearm b now temp b.SETUPBUTTON_MASK DEBOUNCER_BUTTON_SETUP s4
  edge_rearm b now temp b.HEATSENSOR_MASK DEBOUNCER_SENSOR_HEAT s5

/-- Lines 209-219 of `catgenie_work`: the body of the debouncer loop for
`debouncers[temp]`. -/
def debounce (b : Board) (now : Nat) (ports : Ports) (temp : Nat) (d : debouncer) :
    debouncer × List Call :=
  if timeoutexpired b.TICK_BITS now d.timer then
    let tempstate := ports.read d.port &&& d.port_mask
    if tempstate ≠ d.state then
      ({ d with state := tempstate, timer := timeoutnever }, [⟨temp, d.handler, tempstate⟩])
    else ({ d with timer := timeoutnever }, [])
  else (d, [])

/-- Lines 208-219 of `catgenie_work`: the debouncer loop, from index `temp` on. -/
def run_debouncers (b : Board) (now : Nat) (ports : Ports) :
    Nat → List debouncer → List debouncer × List Call
  | _, [] => ([], [])
  | temp, d :: ds =>
      ((debounce b now ports temp d).1 :: (run_debouncers b now ports (temp + 1) ds).1,
        (debounce b now ports temp d).2 ++ (run_debouncers b now ports (temp + 1) ds).2)

/-- Lines 224-239 of `catgenie_work`: the body of the pacer loop once the
pacer's timer has expired. -/
def pace_expired (b : Board) (now : Nat) (ports : Ports) (p : pacer) : Ports × pacer :=
  let tempmask := p.mask
  let p1 := { p with timer := settimeout b.TICK_BITS now (PACER_BITTIME b) }
  let ports1 := if p1.pattern &&& tempmask ≠ 0
    then ports.write p1.port (ports.read p1.port ||| p1.port_mask)
    else ports.write p1.port (ports.read p1.port &&& (255 ^^^ p1.port_mask))
  let p2 := { p1 with mask := (p1.mask <<< 1) % 256 }
  if p2.mask = 0 then
    let p3 := { p2 with mask := 1 }
    if p3.repeat_ = 0 then (ports1, { p3 with pattern := 0 }) else (ports1, p3)
  else (ports1, p2)

/-- Lines 223-240 of `catgenie_work`: the body of the pacer loop. -/
def pace (b : Board) (now : Nat) (ports : Ports) (p : pacer) : Ports × pacer :=
  if timeoutexpired b.TICK_BITS now p.timer then pace_expired b now ports p else (ports, p)

/-- Lines 222-240 of `catgenie_work`: the pacer loop. -/
def run_pacers (b : Board) (now : Nat) : Ports → List pacer → Ports × List pacer
  | ports, [] => (ports, [])
  | ports, p :: ps =>
      ((run_pacers b now (pace b now ports p).1 ps).1,
        (pace b now ports p).2 :: (run_pacers b now (pace b now ports p).1 ps).2)

/-- One call of `catgenie_work`. The tick counter reads `now` throughout the
call, and the input pins keep the values held in `s.ports`. -/
def catgenie_work (b : Board) (now : Nat) (s : State) : State × List Call :=
  let s1 := scan b now s
  let r2 := run_debouncers b now s1.ports 0 s1.debouncers
  let r3 := run_pacers b now s1.ports s1.pacers
  ({ s1 with debouncers := r2.1, pacers := r3.2, ports := r3.1 }, r2.2)

def set_Beeper (pattern repeat_ : Nat) (s : State) : State :=
  let arm := fun (p : pacer) => { p with mask := 0x01, pattern := pattern, repeat_ := repeat_ }
  { s with pacers := updateAt arm PACER_BEEPER s.pacers }

/-- What the environment presents to one iteration of the super-loop: the time
in ticks (not wrapped) and the values the port registers read as. -/
structure Input where
  now : Nat
  ports : Ports
  deriving DecidableEq, Repr

/-- One iteration of the super-loop: the ports take the values read in this
iteration, then `catgenie_work` runs. -/
def iterate (b : Board) (s : State) (x : Input) : State × List Call :=
  catgenie_work b x.now { s with ports := x.ports }

/-- All handler calls of a sequence of iterations, in call order. -/
def runCalls (b : Board) (s : State) : List Input → List Call
  | [] => []
  | x :: xs => (iterate b s x).2 ++ runCalls b (iterate b s x).1 xs

/-- The calls made by debouncer `i`. -/
def callsOf (i : Nat) (cs : List Call) : List Call :=
  cs.filter (fun c => c.temp == i)

/-- The port that `catgenie_work` scans for debouncer `i`. -/
def scanPort (i : Nat) : Port :=
  if i = DEBOUNCER_SENSOR_WATER then Port.A else Port.B

/-- The mask that `catgenie_work` scans for debouncer `i`. -/
def scanMask (b : Board) (i : Nat) : Nat :=
  if i = DEBOUNCER_SENSOR_WATER then b.WATERSENSOR_MASK
  else if i = DEBOUNCER_BUTTON_START then b.STARTBUTTON_MASK
  else if i = DEBOUNCER_BUTTON_SETUP then b.SETUPBUTTON_MASK
  else b.HEATSENSOR_MASK

/-- The value of the scanned port recorded at the previous scan. -/
def scanOld (s : State) (i : Nat) : Nat :=
  if i = DEBOUNCER_SENSOR_WATER then s.PORTA_old else s.PORTB_old

/-- The input of debouncer `i` at an iteration: its masked port bits. -/
def inputOf (b : Board) (i : Nat) (x : Input) : Nat :=
  x.ports.read (scanPort i) &&& scanMask b i

/-- What one iteration does to debouncer `i`, given the scanned port value `old`
of the previous iteration: the scan re-arms its timer on an edge, then the
debouncer loop body runs. -/
def channel (b : Board) (x : Input) (old i : Nat) (d : debouncer) : debouncer × List Call :=
  debounce b x.now x.ports i
    (if (x.ports.read (scanPort i) ^^^ old) &&& scanMask b i ≠ 0
      then { d with timer := settimeout b.TICK_BITS x.now d.timeout } else d)

/-- The calls of debouncer `i` over a sequence of iterations, followed on the
debouncer's own record and the previously scanned port value. -/
def channelRun (b : Board) (i : Nat) : debouncer → Nat → List Input → List Call
  | _, _, [] => []
  | d, old, x :: xs =>
      (channel b x old i d).2 ++ channelRun b i (channel b x old i d).1 (x.ports.read (scanPort i)) xs

/-- A pacer over a sequence of iterations: the ports and the pacer after each
step at which the pacer's timer was expired, in order. -/
def paceRun (b : Board) (p : pacer) : List Input → List (Ports × pacer)
  | [] => []
  | x :: xs =>
      if timeoutexpired b.TICK_BITS x.now p.timer
        then pace b x.now x.ports p :: paceRun b (pace b x.now x.ports p).2 xs
        else paceRun b p xs

/-- The level of a pacer's output pin in the port registers. -/
def outputBit (r : Ports) (p : pacer) : Nat :=
  r.read p.port &&& p.port_mask

/-- A sample board: 1000 ticks per second on a 16-bit tick counter, inputs and
outputs wired as in `catgenie_init`. -/
def board : Board :=
  { SECOND := 1000, TICK_BITS := 16,
    STARTBUTTON_PORT := Port.B, STARTBUTTON_MASK := 0x01,
    SETUPBUTTON_PORT := Port.B, SETUPBUTTON_MASK := 0x20,
    WATERSENSOR_PORT := Port.A, WATERSENSOR_MASK := 0x10,
    HEATSENSOR_PORT := Port.B, HEATSENSOR_MASK := 0x02,
    BEEPER_PORT := Port.C, BEEPER_MASK := 0x02,
    LED_ERROR_PORT := Port.C, LED_ERROR_MASK := 0x01,
    LED_LOCKED_PORT := Port.E, LED_LOCKED_MASK := 0x01,
    LED_CARTRIDGE_PORT := Port.E, LED_CARTRIDGE_MASK := 0x02,
    LED_CAT_PORT := Port.E, LED_CAT_MASK := 0x04 }

/-- All port registers clear. -/
def clear : Ports := { PORTA := 0, PORTB := 0, PORTC := 0, PORTD := 0, PORTE := 0 }

/-- The static data before `catgenie_init`, all ports clear. -/
def start (b : Board) : State :=
  { PORTA_old := 0, PORTB_old := 0, debouncers := debouncers_init b,
    pacers := pacers_init b, ports := clear }

/-- The ports with the start button bit high. -/
def pressed : Ports := { clear with PORTB := 0x01 }

/-- An iteration at time `t` with the start button bit high. -/
def down (t : Nat) : Input := { now := t, ports := pressed }

/-- An iteration at time `t` with all ports clear. -/
def up (t : Nat) : Input := { now := t, ports := clear }

/-- The beeper armed with pattern `0b10100000`, one-shot. -/
def beepOnce : pacer :=
  { timer := Timer.expired, mask := 0x01, pattern := 0xA0, repeat_ := 0, port := Port.C,
    port_mask := 0x02 }

/-- Iterations spaced one bit time (200 ticks) apart, all ports clear. -/
def bitTimes (n : Nat) : List Input :=
  (List.range n).map (fun i => { now := 200 * i, ports := clear })

def set_LED_Error (pattern repeat_ : Nat) (s : State) : State :=
  let arm := fun (p : pacer) => { p with mask := 0x01, pattern := pattern, repeat_ := repeat_ }
  { s with pacers := updateAt arm PACER_LED_ERROR s.pacers }

def set_LED_Locked (pattern repeat_ : Nat) (s : State) : State :=
  let arm := fun (p : pacer) => { p with mask := 0x01, pattern := pattern, repeat_ := repeat_ }
  { s with pacers := updateAt arm PACER_LED_LOCKED s.pacers }

def set_LED_Cartridge (pattern repeat_ : Nat) (s : State) : State :=
  let arm := fun (p : pacer) => { p with mask := 0x01, pattern := pattern, repeat_ := repeat_ }
  { s with pacers := updateAt arm PACER_LED_CARTRIDGE s.pacers }

def set_LED_Cat (pattern repeat_ : Nat) (s : State) : State :=
  let arm := fun (p : pacer) => { p with mask := 0x01, pattern := pattern, repeat_ := repeat_ }
  { s with pacers := updateAt arm PACER_LED_CAT s.pacers }

/-- The five arming functions with the index of the pacer each one arms. -/
def armers : List (Nat × (Nat → Nat → State → State)) :=
  [(PACER_BEEPER, set_Beeper), (PACER_LED_ERROR, set_LED_Error),
   (PACER_LED_LOCKED, set_LED_Locked), (PACER_LED_CARTRIDGE, set_LED_Cartridge),
   (PACER_LED_CAT, set_LED_Cat)]

/-- Constants of the actuator functions, from `hardware.h` and `catgenie120.h`
(both absent). Masks are bytes. -/
structure Actuators where
  LED_1_PORT : Port
  LED_1_MASK : Nat
  LED_2_PORT : Port
  LED_2_MASK : Nat
  LED_3_PORT : Port
  LED_3_MASK : Nat
  LED_4_PORT : Port
  LED_4_MASK : Nat
  BOWL_PORT : Port
  BOWL_MASK_CWCCW : Nat
  BOWL_MASK_ONOFF : Nat
  BOWL_STOP : Nat
  BOWL_CW : Nat
  BOWL_CCW : Nat
  ARM_PORT : Port
  ARM_MASK_UPDOWN : Nat
  ARM_MASK_ONOFF : Nat
  ARM_STOP : Nat
  ARM_UP : Nat
  ARM_DOWN : Nat
  WATER_PORT : Port
  WATER_MASK : Nat
  DOSAGE_PORT : Port
  DOSAGE_MASK : Nat
  PUMP_PORT : Port
  PUMP_MASK : Nat
  DRYER_PORT : Port
  DRYER_MASK : Nat
  deriving DecidableEq, Repr

/-- The C operator `!` on a byte: 1 for 0, 0 for anything else. -/
def lnot (v : Nat) : Nat := if v = 0 then 1 else 0

/-- The C operator `~` on a byte. -/
def bnot (v : Nat) : Nat := 255 ^^^ v

/-- The statement `*port |= mask`. -/
def port_or (r : Ports) (q : Port) (mask : Nat) : Ports := r.write q (r.read q ||| mask)

/-- The statement `*port &= mask`. -/
def port_and (r : Ports) (q : Port) (mask : Nat) : Ports := r.write q (r.read q &&& mask)

def set_LED (a : Actuators) (led on_ : Nat) (s : State) : State :=
  if led = 1 then
    (if on_ ≠ 0 then { s with ports := port_or s.ports a.LED_1_PORT a.LED_1_MASK }
      else { s with ports := port_and s.ports a.LED_1_PORT (bnot a.LED_1_MASK) })
  else if led = 2 then
    (if on_ ≠ 0 then { s with ports := port_or s.ports a.LED_2_PORT a.LED_2_MASK }
      else { s with ports := port_and s.ports a.LED_2_PORT (bnot a.LED_2_MASK) })
  else if led = 3 then
    (if on_ ≠ 0 then { s with ports := port_or s.ports a.LED_3_PORT a.LED_3_MASK }
      else { s with ports := port_and s.ports a.LED_3_PORT (bnot a.LED_3_MASK) })
  else if led = 4 then
    (if on_ ≠ 0 then { s with ports := port_or s.ports a.LED_4_PORT a.LED_4_MASK }
      else { s with ports := port_and s.ports a.LED_4_PORT (bnot a.LED_4_MASK) })
  else s

def set_Bowl (a : Actuators) (mode : Nat) (s : State) : State :=
  if mode = a.BOWL_CW then
    let r1 := port_and s.ports a.BOWL_PORT (bnot a.BOWL_MASK_CWCCW)
    { s with ports := port_or r1 a.BOWL_PORT a.BOWL_MASK_ONOFF }
  else if mode = a.BOWL_CCW then
    let r1 := port_or s.ports a.BOWL_PORT a.BOWL_MASK_CWCCW
    { s with ports := port_or r1 a.BOWL_PORT a.BOWL_MASK_ONOFF }
  else
    { s with ports := port_and s.ports a.BOWL_PORT (bnot (a.BOWL_MASK_CWCCW ||| a.BOWL_MASK_ONOFF)) }

def set_Arm (a : Actuators) (mode : Nat) (s : State) : State :=
  if mode = a.ARM_UP then
    let r1 := port_and s.ports a.ARM_PORT (bnot a.ARM_MASK_UPDOWN)
    { s with ports := port_or r1 a.ARM_PORT a.ARM_MASK_ONOFF }
  else if mode = a.ARM_DOWN then
    let r1 := port_or s.ports a.ARM_PORT a.ARM_MASK_UPDOWN
    { s with ports := port_or r1 a.ARM_PORT a.ARM_MASK_ONOFF }
  else
    { s with ports := port_and s.ports a.ARM_PORT (bnot (a.ARM_MASK_UPDOWN ||| a.ARM_MASK_ONOFF)) }

/-- The function `set_Water`: switching off is written `WATER_PORT &= !WATER_MASK`. -/
def set_Water (a : Actuators) (on_ : Nat) (s : State) : State :=
  if on_ ≠ 0 then { s with ports := port_or s.ports a.WATER_PORT a.WATER_MASK }
  else { s with ports := port_and s.ports a.WATER_PORT (lnot a.WATER_MASK) }

/-- The function `set_Dosage`: switching off is written `DOSAGE_PORT &= !DOSAGE_MASK`. -/
def set_Dosage (a : Actuators) (on_ : Nat) (s : State) : State :=
  if on_ ≠ 0 then { s with ports := port_or s.ports a.DOSAGE_PORT a.DOSAGE_MASK }
  else { s with ports := port_and s.ports a.DOSAGE_PORT (lnot a.DOSAGE_MASK) }

/-- The function `set_Pump`: switching off is written `PUMP_PORT &= !PUMP_MASK`. -/
def set_Pump (a : Actuators) (on_ : Nat) (s : State) : State :=
  if on_ ≠ 0 then { s with ports := port_or s.ports a.PUMP_PORT a.PUMP_MASK }
  else { s with ports := port_and s.ports a.PUMP_PORT (lnot a.PUMP_MASK) }

/-- The function `set_Dryer`: switching off is written `DRYER_PORT &= !DRYER_MASK`. -/
def set_Dryer (a : Actuators) (on_ : Nat) (s : State) : State :=
  if on_ ≠ 0 then { s with ports := port_or s.ports a.DRYER_PORT a.DRYER_MASK }
  else { s with ports := port_and s.ports a.DRYER_PORT (lnot a.DRYER_MASK) }

/-- A sample wiring of the actuators: four LEDs on port C, the motors on port
D, all with single-bit masks. -/
def rig : Actuators :=
  { LED_1_PORT := Port.C, LED_1_MASK := 0x04, LED_2_PORT := Port.C, LED_2_MASK := 0x08,
    LED_3_PORT := Port.C, LED_3_MASK := 0x10, LED_4_PORT := Port.C, LED_4_MASK := 0x20,
    BOWL_PORT := Port.D, BOWL_MASK_CWCCW := 0x01, BOWL_MASK_ONOFF := 0x02,
    BOWL_STOP := 0, BOWL_CW := 1, BOWL_CCW := 2,
    ARM_PORT := Port.D, ARM_MASK_UPDOWN := 0x04, ARM_MASK_ONOFF := 0x08,
    ARM_STOP := 0, ARM_UP := 1, ARM_DOWN := 2,
    WATER_PORT := Port.D, WATER_MASK := 0x10, DOSAGE_PORT := Port.D, DOSAGE_MASK := 0x20,
    PUMP_PORT := Port.D, PUMP_MASK := 0x40, DRYER_PORT := Port.D, DRYER_MASK := 0x80 }

/-- All actuators on: every bit of every port set. -/
def allOn : Ports :=
  { PORTA := 0xFF, PORTB := 0xFF, PORTC := 0xFF, PORTD := 0xFF, PORTE := 0xFF }

/-- The static data with every actuator switched on. -/
def running : State := { start board with ports := allOn }

/-- The error LED's pacer half way through a repeating pattern. -/
def midPattern : pacer :=
  { timer := Timer.pending 700, mask := 0x10, pattern := 0x0F, repeat_ := 1, port := Port.C,
    port_mask := 0x01 }

/-- The port registers as the pacer loop of `catgenie_work` reaches `pacers[i]`:
the loop body has run for the pacers before it. -/
def reached (b : Board) (now : Nat) (s : State) (i : Nat) : Ports :=
  (run_pacers b now s.ports (s.pacers.take i)).1

/-- The state after each iteration of the super-loop in which `catgenie_work`
found the timer of `pacers[i]` expired, in order. -/
def pacerSteps (b : Board) (i : Nat) (s : State) : List Input → List State
  | [] => []
  | x :: xs =>
      match s.pacers[i]? with
      | some p =>
          if timeoutexpired b.TICK_BITS x.now p.timer
            then (iterate b s x).1 :: pacerSteps b i (iterate b s x).1 xs
            else pacerSteps b i (iterate b s x).1 xs
      | none => pacerSteps b i (iterate b s x).1 xs

/-- The state after a sequence of iterations of the super-loop. -/
def afterIterations (b : Board) (s : State) : List Input → State
  | [] => s
  | x :: xs => afterIterations b (iterate b s x).1 xs

/-- No pacer other than `pacers[i]` drives a bit of `mask` on `port`: each pin
is wired to one pacer. -/
def OwnPin (port : Port) (mask : Nat) (i : Nat) (ps : List pacer) : Prop :=
  ∀ q ∈ ps.eraseIdx i, q.port ≠ port ∨ q.port_mask &&& mask = 0

/-- The result of the last expired step of a run of the super-loop. -/
def lastState (s : State) (ts : List State) : State :=
  ts.getLastD s

/-- The beeper's pacer on the sample board as the static initialiser leaves
it. -/
def quiet : pacer := { beepOnce with pattern := 0x00 }

/-- The sample board after `set_Beeper(0b10100000, 0)`. -/
def armed : State := set_Beeper 0xA0 0 (start board)

/-- The sample board after `set_Beeper(0b10100000, 1)`. -/
def armedForever : State := set_Beeper 0xA0 1 (start board)

/-- The port registers right after the pacer loop body has run for
`pacers[i]`, for each iteration of the super-loop in which `catgenie_work`
found the timer of `pacers[i]` expired, in order. -/
def pacerPins (b : Board) (i : Nat) (s : State) : List Input → List Ports
  | [] => []
  | x :: xs =>
      match s.pacers[i]? with
      | some p =>
          if timeoutexpired b.TICK_BITS x.now p.timer
            then reached b x.now { s with ports := x.ports } (i + 1)
              :: pacerPins b i (iterate b s x).1 xs
            else pacerPins b i (iterate b s x).1 xs
      | none => pacerPins b i (iterate b s x).1 xs

end CatGenie

/-! ### The soft timer -/

theorem tickModulus_pos (bits : Nat) : 0 < tickModulus bits :=
  Nat.pow_pos (by omega)

/-- Wrap-safe subtraction: if `t` is congruent to `D + c` and `c` is below the
modulus, the wrapped difference of `t` and `D` is `c`. -/
theorem wrap_diff (M t D c : Nat) (hc : c < M) (h : t ≡ D + c [MOD M]) :
    (t % M + M - D % M % M) % M = c := by
  have hM : 0 < M := by omega
  have ha : D % M < M := Nat.mod_lt _ hM
  rw [Nat.mod_mod]
  have hx : t % M + M - D % M + D % M = t % M + M := Nat.sub_add_cancel (by omega)
  have h1 : t % M + M - D % M + D % M ≡ c + D % M [MOD M] := by
    rw [hx]
    have e1 : t % M + M ≡ t [MOD M] := by
      unfold Nat.ModEq
      rw [Nat.add_mod_right, Nat.mod_mod]
    have e2 : c + D % M ≡ D + c [MOD M] := by
      unfold Nat.ModEq
      rw [Nat.add_comm c, Nat.mod_add_mod]
    exact (e1.trans h).trans e2.symm
  have h2 := Nat.ModEq.add_right_cancel' _ h1
  unfold Nat.ModEq at h2
  rw [h2, Nat.mod_eq_of_lt hc]

/-- A timer armed at `t0` for `T` ticks reports expired at any time `t` from
`t0 + T` up to half the counter range later. -/
theorem expired_in_window (bits t0 T t : Nat)
    (h1 : t0 + T ≤ t) (h2 : t < t0 + T + tickModulus bits / 2) :
    timeoutexpired bits t (settimeout bits t0 T) = true := by
  have hM := tickModulus_pos bits
  unfold settimeout timeoutexpired
  have hc : t - (t0 + T) < tickModulus bits := by omega
  have hmod : t ≡ t0 + T + (t - (t0 + T)) [MOD tickModulus bits] := by
    have : t0 + T + (t - (t0 + T)) = t := by omega
    rw [this]
  show decide ((t % tickModulus bits + tickModulus bits
    - (t0 + T) % tickModulus bits % tickModulus bits) % tickModulus bits
      < tickModulus bits / 2) = true
  rw [wrap_diff _ t (t0 + T) (t - (t0 + T)) hc hmod]
  exact decide_eq_true (by omega)

/-- A timer armed at `t0` for `T` ticks, `T` at most half the counter range,
does not report expired at a time `t` before `t0 + T` that is not before `t0`. -/
theorem not_expired_before (bits t0 T t : Nat)
    (h0 : t0 ≤ t) (h1 : t < t0 + T) (h2 : T ≤ tickModulus bits / 2) :
    timeoutexpired bits t (settimeout bits t0 T) = false := by
  have hM := tickModulus_pos bits
  unfold settimeout timeoutexpired
  have hc : tickModulus bits - (t0 + T - t) < tickModulus bits := by omega
  have hmod : t ≡ t0 + T + (tickModulus bits - (t0 + T - t)) [MOD tickModulus bits] := by
    have : t0 + T + (tickModulus bits - (t0 + T - t)) = t + tickModulus bits := by omega
    rw [this]
    unfold Nat.ModEq
    rw [Nat.add_mod_right]
  show decide ((t % tickModulus bits + tickModulus bits
    - (t0 + T) % tickModulus bits % tickModulus bits) % tickModulus bits
      < tickModulus bits / 2) = false
  rw [wrap_diff _ t (t0 + T) _ hc hmod]
  exact decide_eq_false (by omega)

/-! ### Bits of a byte register -/

/-- Clearing the bits of a byte mask in a byte register, bit by bit. -/
theorem testBit_clear (x m i : Nat) (hx : x < 256) (hm : m < 256) :
    (x &&& (255 ^^^ m)).testBit i = (x.testBit i && !m.testBit i) := by
  have h255 : (255 : Nat).testBit i = decide (i < 8) := Nat.testBit_two_pow_sub_one 8 i
  rw [Nat.testBit_and, Nat.testBit_xor, h255]
  by_cases hi : i < 8
  · simp [hi]
  · have hpow : (256 : Nat) ≤ 2 ^ i := by
      have : (2 : Nat) ^ 8 ≤ 2 ^ i := Nat.pow_le_pow_right (by omega) (by omega)
      simpa using this
    rw [Nat.testBit_lt_two_pow (lt_of_lt_of_le hx hpow),
      Nat.testBit_lt_two_pow (lt_of_lt_of_le hm hpow)]
    simp

/-- Setting the bits of a mask in a register, bit by bit. -/
theorem testBit_set (x m i : Nat) : (x ||| m).testBit i = (x.testBit i || m.testBit i) :=
  Nat.testBit_or x m i

/-! ### Theorems about `water.c` -/

namespace Water

/-- A completed poll of the analog build is a call of `water_work` in state
`PROCESS_RESULT` with the conversion done; the reading is `ADRES`. -/
theorem water_work_completed_analog (hw : Hardware) (now : Nat) (s : WaterState)
    (ha : hw.WATERSENSOR_ANALOG = true) (hs : s.state = PROCESS_RESULT)
    (hdone : s.GO_nDONE = false) :
    water_work hw now s = process_result hw now s.ADRES s := by
  unfold water_work
  rw [hs, if_neg (by decide), if_neg (by decide), if_pos rfl, if_pos ha, hdone]
  rfl

/-- A completed poll of the digital build is a call of `water_work` in state
`PROCESS_RESULT` with the settle timer expired; the reading is 520 or 0. -/
theorem water_work_completed_digital (hw : Hardware) (now : Nat) (s : WaterState)
    (ha : hw.WATERSENSOR_ANALOG = false) (hs : s.state = PROCESS_RESULT)
    (hexp : timeoutexpired hw.TICK_BITS now s.sensortimer = true) :
    water_work hw now s = process_result hw now
      (if s.WATERSENSORANALOG_PORT &&& hw.WATERSENSORANALOG_MASK ≠ 0
        then DETECTION_THRESHOLD else 0) s := by
  unfold water_work
  rw [hs, if_neg (by decide), if_neg (by decide), if_pos rfl, ha, hexp]
  rfl

/-- The evaluation threshold `UNDETECTION_THRESHOLD - DETECTION_MARGIN` is 486. -/
theorem threshold_eq : UNDETECTION_THRESHOLD - DETECTION_MARGIN = 486 := by decide

theorem report_hysteresis (s : WaterState) : (report s).1.hysteresis = s.hysteresis := by
  unfold report; split_ifs <;> rfl

theorem report_detected (s : WaterState) : (report s).1.detected = s.detected := by
  unfold report; split_ifs <;> rfl

theorem report_detectionCalls (s : WaterState) : detectionCalls (report s).2 = [] := by
  unfold report; split_ifs <;> rfl

theorem detectionCalls_append (a b : List Event) :
    detectionCalls (a ++ b) = detectionCalls a ++ detectionCalls b := by
  induction a with
  | nil => rfl
  | cons e es ih => cases e <;> simp [detectionCalls, ih]

theorem sensorCalls_append (a b : List Event) :
    sensorCalls (a ++ b) = sensorCalls a ++ sensorCalls b := by
  induction a with
  | nil => rfl
  | cons e es ih => cases e <;> simp [sensorCalls, ih]

theorem process_result_fst (hw : Hardware) (now raw : Nat) (s : WaterState) :
    (process_result hw now raw s).1 =
      { (report (evaluate (sample hw raw s)).1).1 with
          sensortimer := settimeout hw.TICK_BITS now (WATERSENSORPOLLING hw), state := LED_ON } :=
  rfl

theorem process_result_snd (hw : Hardware) (now raw : Nat) (s : WaterState) :
    (process_result hw now raw s).2 =
      (evaluate (sample hw raw s)).2 ++ (report (evaluate (sample hw raw s)).1).2 :=
  rfl

theorem sample_fields (hw : Hardware) (raw : Nat) (s : WaterState) :
    (sample hw raw s).cur_reflectionquality = raw ∧
    (sample hw raw s).hysteresis = s.hysteresis ∧
    (sample hw raw s).detected = s.detected ∧
    (sample hw raw s).old_reflectionquality = s.old_reflectionquality ∧
    (sample hw raw s).event_skips = s.event_skips := by
  by_cases h : (!s.filling && !s.ledalwayson) = true <;> simp [sample, h]

/-- Effect of `evaluate` on a reading above 486. -/
theorem evaluate_above (s : WaterState) (h : 486 < s.cur_reflectionquality) :
    (evaluate s).1.hysteresis
        = (if s.hysteresis < 8 then (s.hysteresis + 1) % 256 else s.hysteresis) ∧
    (evaluate s).1.detected
        = (if s.hysteresis < 8 ∧ 8 ≤ (s.hysteresis + 1) % 256 then true else s.detected) ∧
    detectionCalls (evaluate s).2
        = (if s.hysteresis < 8 ∧ 8 ≤ (s.hysteresis + 1) % 256 ∧ s.detected = false
            then [1] else []) := by
  have hn : ¬ s.cur_reflectionquality ≤ 486 := by omega
  unfold evaluate
  rw [threshold_eq, if_neg hn]
  simp only [HYSTERESIS_MAX, bitval]
  by_cases h8 : s.hysteresis < 8
  · rw [if_pos h8]
    by_cases h9 : 8 ≤ (s.hysteresis + 1) % 256
    · cases hd : s.detected <;> simp [h8, h9, hd, detectionCalls]
    · simp [h8, h9, detectionCalls]
  · simp [h8, detectionCalls]

/-- One completed poll with a reading above 486. -/
theorem process_result_above (hw : Hardware) (now raw : Nat) (s : WaterState)
    (hraw : 486 < raw) :
    (process_result hw now raw s).1.hysteresis
        = (if s.hysteresis < 8 then (s.hysteresis + 1) % 256 else s.hysteresis) ∧
    (process_result hw now raw s).1.detected
        = (if s.hysteresis < 8 ∧ 8 ≤ (s.hysteresis + 1) % 256 then true else s.detected) ∧
    detectionCalls (process_result hw now raw s).2
        = (if s.hysteresis < 8 ∧ 8 ≤ (s.hysteresis + 1) % 256 ∧ s.detected = false
            then [1] else []) := by
  obtain ⟨hc, hh, hd, -, -⟩ := sample_fields hw raw s
  have he := evaluate_above (sample hw raw s) (by rw [hc]; exact hraw)
  rw [hh, hd] at he
  obtain ⟨e1, e2, e3⟩ := he
  refine ⟨?_, ?_, ?_⟩
  · rw [process_result_fst]; show (report _).1.hysteresis = _
    rw [report_hysteresis, e1]
  · rw [process_result_fst]; show (report _).1.detected = _
    rw [report_detected, e2]
  · rw [process_result_snd, detectionCalls_append, report_detectionCalls, e3, List.append_nil]

/-- Polls with readings above 486 from a consistent counter state: the counter
climbs to 8, `detected` is set when it gets there, and only that poll calls
`waterdetection_event`. -/
theorem runPolls_above (hw : Hardware) (ps : List Poll) :
    ∀ (s : WaterState) (j : Nat), s.hysteresis = j → j ≤ 8 → (s.detected = true ↔ j = 8) →
      (∀ p ∈ ps, 486 < p.raw) →
      ∀ (k : Nat) (r : WaterState × List Event), (runPolls hw s ps)[k]? = some r →
        r.1.hysteresis = min (j + k + 1) 8 ∧ (r.1.detected = true ↔ 8 ≤ j + k + 1) ∧
        detectionCalls r.2 = (if j + k + 1 = 8 then [1] else []) := by
  induction ps with
  | nil => intro s j _ _ _ _ k r hr; simp [runPolls] at hr
  | cons p ps ih =>
    intro s j hj hj8 hdet hraw k r hr
    obtain ⟨e1, e2, e3⟩ := process_result_above hw p.now p.raw s (hraw p (List.mem_cons_self _ _))
    rw [hj] at e1 e2 e3
    cases k with
    | zero =>
      simp only [runPolls, List.getElem?_cons_zero, Option.some.injEq] at hr
      subst hr
      refine ⟨?_, ?_, ?_⟩
      · rw [e1]; split_ifs <;> omega
      · rw [e2]; split_ifs with h
        · simp; omega
        · rw [hdet]; omega
      · rw [e3]
        by_cases h7 : j + 0 + 1 = 8
        · have hf : s.detected = false := by
            cases hd : s.detected
            · rfl
            · exact absurd (hdet.mp hd) (by omega)
          rw [if_pos h7, if_pos]; exact ⟨by omega, by omega, hf⟩
        · rw [if_neg h7, if_neg]
          rintro ⟨h1, h2, -⟩; omega
    | succ k =>
      simp only [runPolls, List.getElem?_cons_succ] at hr
      have h := ih (process_result hw p.now p.raw s).1 (min (j + 1) 8)
        (by rw [e1]; split_ifs <;> omega) (by omega)
        (by
          rw [e2]; split_ifs with h
          · simp; omega
          · rw [hdet]; omega)
        (fun q hq => hraw q (List.mem_cons_of_mem _ hq)) k r hr
      obtain ⟨f1, f2, f3⟩ := h
      refine ⟨?_, ?_, ?_⟩
      · rw [f1]; omega
      · rw [f2]; omega
      · rw [f3]
        by_cases h7 : j + (k + 1) + 1 = 8
        · rw [if_pos h7, if_pos]; omega
        · rw [if_neg h7, if_neg]; omega

/-- C1. Rising hysteresis edge: from `hysteresis = 0`, `detected = 0`, over any
sequence of completed polls with readings of 520 or more, the first seven polls
leave `detected` at 0 and call no `waterdetection_event`, the eighth sets
`detected` and calls `waterdetection_event(1)` exactly once, and every later
poll calls no `waterdetection_event` (and `detected` stays set). -/
theorem rising_edge (hw : Hardware) (s : WaterState) (ps : List Poll)
    (h0 : s.hysteresis = 0) (hd : s.detected = false)
    (hraw : ∀ p ∈ ps, DETECTION_THRESHOLD ≤ p.raw)
    (k : Nat) (r : WaterState × List Event) (hr : (runPolls hw s ps)[k]? = some r) :
    (k < 7 → r.1.detected = false ∧ detectionCalls r.2 = []) ∧
    (k = 7 → r.1.detected = true ∧ detectionCalls r.2 = [1]) ∧
    (7 < k → r.1.detected = true ∧ detectionCalls r.2 = []) := by
  have h := runPolls_above hw ps s 0 h0 (by omega) (by simp [hd])
    (fun p hp => by have := hraw p hp; simp only [DETECTION_THRESHOLD] at this; omega) k r hr
  obtain ⟨-, f2, f3⟩ := h
  refine ⟨fun hk => ⟨?_, ?_⟩, fun hk => ⟨?_, ?_⟩, fun hk => ⟨?_, ?_⟩⟩
  · cases hdet : r.1.detected
    · rfl
    · exact absurd (f2.mp hdet) (by omega)
  · rw [f3, if_neg]; omega
  · exact f2.mpr (by omega)
  · rw [f3, if_pos]; omega
  · exact f2.mpr (by omega)
  · rw [f3, if_neg]; omega

theorem rising_edge_witness :
    (lastPoll powerOn (runPolls bench powerOn (List.replicate 8 ⟨0, 520⟩))).1.detected = true ∧
    detectionCalls (lastPoll powerOn (runPolls bench powerOn (List.replicate 8 ⟨0, 520⟩))).2 = [1] :=
  (rising_edge bench powerOn (List.replicate 8 ⟨0, 520⟩) rfl rfl (by decide) 7 _ rfl).2.1 rfl

/-- Effect of `evaluate` on a reading of 486 or less. -/
theorem evaluate_below (s : WaterState) (h : s.cur_reflectionquality ≤ 486) :
    (evaluate s).1.hysteresis = s.hysteresis - 1 ∧
    (evaluate s).1.detected = (if s.hysteresis = 1 then false else s.detected) ∧
    detectionCalls (evaluate s).2
        = (if s.hysteresis = 1 ∧ s.detected = true then [0] else []) := by
  unfold evaluate
  rw [threshold_eq, if_pos h]
  simp only [bitval]
  by_cases h0 : s.hysteresis > 0
  · rw [if_pos h0]
    by_cases h1 : s.hysteresis = 1
    · cases hd : s.detected <;> simp [h1, hd, detectionCalls]
    · have h2 : ¬ s.hysteresis - 1 = 0 := by omega
      simp [h1, h2, detectionCalls]
  · have h1 : s.hysteresis = 0 := by omega
    simp [h1, detectionCalls]

/-- One completed poll with a reading of 486 or less. -/
theorem process_result_below (hw : Hardware) (now raw : Nat) (s : WaterState)
    (hraw : raw ≤ 486) :
    (process_result hw now raw s).1.hysteresis = s.hysteresis - 1 ∧
    (process_result hw now raw s).1.detected
        = (if s.hysteresis = 1 then false else s.detected) ∧
    detectionCalls (process_result hw now raw s).2
        = (if s.hysteresis = 1 ∧ s.detected = true then [0] else []) := by
  obtain ⟨hc, hh, hd, -, -⟩ := sample_fields hw raw s
  have he := evaluate_below (sample hw raw s) (by rw [hc]; exact hraw)
  rw [hh, hd] at he
  obtain ⟨e1, e2, e3⟩ := he
  refine ⟨?_, ?_, ?_⟩
  · rw [process_result_fst]; show (report _).1.hysteresis = _
    rw [report_hysteresis, e1]
  · rw [process_result_fst]; show (report _).1.detected = _
    rw [report_detected, e2]
  · rw [process_result_snd, detectionCalls_append, report_detectionCalls, e3, List.append_nil]

/-- Polls with readings of 486 or less from a consistent counter state: the
counter falls to 0, `detected` is cleared when it gets there, and only that
poll calls `waterdetection_event`. -/
theorem runPolls_below (hw : Hardware) (ps : List Poll) :
    ∀ (s : WaterState) (j : Nat), s.hysteresis = j → (s.detected = true ↔ 0 < j) →
      (∀ p ∈ ps, p.raw ≤ 486) →
      ∀ (k : Nat) (r : WaterState × List Event), (runPolls hw s ps)[k]? = some r →
        r.1.hysteresis = j - (k + 1) ∧ (r.1.detected = true ↔ k + 1 < j) ∧
        detectionCalls r.2 = (if k + 1 = j then [0] else []) := by
  induction ps with
  | nil => intro s j _ _ _ k r hr; simp [runPolls] at hr
  | cons p ps ih =>
    intro s j hj hdet hraw k r hr
    obtain ⟨e1, e2, e3⟩ := process_result_below hw p.now p.raw s (hraw p (List.mem_cons_self _ _))
    rw [hj] at e1 e2 e3
    cases k with
    | zero =>
      simp only [runPolls, List.getElem?_cons_zero, Option.some.injEq] at hr
      subst hr
      refine ⟨e1, ?_, ?_⟩
      · rw [e2]; split_ifs with h
        · simp; omega
        · rw [hdet]; omega
      · rw [e3]
        by_cases h1 : j = 1
        · rw [if_pos ⟨h1, hdet.mpr (by omega)⟩, if_pos (by omega)]
        · rw [if_neg (fun h => h1 h.1), if_neg (by omega)]
    | succ k =>
      simp only [runPolls, List.getElem?_cons_succ] at hr
      have h := ih (process_result hw p.now p.raw s).1 (j - 1) e1
        (by
          rw [e2]; split_ifs with h
          · simp; omega
          · rw [hdet]; omega)
        (fun q hq => hraw q (List.mem_cons_of_mem _ hq)) k r hr
      obtain ⟨f1, f2, f3⟩ := h
      refine ⟨?_, ?_, ?_⟩
      · rw [f1]; omega
      · rw [f2]; omega
      · rw [f3]
        by_cases h7 : k + 1 + 1 = j
        · rw [if_pos h7, if_pos (by omega)]
        · rw [if_neg h7, if_neg (by omega)]

/-- C2 (as stated, refuted). From `detected = 1`, `hysteresis = 8`, eight polls
reading 500 (which is at most 503) leave `detected` set, leave the counter at 8
and call no `waterdetection_event`. -/
theorem reversal_at_500_fails :
    submerged.detected = true ∧ submerged.hysteresis = 8 ∧
    (∀ p ∈ List.replicate 8 (Poll.mk 0 500), p.raw ≤ UNDETECTION_THRESHOLD) ∧
    (lastPoll submerged (runPolls bench submerged (List.replicate 8 ⟨0, 500⟩))).1.detected = true ∧
    (lastPoll submerged (runPolls bench submerged (List.replicate 8 ⟨0, 500⟩))).1.hysteresis = 8 ∧
    (runPolls bench submerged (List.replicate 8 ⟨0, 500⟩)).map (fun r => detectionCalls r.2)
      = List.replicate 8 [] := by
  refine ⟨rfl, rfl, by decide, by decide!, by decide!, by decide!⟩

/-- C2 (amended). Hysteresis reversal: from `detected = 1`, `hysteresis = 8`,
over any sequence of completed polls with readings of at most
`UNDETECTION_THRESHOLD - DETECTION_MARGIN` (486), `detected` is still 1 after
each of the first seven polls, which call no `waterdetection_event`; the eighth
poll clears `detected` and calls `waterdetection_event(0)` exactly once; later
polls call none. -/
theorem falling_edge (hw : Hardware) (s : WaterState) (ps : List Poll)
    (h8 : s.hysteresis = 8) (hd : s.detected = true)
    (hraw : ∀ p ∈ ps, p.raw ≤ UNDETECTION_THRESHOLD - DETECTION_MARGIN)
    (k : Nat) (r : WaterState × List Event) (hr : (runPolls hw s ps)[k]? = some r) :
    (k < 7 → r.1.detected = true ∧ detectionCalls r.2 = []) ∧
    (k = 7 → r.1.detected = false ∧ detectionCalls r.2 = [0]) ∧
    (7 < k → r.1.detected = false ∧ detectionCalls r.2 = []) := by
  have h := runPolls_below hw ps s 8 h8 (by simp [hd])
    (fun p hp => by have := hraw p hp; rw [threshold_eq] at this; exact this) k r hr
  obtain ⟨-, f2, f3⟩ := h
  have hfalse : ¬ k + 1 < 8 → r.1.detected = false := fun hk => by
    cases hdet : r.1.detected
    · rfl
    · exact absurd (f2.mp hdet) hk
  refine ⟨fun hk => ⟨?_, ?_⟩, fun hk => ⟨?_, ?_⟩, fun hk => ⟨?_, ?_⟩⟩
  · exact f2.mpr (by omega)
  · rw [f3, if_neg]; omega
  · exact hfalse (by omega)
  · rw [f3, if_pos]; omega
  · exact hfalse (by omega)
  · rw [f3, if_neg]; omega

theorem falling_edge_witness :
    (lastPoll submerged (runPolls bench submerged (List.replicate 8 ⟨0, 486⟩))).1.detected = false ∧
    detectionCalls (lastPoll submerged (runPolls bench submerged (List.replicate 8 ⟨0, 486⟩))).2
      = [0] :=
  (falling_edge bench submerged (List.replicate 8 ⟨0, 486⟩) rfl rfl (by decide) 7 _ rfl).2.1 rfl

/-- C3 (as stated, refuted). A reading of 510, inside 504..519, moves the
counter from 0 to 1; from `hysteresis = 7`, `detected = 0` it sets `detected`
and calls `waterdetection_event(1)`. -/
theorem dead_band_at_510_fails :
    (process_result bench 0 510 powerOn).1.hysteresis = 1 ∧ powerOn.hysteresis = 0 ∧
    (process_result bench 0 510 { powerOn with hysteresis := 7 }).1.detected = true ∧
    detectionCalls (process_result bench 0 510 { powerOn with hysteresis := 7 }).2 = [1] := by
  refine ⟨rfl, rfl, rfl, rfl⟩

/-- C3 (amended). The code has one evaluation threshold (486) and no dead band.
For readings in 504..519: when the counter is saturated (`hysteresis >= 8`)
every completed poll leaves `hysteresis` and `detected` unchanged and calls no
`waterdetection_event`, however many such polls occur; when `hysteresis < 8`
the poll counts as a detection poll: the counter goes up by one, `detected` is
never cleared, and it is set, with `waterdetection_event(1)`, exactly when the
counter reaches 8 while undetected. -/
theorem dead_band_saturated (hw : Hardware) (s : WaterState) (ps : List Poll)
    (hband : ∀ p ∈ ps, 504 ≤ p.raw ∧ p.raw ≤ 519) :
    (8 ≤ s.hysteresis → ∀ (k : Nat) (r : WaterState × List Event),
      (runPolls hw s ps)[k]? = some r →
        r.1.hysteresis = s.hysteresis ∧ r.1.detected = s.detected ∧ detectionCalls r.2 = []) ∧
    (s.hysteresis < 8 → ∀ (r : WaterState × List Event), (runPolls hw s ps)[0]? = some r →
        r.1.hysteresis = s.hysteresis + 1 ∧
        r.1.detected = (if s.hysteresis = 7 then true else s.detected) ∧
        detectionCalls r.2 = (if s.hysteresis = 7 ∧ s.detected = false then [1] else [])) := by
  constructor
  · intro h8
    induction ps generalizing s with
    | nil => intro k r hr; simp [runPolls] at hr
    | cons p ps ih =>
      intro k r hr
      obtain ⟨e1, e2, e3⟩ := process_result_above hw p.now p.raw s
        (by have := (hband p (List.mem_cons_self _ _)).1; omega)
      rw [if_neg (by omega)] at e1
      rw [if_neg (by omega)] at e2
      rw [if_neg (by omega)] at e3
      cases k with
      | zero =>
        simp only [runPolls, List.getElem?_cons_zero, Option.some.injEq] at hr
        subst hr
        exact ⟨e1, e2, e3⟩
      | succ k =>
        simp only [runPolls, List.getElem?_cons_succ] at hr
        have h := ih (process_result hw p.now p.raw s).1
          (fun q hq => hband q (List.mem_cons_of_mem _ hq)) (by rw [e1]; exact h8) k r hr
        rw [e1, e2] at h
        exact h
  · intro h8 r hr
    cases ps with
    | nil => simp [runPolls] at hr
    | cons p ps =>
      simp only [runPolls, List.getElem?_cons_zero, Option.some.injEq] at hr
      subst hr
      obtain ⟨e1, e2, e3⟩ := process_result_above hw p.now p.raw s
        (by have := (hband p (List.mem_cons_self _ _)).1; omega)
      have hm : (s.hysteresis + 1) % 256 = s.hysteresis + 1 := Nat.mod_eq_of_lt (by omega)
      rw [hm] at e1 e2 e3
      refine ⟨?_, ?_, ?_⟩
      · rw [e1, if_pos h8]
      · rw [e2]
        by_cases h7 : s.hysteresis = 7
        · rw [if_pos h7, if_pos]; omega
        · rw [if_neg h7, if_neg]; omega
      · rw [e3]
        by_cases h7 : s.hysteresis = 7 ∧ s.detected = false
        · rw [if_pos h7, if_pos]; exact ⟨h8, by omega, h7.2⟩
        · rw [if_neg h7, if_neg]
          rintro ⟨-, h2, h3⟩; exact h7 ⟨by omega, h3⟩

theorem dead_band_saturated_witness :
    (lastPoll submerged (runPolls bench submerged [⟨0, 504⟩, ⟨250, 519⟩])).1.hysteresis = 8 ∧
    (lastPoll submerged (runPolls bench submerged [⟨0, 504⟩, ⟨250, 519⟩])).1.detected = true ∧
    detectionCalls (lastPoll submerged (runPolls bench submerged [⟨0, 504⟩, ⟨250, 519⟩])).2 = [] :=
  (dead_band_saturated bench submerged [⟨0, 504⟩, ⟨250, 519⟩] (by decide)).1 (by decide) 1 _ rfl

/-! #### Telemetry -/

theorem evaluate_cur (s : WaterState) :
    (evaluate s).1.cur_reflectionquality = s.cur_reflectionquality := by
  unfold evaluate; dsimp only; split_ifs <;> rfl

theorem evaluate_old (s : WaterState) :
    (evaluate s).1.old_reflectionquality = s.old_reflectionquality := by
  unfold evaluate; dsimp only; split_ifs <;> rfl

theorem evaluate_sensorCalls (s : WaterState) : sensorCalls (evaluate s).2 = [] := by
  unfold evaluate; dsimp only; split_ifs <;> rfl

/-- `evaluate` either leaves `detected` and the skip count alone, or flips
`detected` and forces the skip count to 255. -/
theorem evaluate_skips (s : WaterState) :
    ((evaluate s).1.detected = s.detected ∧ (evaluate s).1.event_skips = s.event_skips) ∨
    ((evaluate s).1.detected ≠ s.detected ∧ (evaluate s).1.event_skips = 255) := by
  unfold evaluate
  dsimp only
  split_ifs with h1 h2 h3 h4 h5
  · right; exact ⟨by simp [h3.2], rfl⟩
  · left; exact ⟨rfl, rfl⟩
  · left; exact ⟨rfl, rfl⟩
  · right; exact ⟨by simp [h5.2], rfl⟩
  · left; exact ⟨rfl, rfl⟩
  · left; exact ⟨rfl, rfl⟩

/-- The report step when its condition holds: the skip count is reset, the
reading becomes the last reported value, and it is reported iff it differs. -/
theorem report_fire (s : WaterState)
    (h : (if s.cur_reflectionquality > s.old_reflectionquality
        then s.cur_reflectionquality - s.old_reflectionquality
        else s.old_reflectionquality - s.cur_reflectionquality) > 4 ∨ s.event_skips ≥ 240) :
    (report s).1.event_skips = 0 ∧
    (report s).1.old_reflectionquality = s.cur_reflectionquality ∧
    sensorCalls (report s).2
      = (if s.cur_reflectionquality ≠ s.old_reflectionquality then [s.cur_reflectionquality]
          else []) := by
  unfold report
  rw [if_pos h]
  by_cases hne : s.cur_reflectionquality ≠ s.old_reflectionquality
  · rw [if_pos hne, if_pos hne]; exact ⟨rfl, rfl, rfl⟩
  · rw [if_neg hne, if_neg hne]; exact ⟨rfl, (not_not.mp hne).symm, rfl⟩

/-- The report step when its condition fails: nothing is reported and the skip
count goes up by one. -/
theorem report_skip (s : WaterState)
    (h : ¬ ((if s.cur_reflectionquality > s.old_reflectionquality
        then s.cur_reflectionquality - s.old_reflectionquality
        else s.old_reflectionquality - s.cur_reflectionquality) > 4 ∨ s.event_skips ≥ 240)) :
    (report s).1.event_skips = s.event_skips + 1 ∧
    (report s).1.old_reflectionquality = s.old_reflectionquality ∧
    sensorCalls (report s).2 = [] := by
  unfold report
  rw [if_neg h]
  refine ⟨?_, rfl, rfl⟩
  show (s.event_skips + 1) % 256 = s.event_skips + 1
  exact Nat.mod_eq_of_lt (by omega)

/-- Telemetry of one completed poll, in terms of the state before the poll. -/
theorem process_result_telemetry (hw : Hardware) (now raw : Nat) (s : WaterState) :
    ((process_result hw now raw s).1.event_skips = 0 ∧
     (process_result hw now raw s).1.old_reflectionquality = raw ∧
     sensorCalls (process_result hw now raw s).2
        = (if raw ≠ s.old_reflectionquality then [raw] else []) ∧
     ((if raw > s.old_reflectionquality then raw - s.old_reflectionquality
        else s.old_reflectionquality - raw) > 4 ∨ s.event_skips ≥ 240 ∨
      (process_result hw now raw s).1.detected ≠ s.detected)) ∨
    ((process_result hw now raw s).1.event_skips = s.event_skips + 1 ∧
     (process_result hw now raw s).1.old_reflectionquality = s.old_reflectionquality ∧
     sensorCalls (process_result hw now raw s).2 = [] ∧
     (process_result hw now raw s).1.detected = s.detected ∧
     ¬ (if raw > s.old_reflectionquality then raw - s.old_reflectionquality
        else s.old_reflectionquality - raw) > 4 ∧ s.event_skips < 240) := by
  obtain ⟨hc, -, hd, ho, hk⟩ := sample_fields hw raw s
  have e1 := evaluate_cur (sample hw raw s)
  have e2 := evaluate_old (sample hw raw s)
  have e3 := evaluate_sensorCalls (sample hw raw s)
  have e4 := evaluate_skips (sample hw raw s)
  rw [hc] at e1
  rw [ho] at e2
  rw [hd, hk] at e4
  have hdet : (process_result hw now raw s).1.detected
      = (evaluate (sample hw raw s)).1.detected := by
    rw [process_result_fst]; show (report _).1.detected = _
    rw [report_detected]
  have hsk : (process_result hw now raw s).1.event_skips
      = (report (evaluate (sample hw raw s)).1).1.event_skips := by
    rw [process_result_fst]
  have hol : (process_result hw now raw s).1.old_reflectionquality
      = (report (evaluate (sample hw raw s)).1).1.old_reflectionquality := by
    rw [process_result_fst]
  have hcalls : sensorCalls (process_result hw now raw s).2
      = sensorCalls (report (evaluate (sample hw raw s)).1).2 := by
    rw [process_result_snd, sensorCalls_append, e3, List.nil_append]
  rw [hdet, hsk, hol, hcalls]
  by_cases hcond : (if (evaluate (sample hw raw s)).1.cur_reflectionquality
        > (evaluate (sample hw raw s)).1.old_reflectionquality
      then (evaluate (sample hw raw s)).1.cur_reflectionquality
        - (evaluate (sample hw raw s)).1.old_reflectionquality
      else (evaluate (sample hw raw s)).1.old_reflectionquality
        - (evaluate (sample hw raw s)).1.cur_reflectionquality) > 4
      ∨ (evaluate (sample hw raw s)).1.event_skips ≥ 240
  · left
    obtain ⟨f1, f2, f3⟩ := report_fire _ hcond
    rw [e1, e2] at f3 hcond
    rw [e1] at f2
    refine ⟨f1, f2, f3, ?_⟩
    rcases hcond with h | h
    · exact Or.inl h
    · rcases e4 with ⟨-, g⟩ | ⟨g, -⟩
      · rw [g] at h; exact Or.inr (Or.inl h)
      · exact Or.inr (Or.inr g)
  · right
    obtain ⟨f1, f2, f3⟩ := report_skip _ hcond
    rw [e1, e2] at hcond
    rw [e2] at f2
    rcases e4 with ⟨g1, g2⟩ | ⟨-, g⟩
    · rw [g2] at f1 hcond
      refine ⟨f1, f2, f3, g1, fun h => hcond (Or.inl h), ?_⟩
      by_contra hlt
      exact hcond (Or.inr (by omega))
    · rw [g] at hcond
      exact absurd (Or.inr (by omega)) hcond

/-- Telemetry of one completed poll that does not flip `detected`, for readings
exactly 5 and exactly 4 away from the last reported value. -/
theorem poll_noise_threshold (hw : Hardware) (now raw : Nat) (s : WaterState)
    (hflip : (process_result hw now raw s).1.detected = s.detected) :
    (s.event_skips < 240 →
      (raw = s.old_reflectionquality + 5 ∨ raw + 5 = s.old_reflectionquality) →
      sensorCalls (process_result hw now raw s).2 = [raw] ∧
      (process_result hw now raw s).1.old_reflectionquality = raw ∧
      (process_result hw now raw s).1.event_skips = 0) ∧
    (s.event_skips < 240 →
      (raw = s.old_reflectionquality + 4 ∨ raw + 4 = s.old_reflectionquality) →
      sensorCalls (process_result hw now raw s).2 = [] ∧
      (process_result hw now raw s).1.old_reflectionquality = s.old_reflectionquality ∧
      (process_result hw now raw s).1.event_skips = s.event_skips + 1) ∧
    (s.event_skips = 240 →
      (raw = s.old_reflectionquality + 4 ∨ raw + 4 = s.old_reflectionquality) →
      sensorCalls (process_result hw now raw s).2 = [raw] ∧
      (process_result hw now raw s).1.old_reflectionquality = raw ∧
      (process_result hw now raw s).1.event_skips = 0) := by
  rcases process_result_telemetry hw now raw s with ⟨f1, f2, f3, f4⟩ | ⟨f1, f2, f3, -, f5, f6⟩
  · refine ⟨fun _ h5 => ⟨?_, f2, f1⟩, fun hk h4 => ?_, fun _ h4 => ⟨?_, f2, f1⟩⟩
    · rw [f3, if_pos (by omega)]
    · exfalso
      rcases f4 with g | g | g
      · split_ifs at g <;> omega
      · omega
      · exact g hflip
    · rw [f3, if_pos (by omega)]
  · refine ⟨fun _ h5 => ?_, fun _ _ => ⟨f3, f2, f1⟩, fun hk _ => ?_⟩
    · exfalso; apply f5; split_ifs <;> omega
    · omega

/-- C4. Telemetry noise threshold. Take a run of completed polls none of which
flips `detected`, starting with at most 240 skipped reports, in which every
poll before poll `k` reads exactly 4 away from the last reported value, so that
poll `k` starts with skip count `event_skips + k`. If that count is below 240
and poll `k` reads exactly 5 away, it calls `watersensor_event(reading)`, the
reading becomes the last reported value and the skip count becomes 0; if it
reads exactly 4 away it calls no `watersensor_event` and the skip count goes up
by one; and if the count has reached 240 (240 polls without a report when the
run starts at 0) a reading still exactly 4 away is reported. -/
theorem telemetry_noise_threshold (hw : Hardware) (ps : List Poll) (s : WaterState)
    (k : Nat) (p : Poll) (r : WaterState × List Event)
    (hflip : ∀ x ∈ runPolls hw s ps, x.1.detected = s.detected)
    (hfour : ∀ (i : Nat) (q : Poll), i < k → ps[i]? = some q →
      q.raw = s.old_reflectionquality + 4 ∨ q.raw + 4 = s.old_reflectionquality)
    (hk : s.event_skips + k ≤ 240)
    (hp : ps[k]? = some p) (hr : (runPolls hw s ps)[k]? = some r) :
    (s.event_skips + k < 240 →
      (p.raw = s.old_reflectionquality + 5 ∨ p.raw + 5 = s.old_reflectionquality) →
      sensorCalls r.2 = [p.raw] ∧ r.1.old_reflectionquality = p.raw ∧ r.1.event_skips = 0) ∧
    (s.event_skips + k < 240 →
      (p.raw = s.old_reflectionquality + 4 ∨ p.raw + 4 = s.old_reflectionquality) →
      sensorCalls r.2 = [] ∧ r.1.old_reflectionquality = s.old_reflectionquality ∧
      r.1.event_skips = s.event_skips + k + 1) ∧
    (s.event_skips + k = 240 →
      (p.raw = s.old_reflectionquality + 4 ∨ p.raw + 4 = s.old_reflectionquality) →
      sensorCalls r.2 = [p.raw] ∧ r.1.old_reflectionquality = p.raw ∧ r.1.event_skips = 0) := by
  induction ps generalizing s k with
  | nil => simp at hp
  | cons p0 ps ih =>
    have hflip0 : (process_result hw p0.now p0.raw s).1.detected = s.detected :=
      hflip _ (by simp [runPolls])
    have h0 := poll_noise_threshold hw p0.now p0.raw s hflip0
    cases k with
    | zero =>
      simp only [List.getElem?_cons_zero, Option.some.injEq] at hp
      simp only [runPolls, List.getElem?_cons_zero, Option.some.injEq] at hr
      subst hp; subst hr
      exact h0
    | succ k =>
      simp only [List.getElem?_cons_succ] at hp
      simp only [runPolls, List.getElem?_cons_succ] at hr
      obtain ⟨g1, g2, g3⟩ := h0.2.1 (by omega) (hfour 0 p0 (by omega) (by simp))
      have h := ih (process_result hw p0.now p0.raw s).1 k
        (fun x hx => by
          rw [hflip0]; exact hflip x (by simp only [runPolls]; exact List.mem_cons_of_mem _ hx))
        (fun i q hi hq => by
          rw [g2]; exact hfour (i + 1) q (by omega) (by simpa using hq))
        (by rw [g3]; omega) hp hr
      rw [g2, g3] at h
      refine ⟨fun a b => h.1 (by omega) b, fun a b => ?_, fun a b => h.2.2 (by omega) b⟩
      obtain ⟨c1, c2, c3⟩ := h.2.1 (by omega) b
      exact ⟨c1, c2, by rw [c3]; omega⟩

theorem telemetry_noise_threshold_witness :
    sensorCalls (lastPoll stale (runPolls bench stale [⟨0, 4⟩, ⟨250, 4⟩])).2 = [4] ∧
    (lastPoll stale (runPolls bench stale [⟨0, 4⟩, ⟨250, 4⟩])).1.old_reflectionquality = 4 ∧
    (lastPoll stale (runPolls bench stale [⟨0, 4⟩, ⟨250, 4⟩])).1.event_skips = 0 :=
  (telemetry_noise_threshold bench [⟨0, 4⟩, ⟨250, 4⟩] stale 1 ⟨250, 4⟩ _ (by decide)
    (fun i q hi hq => by
      have hi0 : i = 0 := by omega
      subst hi0
      simp only [List.getElem?_cons_zero, Option.some.injEq] at hq
      subst hq
      exact Or.inl rfl)
    (by decide) rfl rfl).2.2 rfl (Or.inl rfl)

/-- C5 (as stated, refuted). From power-on, 241 consecutive completed polls
that all read 0 (the last reported value) call `watersensor_event` not once. -/
theorem no_report_in_241_polls :
    (runPolls bench powerOn (List.replicate 241 ⟨0, 0⟩)).length = 241 ∧
    (runPolls bench powerOn (List.replicate 241 ⟨0, 0⟩)).map (fun r => sensorCalls r.2)
      = List.replicate 241 [] := by
  refine ⟨by decide!, by decide!⟩

/-- Within `n + 1` polls of a state whose skip count is at least `240 - n`,
some poll resets the skip count. -/
theorem reset_within (hw : Hardware) (n : Nat) :
    ∀ (s : WaterState) (ps : List Poll), 240 ≤ s.event_skips + n → n < ps.length →
      ∃ (k : Nat) (p : Poll) (r : WaterState × List Event),
        k ≤ n ∧ ps[k]? = some p ∧ (runPolls hw s ps)[k]? = some r ∧
        r.1.event_skips = 0 ∧ r.1.old_reflectionquality = p.raw ∧
        sensorCalls r.2
          = (if p.raw ≠ (afterPolls hw s (ps.take k)).old_reflectionquality then [p.raw] else []) := by
  induction n with
  | zero =>
    intro s ps hs hlen
    cases ps with
    | nil => simp at hlen
    | cons p ps =>
      rcases process_result_telemetry hw p.now p.raw s with ⟨f1, f2, f3, -⟩ | ⟨-, -, -, -, -, f6⟩
      · exact ⟨0, p, process_result hw p.now p.raw s, le_refl _, by simp, by simp [runPolls], f1, f2, f3⟩
      · omega
  | succ n ih =>
    intro s ps hs hlen
    cases ps with
    | nil => simp at hlen
    | cons p ps =>
      rcases process_result_telemetry hw p.now p.raw s with ⟨f1, f2, f3, -⟩ | ⟨f1, -, -, -, -, -⟩
      · exact ⟨0, p, process_result hw p.now p.raw s, Nat.zero_le _, by simp, by simp [runPolls], f1, f2, f3⟩
      · obtain ⟨k, q, r, hk, hq, hr, g1, g2, g3⟩ := ih (process_result hw p.now p.raw s).1 ps
          (by rw [f1]; omega) (by simpa using hlen)
        exact ⟨k + 1, q, r, by omega, by simpa using hq, by simpa [runPolls] using hr, g1, g2,
          by simpa [afterPolls] using g3⟩

/-- While every reading equals the last reported value, no completed poll
calls `watersensor_event`, whatever the skip count. -/
theorem constant_unreported (hw : Hardware) (ps : List Poll) :
    ∀ (s : WaterState), (∀ p ∈ ps, p.raw = s.old_reflectionquality) →
      ∀ r ∈ runPolls hw s ps, sensorCalls r.2 = [] := by
  induction ps with
  | nil => intro s _ r hr; simp [runPolls] at hr
  | cons p ps ih =>
    intro s hall r hr
    have hp : p.raw = s.old_reflectionquality := hall p (List.mem_cons_self _ _)
    have hcalls : sensorCalls (process_result hw p.now p.raw s).2 = [] ∧
        (process_result hw p.now p.raw s).1.old_reflectionquality = s.old_reflectionquality := by
      rcases process_result_telemetry hw p.now p.raw s with ⟨-, f2, f3, -⟩ | ⟨-, f2, f3, -⟩
      · exact ⟨by rw [f3, if_neg (not_not.mpr hp)], by rw [f2, hp]⟩
      · exact ⟨f3, f2⟩
    unfold runPolls at hr
    rcases List.mem_cons.mp hr with h | h
    · rw [h]; exact hcalls.1
    · exact ih (process_result hw p.now p.raw s).1
        (fun q hq => by rw [hcalls.2]; exact hall q (List.mem_cons_of_mem _ hq)) r h

/-- A reading that differs from the last reported value can also stay
unreported for more than 240 polls: from power-on, 240 polls reading 1, one
reading 0 and 240 reading 1 call `watersensor_event` not once. -/
theorem change_unreported :
    (runPolls bench powerOn
        (List.replicate 240 ⟨0, 1⟩ ++ ⟨0, 0⟩ :: List.replicate 240 ⟨0, 1⟩)).map
      (fun r => sensorCalls r.2) = List.replicate 481 [] := by
  decide!

/-- C5 (amended). Staleness bound: every window of 241 consecutive completed
polls contains a poll that resets the skip count to 0 and makes the reading the
last reported value; at that poll `watersensor_event` is called with the
reading if it differs from the last reported value and is not called if it
equals it. A call itself is not guaranteed: a run of completed polls of any
length whose readings all equal the last reported value calls
`watersensor_event` not once. -/
theorem staleness_bound (hw : Hardware) (s : WaterState) (ps : List Poll) :
    (ps.length = 241 →
      ∃ (k : Nat) (p : Poll) (r : WaterState × List Event),
        k < 241 ∧ ps[k]? = some p ∧ (runPolls hw s ps)[k]? = some r ∧
        r.1.event_skips = 0 ∧ r.1.old_reflectionquality = p.raw ∧
        sensorCalls r.2
          = (if p.raw ≠ (afterPolls hw s (ps.take k)).old_reflectionquality then [p.raw]
              else [])) ∧
    ((∀ p ∈ ps, p.raw = s.old_reflectionquality) →
      (runPolls hw s ps).length = ps.length ∧
      ∀ r ∈ runPolls hw s ps, sensorCalls r.2 = []) := by
  refine ⟨fun hlen => ?_, fun hall => ⟨?_, constant_unreported hw ps s hall⟩⟩
  · obtain ⟨k, p, r, hk, h⟩ := reset_within hw 240 s ps (by omega) (by omega)
    exact ⟨k, p, r, by omega, h⟩
  · clear hall
    induction ps generalizing s with
    | nil => rfl
    | cons p ps ih => simp [runPolls, ih]

theorem staleness_bound_witness :
    (∃ (k : Nat) (p : Poll) (r : WaterState × List Event),
      k < 241 ∧ (List.replicate 241 (Poll.mk 0 9))[k]? = some p ∧
      (runPolls bench powerOn (List.replicate 241 ⟨0, 9⟩))[k]? = some r ∧
      r.1.event_skips = 0 ∧ r.1.old_reflectionquality = p.raw ∧
      sensorCalls r.2
        = (if p.raw ≠ (afterPolls bench powerOn
            ((List.replicate 241 (Poll.mk 0 9)).take k)).old_reflectionquality then [p.raw]
            else [])) ∧
    sensorCalls (lastPoll powerOn (runPolls bench powerOn (List.replicate 241 ⟨0, 0⟩))).2 = [] :=
  ⟨(staleness_bound bench powerOn (List.replicate 241 ⟨0, 9⟩)).1 (List.length_replicate 241 _),
    ((staleness_bound bench powerOn (List.replicate 241 ⟨0, 0⟩)).2
      (fun p hp => by rw [(List.mem_replicate.mp hp).2]; rfl)).2
      (lastPoll powerOn (runPolls bench powerOn (List.replicate 241 ⟨0, 0⟩))) (by decide!)⟩

/-! #### The cycle of `water_work` -/

/-- A call that completes a poll is `process_result` on the reading. -/
theorem water_work_completes (hw : Hardware) (now : Nat) (t : WaterState)
    (h : completes hw now t = true) :
    water_work hw now t = process_result hw now (reading hw t) t := by
  unfold completes at h
  rw [Bool.and_eq_true, decide_eq_true_eq] at h
  obtain ⟨hs, hr⟩ := h
  cases ha : hw.WATERSENSOR_ANALOG
  · rw [ha] at hr
    rw [water_work_completed_digital hw now t ha hs (by simpa using hr)]
    unfold reading
    rw [ha]
    rfl
  · rw [ha] at hr
    rw [water_work_completed_analog hw now t ha hs (by simpa using hr)]
    unfold reading
    rw [ha]
    rfl

/-- A call that does not complete a poll reports nothing and leaves the
classification and telemetry data and the two override flags alone. -/
theorem water_work_idle (hw : Hardware) (now : Nat) (t : WaterState)
    (h : completes hw now t = false) :
    (water_work hw now t).2 = [] ∧
    (water_work hw now t).1.hysteresis = t.hysteresis ∧
    (water_work hw now t).1.detected = t.detected ∧
    (water_work hw now t).1.cur_reflectionquality = t.cur_reflectionquality ∧
    (water_work hw now t).1.old_reflectionquality = t.old_reflectionquality ∧
    (water_work hw now t).1.event_skips = t.event_skips ∧
    (water_work hw now t).1.filling = t.filling ∧
    (water_work hw now t).1.ledalwayson = t.ledalwayson := by
  unfold completes at h
  unfold water_work led_on
  by_cases h0 : t.state = LED_ON
  · rw [if_pos h0]
    split_ifs <;> exact ⟨rfl, rfl, rfl, rfl, rfl, rfl, rfl, rfl⟩
  · rw [if_neg h0]
    by_cases h1 : t.state = START_CONVERSION
    · rw [if_pos h1]
      split_ifs <;> exact ⟨rfl, rfl, rfl, rfl, rfl, rfl, rfl, rfl⟩
    · rw [if_neg h1]
      by_cases h2 : t.state = PROCESS_RESULT
      · rw [if_pos h2]
        rw [decide_eq_true h2, Bool.true_and] at h
        cases ha : hw.WATERSENSOR_ANALOG
        · rw [ha] at h
          simp only [Bool.false_eq_true, if_false] at h ⊢
          rw [h]
          exact ⟨rfl, rfl, rfl, rfl, rfl, rfl, rfl, rfl⟩
        · rw [ha] at h
          simp only [if_true, Bool.not_eq_false'] at h ⊢
          rw [h]
          exact ⟨rfl, rfl, rfl, rfl, rfl, rfl, rfl, rfl⟩
      · rw [if_neg h2]
        dsimp only
        split_ifs <;> exact ⟨rfl, rfl, rfl, rfl, rfl, rfl, rfl, rfl⟩

theorem water_work_default (hw : Hardware) (now : Nat) (s : WaterState)
    (h0 : s.state ≠ LED_ON) (h1 : s.state ≠ START_CONVERSION) (h2 : s.state ≠ PROCESS_RESULT) :
    water_work hw now s = water_work hw now { s with state := LED_ON } := by
  unfold water_work
  rw [if_neg h0, if_neg h1, if_neg h2, if_pos rfl]

theorem water_work_led_on (hw : Hardware) (now : Nat) (s : WaterState)
    (h0 : s.state = LED_ON) (hex : timeoutexpired hw.TICK_BITS now s.sensortimer = true) :
    water_work hw now s =
      ({ s with WATERSENSOR_LED_LAT := s.WATERSENSOR_LED_LAT ||| hw.WATERSENSOR_LED_MASK,
                sensortimer := settimeout hw.TICK_BITS now (DETECTTIME hw),
                state := if hw.WATERSENSOR_ANALOG then START_CONVERSION else PROCESS_RESULT },
        []) := by
  unfold water_work led_on
  rw [if_pos h0, hex]
  rfl

theorem water_work_start (hw : Hardware) (now : Nat) (s : WaterState)
    (h1 : s.state = START_CONVERSION)
    (hex : timeoutexpired hw.TICK_BITS now s.sensortimer = true) :
    water_work hw now s = ({ s with GO_nDONE := true, state := PROCESS_RESULT }, []) := by
  unfold water_work
  rw [h1, if_neg (by decide), if_pos rfl, hex]
  rfl

theorem water_work_wait (hw : Hardware) (now : Nat) (s : WaterState)
    (h01 : s.state = LED_ON ∨ s.state = START_CONVERSION)
    (hex : timeoutexpired hw.TICK_BITS now s.sensortimer = false) :
    water_work hw now s = (s, []) := by
  unfold water_work led_on
  rcases h01 with h0 | h1
  · rw [if_pos h0, hex]; rfl
  · rw [h1, if_neg (by decide), if_pos rfl, hex]; rfl

theorem water_work_busy (hw : Hardware) (now : Nat) (s : WaterState)
    (h2 : s.state = PROCESS_RESULT) (hc : completes hw now s = false) :
    water_work hw now s = (s, []) := by
  unfold completes at hc
  rw [decide_eq_true h2, Bool.true_and] at hc
  unfold water_work
  rw [h2, if_neg (by decide), if_neg (by decide), if_pos rfl]
  cases ha : hw.WATERSENSOR_ANALOG
  · rw [ha] at hc
    simp only [Bool.false_eq_true, if_false] at hc ⊢
    rw [hc]; rfl
  · rw [ha] at hc
    simp only [if_true, Bool.not_eq_false'] at hc ⊢
    rw [hc]; rfl

theorem phase_values :
    phase LED_ON = LED_ON ∧ phase START_CONVERSION = START_CONVERSION ∧
    phase PROCESS_RESULT = PROCESS_RESULT ∧
    (∀ st, st ≠ LED_ON → st ≠ START_CONVERSION → st ≠ PROCESS_RESULT → phase st = LED_ON) := by
  refine ⟨by decide, by decide, by decide, ?_⟩
  intro st _ h1 h2
  unfold phase
  rw [if_neg]
  rintro (h | h)
  · exact h1 h
  · exact h2 h

/-- Every call leaves the phase where it was or moves it one step on. -/
theorem water_work_phase (hw : Hardware) (now : Nat) (s : WaterState) :
    (water_work hw now s).1.state = phase s.state ∨
      (water_work hw now s).1.state = nextPhase hw (phase s.state) := by
  obtain ⟨p0, p1, p2, p3⟩ := phase_values
  have hled : ∀ t : WaterState, t.state = LED_ON →
      (water_work hw now t).1.state = LED_ON ∨
        (water_work hw now t).1.state = nextPhase hw LED_ON := by
    intro t h0
    cases hex : timeoutexpired hw.TICK_BITS now t.sensortimer
    · left; rw [water_work_wait hw now t (Or.inl h0) hex]; exact h0
    · right; rw [water_work_led_on hw now t h0 hex]; rfl
  by_cases h0 : s.state = LED_ON
  · rw [h0, p0]; exact hled s h0
  · by_cases h1 : s.state = START_CONVERSION
    · rw [h1, p1]
      cases hex : timeoutexpired hw.TICK_BITS now s.sensortimer
      · left; rw [water_work_wait hw now s (Or.inr h1) hex]; exact h1
      · right; rw [water_work_start hw now s h1 hex]; rfl
    · by_cases h2 : s.state = PROCESS_RESULT
      · rw [h2, p2]
        cases hc : completes hw now s
        · left; rw [water_work_busy hw now s h2 hc]; exact h2
        · right; rw [water_work_completes hw now s hc]; rfl
      · rw [p3 s.state h0 h1 h2, water_work_default hw now s h0 h1 h2]
        exact hled _ rfl

/-- C13. The cycle of `water_work`. An unrecognised `state` behaves as `LED_ON`;
`LED_ON` with the timer expired lights the LED, arms the settle timer and moves
to `START_CONVERSION` (analog build) or `PROCESS_RESULT` (digital build);
`START_CONVERSION` with the timer expired starts the conversion and moves to
`PROCESS_RESULT`; `PROCESS_RESULT` with the reading available classifies and
reports it, re-arms the timer for the poll interval and moves to `LED_ON`; a
call whose timer or conversion is not ready changes nothing at all in a
recognised state, and never the hysteresis counter, `detected` or the telemetry
data. Every call leaves the phase where it was or moves it one step along the
cycle, and unless it completes a poll it classifies nothing. -/
theorem cycle_transitions (hw : Hardware) (now : Nat) (s : WaterState) :
    (s.state ≠ LED_ON → s.state ≠ START_CONVERSION → s.state ≠ PROCESS_RESULT →
      water_work hw now s = water_work hw now { s with state := LED_ON }) ∧
    (s.state = LED_ON → timeoutexpired hw.TICK_BITS now s.sensortimer = true →
      water_work hw now s =
        ({ s with WATERSENSOR_LED_LAT := s.WATERSENSOR_LED_LAT ||| hw.WATERSENSOR_LED_MASK,
                  sensortimer := settimeout hw.TICK_BITS now (DETECTTIME hw),
                  state := if hw.WATERSENSOR_ANALOG then START_CONVERSION else PROCESS_RESULT },
          [])) ∧
    (s.state = START_CONVERSION → timeoutexpired hw.TICK_BITS now s.sensortimer = true →
      water_work hw now s = ({ s with GO_nDONE := true, state := PROCESS_RESULT }, [])) ∧
    (completes hw now s = true →
      water_work hw now s = process_result hw now (reading hw s) s ∧
      (water_work hw now s).1.state = LED_ON ∧
      (water_work hw now s).1.sensortimer
        = settimeout hw.TICK_BITS now (WATERSENSORPOLLING hw)) ∧
    ((s.state = LED_ON ∨ s.state = START_CONVERSION) →
      timeoutexpired hw.TICK_BITS now s.sensortimer = false → water_work hw now s = (s, [])) ∧
    (s.state = PROCESS_RESULT → completes hw now s = false → water_work hw now s = (s, [])) ∧
    (completes hw now s = false →
      (water_work hw now s).2 = [] ∧
      (water_work hw now s).1.hysteresis = s.hysteresis ∧
      (water_work hw now s).1.detected = s.detected ∧
      (water_work hw now s).1.cur_reflectionquality = s.cur_reflectionquality ∧
      (water_work hw now s).1.old_reflectionquality = s.old_reflectionquality ∧
      (water_work hw now s).1.event_skips = s.event_skips) ∧
    ((water_work hw now s).1.state = phase s.state ∨
      (water_work hw now s).1.state = nextPhase hw (phase s.state)) := by
  refine ⟨water_work_default hw now s, water_work_led_on hw now s, water_work_start hw now s,
    ?_, water_work_wait hw now s, water_work_busy hw now s, ?_, water_work_phase hw now s⟩
  · intro hc
    rw [water_work_completes hw now s hc]
    exact ⟨rfl, rfl, rfl⟩
  · intro hc
    obtain ⟨e1, e2, e3, e4, e5, e6, -, -⟩ := water_work_idle hw now s hc
    exact ⟨e1, e2, e3, e4, e5, e6⟩

theorem cycle_transitions_witness :
    water_work bench 0 powerOn =
      ({ powerOn with WATERSENSOR_LED_LAT := powerOn.WATERSENSOR_LED_LAT ||| bench.WATERSENSOR_LED_MASK,
                      sensortimer := settimeout bench.TICK_BITS 0 (DETECTTIME bench),
                      state := if bench.WATERSENSOR_ANALOG then START_CONVERSION else PROCESS_RESULT },
        []) ∧
    water_work bench 0 settling = (settling, []) :=
  ⟨(cycle_transitions bench 0 powerOn).2.1 rfl rfl,
    (cycle_transitions bench 0 settling).2.2.2.2.1 (Or.inl rfl) (by decide)⟩

/-! #### Detection flips and telemetry -/

/-- When `evaluate` flips `detected` it calls `waterdetection_event` with the
new value, and nothing else, and forces the skip count to 255. -/
theorem evaluate_flip (s : WaterState) (h : (evaluate s).1.detected ≠ s.detected) :
    (evaluate s).2 = [Event.waterdetection_event (bitval (evaluate s).1.detected)] ∧
    (evaluate s).1.event_skips = 255 := by
  unfold evaluate at h ⊢
  dsimp only at h ⊢
  split_ifs at h ⊢ with h1 h2 h3 h4 h5
  · exact ⟨rfl, rfl⟩
  · exact absurd rfl h
  · exact absurd rfl h
  · exact ⟨rfl, rfl⟩
  · exact absurd rfl h
  · exact absurd rfl h

/-- The events of the report step. -/
theorem report_events (s : WaterState) :
    (report s).2 =
      (if (if s.cur_reflectionquality > s.old_reflectionquality
            then s.cur_reflectionquality - s.old_reflectionquality
            else s.old_reflectionquality - s.cur_reflectionquality) > 4
          ∨ s.event_skips ≥ 240 then
        (if s.cur_reflectionquality ≠ s.old_reflectionquality
          then [Event.watersensor_event s.cur_reflectionquality] else [])
      else []) := by
  unfold report
  split_ifs <;> rfl

/-- C16. Event order on a detection flip. A call of `water_work` that changes
`detected` is a completed poll; it calls `waterdetection_event` with the new
value first, then `watersensor_event(reading)` if the reading differs from the
last reported value, whatever the difference and the skip count, and nothing
else; the skip count is 0 afterwards. -/
theorem flip_event_order (hw : Hardware) (now : Nat) (t : WaterState)
    (hflip : (water_work hw now t).1.detected ≠ t.detected) :
    completes hw now t = true ∧
    (water_work hw now t).2
      = Event.waterdetection_event (bitval (water_work hw now t).1.detected) ::
          (if reading hw t ≠ t.old_reflectionquality
            then [Event.watersensor_event (reading hw t)] else []) ∧
    (water_work hw now t).1.event_skips = 0 := by
  have hc : completes hw now t = true := by
    cases hc : completes hw now t
    · exact absurd (water_work_idle hw now t hc).2.2.1 hflip
    · rfl
  refine ⟨hc, ?_⟩
  rw [water_work_completes hw now t hc] at hflip ⊢
  obtain ⟨hcur, -, hd, ho, -⟩ := sample_fields hw (reading hw t) t
  have hdet : (process_result hw now (reading hw t) t).1.detected
      = (evaluate (sample hw (reading hw t) t)).1.detected := by
    rw [process_result_fst]; show (report _).1.detected = _
    rw [report_detected]
  rw [hdet] at hflip ⊢
  obtain ⟨f1, f2⟩ := evaluate_flip (sample hw (reading hw t) t) (by rw [hd]; exact hflip)
  have hforce : (if (evaluate (sample hw (reading hw t) t)).1.cur_reflectionquality
        > (evaluate (sample hw (reading hw t) t)).1.old_reflectionquality
      then (evaluate (sample hw (reading hw t) t)).1.cur_reflectionquality
        - (evaluate (sample hw (reading hw t) t)).1.old_reflectionquality
      else (evaluate (sample hw (reading hw t) t)).1.old_reflectionquality
        - (evaluate (sample hw (reading hw t) t)).1.cur_reflectionquality) > 4
      ∨ (evaluate (sample hw (reading hw t) t)).1.event_skips ≥ 240 :=
    Or.inr (by rw [f2]; decide)
  obtain ⟨g1, -, -⟩ := report_fire _ hforce
  have hev := report_events (evaluate (sample hw (reading hw t) t)).1
  rw [if_pos hforce, evaluate_cur, evaluate_old, hcur, ho] at hev
  refine ⟨?_, ?_⟩
  · rw [process_result_snd, f1, hev]
    rfl
  · rw [process_result_fst]
    exact g1

theorem flip_event_order_witness :
    completes bench 0 brink = true ∧
    (water_work bench 0 brink).2
      = Event.waterdetection_event (bitval (water_work bench 0 brink).1.detected) ::
          (if reading bench brink ≠ brink.old_reflectionquality
            then [Event.watersensor_event (reading bench brink)] else []) ∧
    (water_work bench 0 brink).1.event_skips = 0 :=
  flip_event_order bench 0 brink (by decide)

/-! #### Invariants over runs of `water_work` -/

theorem sense_fields (s : WaterState) (x : Sense) :
    (sense s x).hysteresis = s.hysteresis ∧ (sense s x).detected = s.detected ∧
    (sense s x).cur_reflectionquality = s.cur_reflectionquality ∧
    (sense s x).old_reflectionquality = s.old_reflectionquality ∧
    (sense s x).event_skips = s.event_skips ∧ (sense s x).filling = s.filling ∧
    (sense s x).ledalwayson = s.ledalwayson ∧
    (sense s x).WATERSENSOR_LED_LAT = s.WATERSENSOR_LED_LAT ∧
    (sense s x).state = s.state ∧ (sense s x).sensortimer = s.sensortimer :=
  ⟨rfl, rfl, rfl, rfl, rfl, rfl, rfl, rfl, rfl, rfl⟩

/-- One call of `water_work` keeps the counter and `detected` consistent, and
flips `detected` only as the counter arrives at 8 or at 0. -/
theorem water_work_consistent (hw : Hardware) (now : Nat) (t : WaterState)
    (hc : Consistent t) :
    Consistent (water_work hw now t).1 ∧
    ((water_work hw now t).1.detected ≠ t.detected →
      ((water_work hw now t).1.detected = true ∧ (water_work hw now t).1.hysteresis = 8
        ∧ t.hysteresis = 7) ∨
      ((water_work hw now t).1.detected = false ∧ (water_work hw now t).1.hysteresis = 0
        ∧ t.hysteresis = 1)) := by
  unfold Consistent HYSTERESIS_MAX at hc ⊢
  obtain ⟨c1, c2, c3⟩ := hc
  cases hcomp : completes hw now t
  · obtain ⟨-, e1, e2, -⟩ := water_work_idle hw now t hcomp
    rw [e1, e2]
    exact ⟨⟨c1, c2, c3⟩, fun h => absurd rfl h⟩
  · rw [water_work_completes hw now t hcomp]
    by_cases hr : reading hw t ≤ 486
    · obtain ⟨e1, e2, -⟩ := process_result_below hw now (reading hw t) t hr
      rw [e1, e2]
      by_cases h1 : t.hysteresis = 1
      · rw [if_pos h1]
        refine ⟨⟨by omega, fun h => by omega, fun _ => rfl⟩, fun _ => Or.inr ⟨rfl, by omega, h1⟩⟩
      · rw [if_neg h1]
        refine ⟨⟨by omega, fun h => by omega, fun h => c3 (by omega)⟩, fun h => absurd rfl h⟩
    · obtain ⟨e1, e2, -⟩ := process_result_above hw now (reading hw t) t (by omega)
      rw [e1, e2]
      by_cases h8 : t.hysteresis < 8
      · have hm : (t.hysteresis + 1) % 256 = t.hysteresis + 1 := Nat.mod_eq_of_lt (by omega)
        rw [if_pos h8, hm]
        by_cases h7 : t.hysteresis = 7
        · rw [if_pos ⟨h8, by omega⟩]
          refine ⟨⟨by omega, fun _ => rfl, fun h => by omega⟩,
            fun _ => Or.inl ⟨rfl, by omega, h7⟩⟩
        · rw [if_neg (fun h => h7 (by omega))]
          refine ⟨⟨by omega, fun h => by omega, fun h => by omega⟩, fun h => absurd rfl h⟩
      · rw [if_neg h8, if_neg (fun h => h8 h.1)]
        exact ⟨⟨c1, c2, c3⟩, fun h => absurd rfl h⟩

/-- Consistency of the counter and `detected` along a run, with the call at
which each flip of `detected` happens. -/
theorem waterRun_consistent (hw : Hardware) (xs : List Sense) :
    ∀ (s : WaterState), Consistent s →
      ∀ (k : Nat) (r : WaterState × List Event), (waterRun hw s xs)[k]? = some r →
        Consistent r.1 ∧
        (r.1.detected ≠ (waterAfter hw s (xs.take k)).detected →
          (r.1.detected = true ∧ r.1.hysteresis = 8
            ∧ (waterAfter hw s (xs.take k)).hysteresis = 7) ∨
          (r.1.detected = false ∧ r.1.hysteresis = 0
            ∧ (waterAfter hw s (xs.take k)).hysteresis = 1)) := by
  induction xs with
  | nil => intro s _ k r hr; simp [waterRun] at hr
  | cons x xs ih =>
    intro s hs k r hr
    have hstep := water_work_consistent hw x.now (sense s x) hs
    cases k with
    | zero =>
      simp only [waterRun, List.getElem?_cons_zero, Option.some.injEq] at hr
      subst hr
      exact hstep
    | succ k =>
      simp only [waterRun, List.getElem?_cons_succ] at hr
      exact ih (work hw s x).1 hstep.1 k r hr

/-- C17. Hysteresis state invariant. From `hysteresis = 0`, `detected = 0`,
after every call of every sequence of `water_work` calls, whatever the
hardware presents, the counter is at most 8, at 8 `detected` is 1 and at 0
`detected` is 0; and a call changes `detected` only by bringing the counter
from 7 to 8 (to become 1) or from 1 to 0 (to become 0). -/
theorem hysteresis_invariant (hw : Hardware) (s : WaterState) (xs : List Sense)
    (h0 : s.hysteresis = 0) (hd : s.detected = false)
    (k : Nat) (r : WaterState × List Event) (hr : (waterRun hw s xs)[k]? = some r) :
    r.1.hysteresis ≤ 8 ∧ (r.1.hysteresis = 8 → r.1.detected = true) ∧
    (r.1.hysteresis = 0 → r.1.detected = false) ∧
    (r.1.detected ≠ (waterAfter hw s (xs.take k)).detected →
      (r.1.detected = true ∧ r.1.hysteresis = 8
        ∧ (waterAfter hw s (xs.take k)).hysteresis = 7) ∨
      (r.1.detected = false ∧ r.1.hysteresis = 0
        ∧ (waterAfter hw s (xs.take k)).hysteresis = 1)) := by
  have hs : Consistent s := by
    unfold Consistent HYSTERESIS_MAX
    exact ⟨by omega, fun h => by omega, fun _ => hd⟩
  obtain ⟨⟨c1, c2, c3⟩, hflip⟩ := waterRun_consistent hw xs s hs k r hr
  exact ⟨c1, c2, c3, hflip⟩

theorem hysteresis_invariant_witness :
    (lastCall powerOn (waterRun bench powerOn onePoll)).1.hysteresis ≤ 8 ∧
    ((lastCall powerOn (waterRun bench powerOn onePoll)).1.hysteresis = 8 →
      (lastCall powerOn (waterRun bench powerOn onePoll)).1.detected = true) ∧
    ((lastCall powerOn (waterRun bench powerOn onePoll)).1.hysteresis = 0 →
      (lastCall powerOn (waterRun bench powerOn onePoll)).1.detected = false) ∧
    ((lastCall powerOn (waterRun bench powerOn onePoll)).1.detected
        ≠ (waterAfter bench powerOn (onePoll.take 2)).detected →
      ((lastCall powerOn (waterRun bench powerOn onePoll)).1.detected = true
        ∧ (lastCall powerOn (waterRun bench powerOn onePoll)).1.hysteresis = 8
        ∧ (waterAfter bench powerOn (onePoll.take 2)).hysteresis = 7) ∨
      ((lastCall powerOn (waterRun bench powerOn onePoll)).1.detected = false
        ∧ (lastCall powerOn (waterRun bench powerOn onePoll)).1.hysteresis = 0
        ∧ (waterAfter bench powerOn (onePoll.take 2)).hysteresis = 1)) :=
  hysteresis_invariant bench powerOn onePoll rfl rfl 2
    (lastCall powerOn (waterRun bench powerOn onePoll)) (by decide!)

theorem report_cur (s : WaterState) :
    (report s).1.cur_reflectionquality = s.cur_reflectionquality := by
  unfold report; split_ifs <;> rfl

theorem process_result_cur (hw : Hardware) (now raw : Nat) (s : WaterState) :
    (process_result hw now raw s).1.cur_reflectionquality = raw := by
  rw [process_result_fst]
  show (report _).1.cur_reflectionquality = raw
  rw [report_cur, evaluate_cur, (sample_fields hw raw s).1]

/-- Telemetry of one call of `water_work`: a completed poll leaves the skip
count at most 240 and the reading within 4 of the last reported value; any
other call keeps both; and a call reports at most one value, which differs from
the last reported value and replaces it. -/
theorem water_work_telemetry (hw : Hardware) (now : Nat) (t : WaterState) :
    ((completes hw now t = true ∨
        (t.event_skips ≤ 240 ∧
          distance t.cur_reflectionquality t.old_reflectionquality ≤ 4)) →
      (water_work hw now t).1.event_skips ≤ 240 ∧
      distance (water_work hw now t).1.cur_reflectionquality
        (water_work hw now t).1.old_reflectionquality ≤ 4) ∧
    ((sensorCalls (water_work hw now t).2 = [] ∧
        (water_work hw now t).1.old_reflectionquality = t.old_reflectionquality) ∨
      (∃ v, sensorCalls (water_work hw now t).2 = [v] ∧ v ≠ t.old_reflectionquality ∧
        (water_work hw now t).1.old_reflectionquality = v)) := by
  cases hc : completes hw now t
  · obtain ⟨e0, -, -, e3, e4, e5, -, -⟩ := water_work_idle hw now t hc
    rw [e0, e3, e4, e5]
    refine ⟨fun h => ?_, Or.inl ⟨rfl, rfl⟩⟩
    rcases h with h | h
    · exact absurd h (by decide)
    · exact h
  · rw [water_work_completes hw now t hc, process_result_cur]
    rcases process_result_telemetry hw now (reading hw t) t with
      ⟨f1, f2, f3, -⟩ | ⟨f1, f2, f3, -, f5, f6⟩
    · rw [f1, f2, f3]
      refine ⟨fun _ => ⟨by omega, ?_⟩, ?_⟩
      · unfold distance; split_ifs <;> omega
      · by_cases hne : reading hw t ≠ t.old_reflectionquality
        · rw [if_pos hne]
          exact Or.inr ⟨_, rfl, hne, rfl⟩
        · rw [if_neg hne]
          exact Or.inl ⟨rfl, not_not.mp hne⟩
    · rw [f1, f2, f3]
      refine ⟨fun _ => ⟨by omega, ?_⟩, Or.inl ⟨rfl, rfl⟩⟩
      unfold distance
      split_ifs at f5 ⊢ <;> omega

theorem NoRepeat_cons (v : Nat) (l : List Nat) (hl : NoRepeat l)
    (hv : ∀ w, l.head? = some w → v ≠ w) : NoRepeat (v :: l) := by
  cases l with
  | nil => trivial
  | cons w rest => exact ⟨hv w rfl, hl⟩

/-- The values reported along a run: no two consecutive ones are equal, and the
first differs from the value last reported before the run. -/
theorem waterEvents_noRepeat (hw : Hardware) (xs : List Sense) :
    ∀ (s : WaterState), NoRepeat (sensorCalls (waterEvents hw s xs)) ∧
      (∀ w, (sensorCalls (waterEvents hw s xs)).head? = some w →
        s.old_reflectionquality ≠ w) := by
  induction xs with
  | nil => intro s; exact ⟨trivial, fun w hw => by simp [waterEvents, sensorCalls] at hw⟩
  | cons x xs ih =>
    intro s
    obtain ⟨h1, h2⟩ := ih (work hw s x).1
    simp only [waterEvents, sensorCalls_append]
    rcases (water_work_telemetry hw x.now (sense s x)).2 with ⟨e1, e2⟩ | ⟨v, e1, e2, e3⟩
    · have e1' : sensorCalls (work hw s x).2 = [] := e1
      have e2' : (work hw s x).1.old_reflectionquality = s.old_reflectionquality := e2
      rw [e1', List.nil_append]
      rw [e2'] at h2
      exact ⟨h1, h2⟩
    · have e1' : sensorCalls (work hw s x).2 = [v] := e1
      have e3' : (work hw s x).1.old_reflectionquality = v := e3
      rw [e1', List.singleton_append]
      rw [e3'] at h2
      refine ⟨NoRepeat_cons v _ h1 h2, fun w hw => ?_⟩
      simp only [List.head?_cons, Option.some.injEq] at hw
      rw [← hw]
      exact fun h => e2 h.symm

/-- The skip count and the distance between reading and last reported value
stay bounded along a run. -/
theorem waterRun_telemetry (hw : Hardware) (xs : List Sense) :
    ∀ (s : WaterState), s.event_skips ≤ 240 →
      distance s.cur_reflectionquality s.old_reflectionquality ≤ 4 →
      ∀ (k : Nat) (r : WaterState × List Event), (waterRun hw s xs)[k]? = some r →
        r.1.event_skips ≤ 240 ∧
        distance r.1.cur_reflectionquality r.1.old_reflectionquality ≤ 4 := by
  induction xs with
  | nil => intro s _ _ k r hr; simp [waterRun] at hr
  | cons x xs ih =>
    intro s h1 h2 k r hr
    have hstep := (water_work_telemetry hw x.now (sense s x)).1 (Or.inr ⟨h1, h2⟩)
    cases k with
    | zero =>
      simp only [waterRun, List.getElem?_cons_zero, Option.some.injEq] at hr
      subst hr
      exact hstep
    | succ k =>
      simp only [waterRun, List.getElem?_cons_succ] at hr
      exact ih (work hw s x).1 hstep.1 hstep.2 k r hr

/-- C18. Telemetry state invariant. From the initial telemetry state (reading
0, last reported value 0, skip count 0), after every call of every sequence of
`water_work` calls, hence after every completed poll, the skip count is at most
240 (so the 8-bit counter never wraps) and the last sampled reading is within 4
of the last reported value; and of the values passed to `watersensor_event`
over the run, no two consecutive ones are equal. -/
theorem telemetry_invariant (hw : Hardware) (s : WaterState) (xs : List Sense)
    (hcur : s.cur_reflectionquality = 0) (hold : s.old_reflectionquality = 0)
    (hsk : s.event_skips = 0) :
    (∀ (k : Nat) (r : WaterState × List Event), (waterRun hw s xs)[k]? = some r →
      r.1.event_skips ≤ 240 ∧
      distance r.1.cur_reflectionquality r.1.old_reflectionquality ≤ 4) ∧
    NoRepeat (sensorCalls (waterEvents hw s xs)) := by
  refine ⟨waterRun_telemetry hw xs s (by omega) ?_, (waterEvents_noRepeat hw xs s).1⟩
  rw [hcur, hold]
  decide

theorem telemetry_invariant_witness :
    ((lastCall powerOn (waterRun bench powerOn onePoll)).1.event_skips ≤ 240 ∧
      distance (lastCall powerOn (waterRun bench powerOn onePoll)).1.cur_reflectionquality
        (lastCall powerOn (waterRun bench powerOn onePoll)).1.old_reflectionquality ≤ 4) ∧
    NoRepeat (sensorCalls (waterEvents bench powerOn onePoll)) :=
  ⟨(telemetry_invariant bench powerOn onePoll rfl rfl rfl).1 2
      (lastCall powerOn (waterRun bench powerOn onePoll)) (by decide!),
    (telemetry_invariant bench powerOn onePoll rfl rfl rfl).2⟩

/-! #### The IR LED and the valve -/

theorem evaluate_frame (s : WaterState) :
    (evaluate s).1.WATERSENSOR_LED_LAT = s.WATERSENSOR_LED_LAT ∧
    (evaluate s).1.filling = s.filling ∧ (evaluate s).1.ledalwayson = s.ledalwayson := by
  unfold evaluate; dsimp only; split_ifs <;> exact ⟨rfl, rfl, rfl⟩

theorem report_frame (s : WaterState) :
    (report s).1.WATERSENSOR_LED_LAT = s.WATERSENSOR_LED_LAT ∧
    (report s).1.filling = s.filling ∧ (report s).1.ledalwayson = s.ledalwayson := by
  unfold report; split_ifs <;> exact ⟨rfl, rfl, rfl⟩

theorem sample_frame (hw : Hardware) (raw : Nat) (s : WaterState) :
    (sample hw raw s).WATERSENSOR_LED_LAT
      = (if s.filling = false ∧ s.ledalwayson = false
          then s.WATERSENSOR_LED_LAT &&& (255 ^^^ hw.WATERSENSOR_LED_MASK)
          else s.WATERSENSOR_LED_LAT) ∧
    (sample hw raw s).filling = s.filling ∧ (sample hw raw s).ledalwayson = s.ledalwayson := by
  unfold sample
  cases hf : s.filling <;> cases hl : s.ledalwayson <;> simp [hf, hl]

/-- The LED latch and the override flags after a completed poll. -/
theorem process_result_frame (hw : Hardware) (now raw : Nat) (s : WaterState) :
    (process_result hw now raw s).1.WATERSENSOR_LED_LAT
      = (if s.filling = false ∧ s.ledalwayson = false
          then s.WATERSENSOR_LED_LAT &&& (255 ^^^ hw.WATERSENSOR_LED_MASK)
          else s.WATERSENSOR_LED_LAT) ∧
    (process_result hw now raw s).1.filling = s.filling ∧
    (process_result hw now raw s).1.ledalwayson = s.ledalwayson := by
  obtain ⟨a1, a2, a3⟩ := sample_frame hw raw s
  obtain ⟨b1, b2, b3⟩ := evaluate_frame (sample hw raw s)
  obtain ⟨c1, c2, c3⟩ := report_frame (evaluate (sample hw raw s)).1
  rw [process_result_fst]
  refine ⟨?_, ?_, ?_⟩
  · show (report _).1.WATERSENSOR_LED_LAT = _
    rw [c1, b1, a1]
  · show (report _).1.filling = _
    rw [c2, b2, a2]
  · show (report _).1.ledalwayson = _
    rw [c3, b3, a3]

/-- What one call of `water_work` does to the LED latch: nothing, or set the
mask bits, or, on a completed poll without override, clear them. The override
flags are never changed. -/
theorem water_work_latch (hw : Hardware) (now : Nat) (t : WaterState) :
    (water_work hw now t).1.filling = t.filling ∧
    (water_work hw now t).1.ledalwayson = t.ledalwayson ∧
    ((water_work hw now t).1.WATERSENSOR_LED_LAT = t.WATERSENSOR_LED_LAT ∨
      (water_work hw now t).1.WATERSENSOR_LED_LAT
        = t.WATERSENSOR_LED_LAT ||| hw.WATERSENSOR_LED_MASK ∨
      (t.filling = false ∧ t.ledalwayson = false ∧
        (water_work hw now t).1.WATERSENSOR_LED_LAT
          = t.WATERSENSOR_LED_LAT &&& (255 ^^^ hw.WATERSENSOR_LED_MASK))) := by
  have hled : ∀ u : WaterState, u.state = LED_ON →
      (water_work hw now u).1.filling = u.filling ∧
      (water_work hw now u).1.ledalwayson = u.ledalwayson ∧
      ((water_work hw now u).1.WATERSENSOR_LED_LAT = u.WATERSENSOR_LED_LAT ∨
        (water_work hw now u).1.WATERSENSOR_LED_LAT
          = u.WATERSENSOR_LED_LAT ||| hw.WATERSENSOR_LED_MASK) := by
    intro u h0
    cases hex : timeoutexpired hw.TICK_BITS now u.sensortimer
    · rw [water_work_wait hw now u (Or.inl h0) hex]; exact ⟨rfl, rfl, Or.inl rfl⟩
    · rw [water_work_led_on hw now u h0 hex]; exact ⟨rfl, rfl, Or.inr rfl⟩
  by_cases h0 : t.state = LED_ON
  · obtain ⟨a, b, c⟩ := hled t h0
    exact ⟨a, b, c.elim Or.inl (fun h => Or.inr (Or.inl h))⟩
  · by_cases h1 : t.state = START_CONVERSION
    · cases hex : timeoutexpired hw.TICK_BITS now t.sensortimer
      · rw [water_work_wait hw now t (Or.inr h1) hex]; exact ⟨rfl, rfl, Or.inl rfl⟩
      · rw [water_work_start hw now t h1 hex]; exact ⟨rfl, rfl, Or.inl rfl⟩
    · by_cases h2 : t.state = PROCESS_RESULT
      · cases hc : completes hw now t
        · rw [water_work_busy hw now t h2 hc]; exact ⟨rfl, rfl, Or.inl rfl⟩
        · rw [water_work_completes hw now t hc]
          obtain ⟨a, b, c⟩ := process_result_frame hw now (reading hw t) t
          refine ⟨b, c, ?_⟩
          rw [a]
          by_cases hov : t.filling = false ∧ t.ledalwayson = false
          · rw [if_pos hov]; exact Or.inr (Or.inr ⟨hov.1, hov.2, rfl⟩)
          · rw [if_neg hov]; exact Or.inl rfl
      · rw [water_work_default hw now t h0 h1 h2]
        obtain ⟨a, b, c⟩ := hled { t with state := LED_ON } rfl
        exact ⟨a, b, c.elim Or.inl (fun h => Or.inr (Or.inl h))⟩

/-- With an override on, no call of a run clears a bit of the LED latch. -/
theorem waterRun_override (hw : Hardware) (xs : List Sense) :
    ∀ (s : WaterState), (s.filling = true ∨ s.ledalwayson = true) →
      ∀ (k : Nat) (r : WaterState × List Event), (waterRun hw s xs)[k]? = some r →
        r.1.WATERSENSOR_LED_LAT = (waterAfter hw s (xs.take k)).WATERSENSOR_LED_LAT ∨
        r.1.WATERSENSOR_LED_LAT
          = (waterAfter hw s (xs.take k)).WATERSENSOR_LED_LAT ||| hw.WATERSENSOR_LED_MASK := by
  induction xs with
  | nil => intro s _ k r hr; simp [waterRun] at hr
  | cons x xs ih =>
    intro s hov k r hr
    obtain ⟨a, b, c⟩ := water_work_latch hw x.now (sense s x)
    cases k with
    | zero =>
      simp only [waterRun, List.getElem?_cons_zero, Option.some.injEq] at hr
      subst hr
      rcases c with c | c | ⟨c1, c2, -⟩
      · exact Or.inl c
      · exact Or.inr c
      · exfalso
        have c1' : s.filling = false := c1
        have c2' : s.ledalwayson = false := c2
        rcases hov with h | h
        · rw [c1'] at h; exact Bool.false_ne_true h
        · rw [c2'] at h; exact Bool.false_ne_true h
    | succ k =>
      simp only [waterRun, List.getElem?_cons_succ] at hr
      have a' : (work hw s x).1.filling = s.filling := a
      have b' : (work hw s x).1.ledalwayson = s.ledalwayson := b
      exact ih (work hw s x).1 (by rw [a', b']; exact hov) k r hr

/-- C14. Emitter control. A `LED_ON` step with the timer expired sets the
`WATERSENSOR_LED_MASK` bits of the LED latch; a completed poll clears them iff
`filling` and `ledalwayson` are both 0 and otherwise leaves the latch as it
was; in both steps every other bit of the (byte) latch is unchanged. After
`water_ledalwayson(1)` or `water_fill(1)` every later call of `water_work`
leaves the latch as it was or sets the mask bits: none clears any bit. -/
theorem emitter_control (hw : Hardware) (now : Nat) (s : WaterState) (xs : List Sense)
    (hlat : s.WATERSENSOR_LED_LAT < 256) (hmask : hw.WATERSENSOR_LED_MASK < 256) :
    (s.state = LED_ON → timeoutexpired hw.TICK_BITS now s.sensortimer = true →
      ∀ i, (water_work hw now s).1.WATERSENSOR_LED_LAT.testBit i
        = (s.WATERSENSOR_LED_LAT.testBit i || hw.WATERSENSOR_LED_MASK.testBit i)) ∧
    (completes hw now s = true →
      ∀ i, (water_work hw now s).1.WATERSENSOR_LED_LAT.testBit i
        = (if s.filling = false ∧ s.ledalwayson = false
            then (s.WATERSENSOR_LED_LAT.testBit i && !hw.WATERSENSOR_LED_MASK.testBit i)
            else s.WATERSENSOR_LED_LAT.testBit i)) ∧
    (∀ (u : WaterState), u = water_ledalwayson 1 s ∨ u = (water_fill hw 1 s).1 →
      ∀ (k : Nat) (r : WaterState × List Event), (waterRun hw u xs)[k]? = some r →
        r.1.WATERSENSOR_LED_LAT = (waterAfter hw u (xs.take k)).WATERSENSOR_LED_LAT ∨
        r.1.WATERSENSOR_LED_LAT
          = (waterAfter hw u (xs.take k)).WATERSENSOR_LED_LAT ||| hw.WATERSENSOR_LED_MASK) := by
  refine ⟨?_, ?_, ?_⟩
  · intro h0 hex i
    rw [water_work_led_on hw now s h0 hex]
    exact testBit_set _ _ i
  · intro hc i
    rw [water_work_completes hw now s hc, (process_result_frame hw now (reading hw s) s).1]
    by_cases hov : s.filling = false ∧ s.ledalwayson = false
    · rw [if_pos hov, if_pos hov]
      exact testBit_clear _ _ i hlat hmask
    · rw [if_neg hov, if_neg hov]
  · intro u hu k r hr
    refine waterRun_override hw xs u ?_ k r hr
    rcases hu with rfl | rfl
    · right; rfl
    · left; rfl

theorem emitter_control_witness :
    (water_work bench 0 lit).1.WATERSENSOR_LED_LAT.testBit 5
      = (if lit.filling = false ∧ lit.ledalwayson = false
          then (lit.WATERSENSOR_LED_LAT.testBit 5 && !bench.WATERSENSOR_LED_MASK.testBit 5)
          else lit.WATERSENSOR_LED_LAT.testBit 5) :=
  (emitter_control bench 0 lit [] (by decide) (by decide)).2.1 (by decide) 5

/-- C15. Valve-fill operations. For `f` in {0, 1}: after `water_fill(f)` the
accessor `water_filling()` returns `f`; the `WATERVALVEPULLUP_MASK` bits of the
(byte) pull-up latch are set iff `f = 1` and every other bit of it is
unchanged; the one call made is `eventlog_track(EVENTLOG_TAP, f)`; `detected`,
the hysteresis counter, the cycle phase and the sensor timer are unchanged.
`water_filling()` and `water_detected()` change no state. -/
theorem valve_fill (hw : Hardware) (f : Nat) (s : WaterState)
    (hf : f = 0 ∨ f = 1) (hlat : s.WATERVALVEPULLUP_LAT < 256)
    (hmask : hw.WATERVALVEPULLUP_MASK < 256) :
    (water_filling (water_fill hw f s).1).2 = f ∧
    (∀ i, (water_fill hw f s).1.WATERVALVEPULLUP_LAT.testBit i
      = (if hw.WATERVALVEPULLUP_MASK.testBit i = true then decide (f = 1)
          else s.WATERVALVEPULLUP_LAT.testBit i)) ∧
    (water_fill hw f s).2 = [Event.eventlog_track hw.EVENTLOG_TAP f] ∧
    (water_fill hw f s).1.detected = s.detected ∧
    (water_fill hw f s).1.hysteresis = s.hysteresis ∧
    (water_fill hw f s).1.state = s.state ∧
    (water_fill hw f s).1.sensortimer = s.sensortimer ∧
    (water_filling s).1 = s ∧ (water_detected s).1 = s := by
  rcases hf with rfl | rfl
  · have hw0 : water_fill hw 0 s =
        ({ s with filling := false,
                  WATERVALVEPULLUP_LAT
                    := s.WATERVALVEPULLUP_LAT &&& (255 ^^^ hw.WATERVALVEPULLUP_MASK) },
          [Event.eventlog_track hw.EVENTLOG_TAP 0]) := rfl
    rw [hw0]
    refine ⟨rfl, fun i => ?_, rfl, rfl, rfl, rfl, rfl, rfl, rfl⟩
    show (s.WATERVALVEPULLUP_LAT &&& (255 ^^^ hw.WATERVALVEPULLUP_MASK)).testBit i = _
    rw [testBit_clear _ _ i hlat hmask]
    cases hm : hw.WATERVALVEPULLUP_MASK.testBit i <;> simp
  · have hw1 : water_fill hw 1 s =
        ({ s with filling := true,
                  WATERVALVEPULLUP_LAT := s.WATERVALVEPULLUP_LAT ||| hw.WATERVALVEPULLUP_MASK },
          [Event.eventlog_track hw.EVENTLOG_TAP 1]) := rfl
    rw [hw1]
    refine ⟨rfl, fun i => ?_, rfl, rfl, rfl, rfl, rfl, rfl, rfl⟩
    show (s.WATERVALVEPULLUP_LAT ||| hw.WATERVALVEPULLUP_MASK).testBit i = _
    rw [testBit_set]
    cases hm : hw.WATERVALVEPULLUP_MASK.testBit i <;> simp

theorem valve_fill_witness :
    (water_filling (water_fill bench 1 powerOn).1).2 = 1 ∧
    (water_fill bench 1 powerOn).2 = [Event.eventlog_track bench.EVENTLOG_TAP 1] ∧
    (water_fill bench 1 powerOn).1.detected = powerOn.detected :=
  ⟨(valve_fill bench 1 powerOn (Or.inr rfl) (by decide) (by decide)).1,
    (valve_fill bench 1 powerOn (Or.inr rfl) (by decide) (by decide)).2.2.1,
    (valve_fill bench 1 powerOn (Or.inr rfl) (by decide) (by decide)).2.2.2.1⟩

/-! #### The digital sensor path -/

/-- The reading of the digital build: 520 with the pin high, 0 with it low. -/
theorem digital_reading (hw : Hardware) (t : WaterState) (hd : hw.WATERSENSOR_ANALOG = false) :
    reading hw t = (if pinHigh hw t = true then 520 else 0) := by
  unfold reading pinHigh DETECTION_THRESHOLD
  rw [hd]
  by_cases hp : t.WATERSENSORANALOG_PORT &&& hw.WATERSENSORANALOG_MASK ≠ 0
  · simp [hp]
  · simp [hp]

theorem pinLow_eq (hw : Hardware) (t : WaterState) : pinLow hw t = !pinHigh hw t := by
  unfold pinLow pinHigh
  by_cases hp : t.WATERSENSORANALOG_PORT &&& hw.WATERSENSORANALOG_MASK = 0 <;> simp [hp]

/-- A call of a run is `work` on the state the calls before it leave. -/
theorem waterRun_getElem? (hw : Hardware) (xs : List Sense) :
    ∀ (s : WaterState) (k : Nat),
      (waterRun hw s xs)[k]? = (xs[k]?).map (fun x => work hw (waterAfter hw s (xs.take k)) x) := by
  induction xs with
  | nil => intro s k; simp [waterRun]
  | cons x xs ih =>
    intro s k
    cases k with
    | zero => simp [waterRun, waterAfter]
    | succ k => simpa [waterRun, waterAfter] using ih (work hw s x).1 k

/-- A property kept by every call holds after a run. -/
theorem waterAfter_keeps (hw : Hardware) (P : WaterState → Prop)
    (hstep : ∀ (s : WaterState) (x : Sense), P s → P (work hw s x).1) (xs : List Sense) :
    ∀ (s : WaterState), P s → P (waterAfter hw s xs) := by
  induction xs with
  | nil => intro s hs; exact hs
  | cons x xs ih => intro s hs; exact ih _ (hstep s x hs)

/-- Every value a call reports is the reading of that call. -/
theorem water_work_reports_reading (hw : Hardware) (now : Nat) (t : WaterState) :
    ∀ v ∈ sensorCalls (water_work hw now t).2, v = reading hw t := by
  intro v hv
  cases hc : completes hw now t
  · rw [(water_work_idle hw now t hc).1] at hv
    simp [sensorCalls] at hv
  · rw [water_work_completes hw now t hc] at hv
    rcases process_result_telemetry hw now (reading hw t) t with ⟨-, -, f3, -⟩ | ⟨-, -, f3, -⟩
    · rw [f3] at hv
      split_ifs at hv
      · simpa using hv
      · simp at hv
    · rw [f3] at hv
      simp at hv

/-- The reports of one call of the digital build, when the last reported value
is 0 or 520: the reading is reported iff the call completes a poll and the
reading differs from it. -/
theorem digital_report (hw : Hardware) (now : Nat) (t : WaterState)
    (hold : t.old_reflectionquality = 0 ∨ t.old_reflectionquality = 520)
    (hread : reading hw t = 0 ∨ reading hw t = 520) :
    sensorCalls (water_work hw now t).2
      = (if completes hw now t = true ∧ reading hw t ≠ t.old_reflectionquality
          then [reading hw t] else []) ∧
    ((water_work hw now t).1.old_reflectionquality = 0 ∨
      (water_work hw now t).1.old_reflectionquality = 520) := by
  cases hc : completes hw now t
  · obtain ⟨e0, -, -, -, e4, -⟩ := water_work_idle hw now t hc
    rw [e0, e4, if_neg (fun h => Bool.false_ne_true h.1)]
    exact ⟨rfl, hold⟩
  · rw [water_work_completes hw now t hc]
    rcases process_result_telemetry hw now (reading hw t) t with
      ⟨-, f2, f3, -⟩ | ⟨-, f2, f3, -, f5, -⟩
    · rw [f2, f3]
      refine ⟨?_, hread⟩
      by_cases hne : reading hw t ≠ t.old_reflectionquality
      · rw [if_pos hne, if_pos ⟨rfl, hne⟩]
      · rw [if_neg hne, if_neg (fun h => hne h.2)]
    · rw [f2, f3]
      refine ⟨?_, hold⟩
      have heq : ¬ reading hw t ≠ t.old_reflectionquality := by
        intro hne
        apply f5
        split_ifs <;> omega
      rw [if_neg (fun h => heq h.2)]

/-- Counting high polls of the digital build: the counter never exceeds, and
`detected` is not set before 8 of, the high polls seen. -/
theorem count_high (hw : Hardware) (hd : hw.WATERSENSOR_ANALOG = false) (xs : List Sense) :
    ∀ (s : WaterState) (n : Nat), (s.detected = true → 8 ≤ n) → s.hysteresis ≤ n →
      ((waterAfter hw s xs).detected = true → 8 ≤ n + countPolls hw (pinHigh hw) s xs) ∧
      (waterAfter hw s xs).hysteresis ≤ n + countPolls hw (pinHigh hw) s xs := by
  induction xs with
  | nil => intro s n h1 h2; exact ⟨h1, h2⟩
  | cons x xs ih =>
    intro s n h1 h2
    simp only [waterAfter, countPolls]
    have hh : (sense s x).hysteresis = s.hysteresis := rfl
    have hdet : (sense s x).detected = s.detected := rfl
    cases hc : completes hw x.now (sense s x)
    · obtain ⟨-, e1, e2, -⟩ := water_work_idle hw x.now (sense s x) hc
      have e1' : (work hw s x).1.hysteresis = s.hysteresis := e1
      have e2' : (work hw s x).1.detected = s.detected := e2
      obtain ⟨g1, g2⟩ := ih (work hw s x).1 n (by rw [e2']; exact h1) (by rw [e1']; exact h2)
      simp only [Bool.false_and, Bool.false_eq_true, if_false, Nat.zero_add]
      exact ⟨g1, g2⟩
    · have hwk : work hw s x = process_result hw x.now (reading hw (sense s x)) (sense s x) :=
        water_work_completes hw x.now (sense s x) hc
      cases hp : pinHigh hw (sense s x)
      · have hr : reading hw (sense s x) ≤ 486 := by
          rw [digital_reading hw _ hd, hp]; decide
        obtain ⟨e1, e2, -⟩ := process_result_below hw x.now _ (sense s x) hr
        rw [← hwk, hh] at e1
        rw [← hwk, hh, hdet] at e2
        obtain ⟨g1, g2⟩ := ih (work hw s x).1 n
          (by
            rw [e2]; split_ifs
            · intro h; simp at h
            · exact h1)
          (by rw [e1]; omega)
        simp only [Bool.and_false, Bool.false_eq_true, if_false, Nat.zero_add]
        exact ⟨g1, g2⟩
      · have hr : 486 < reading hw (sense s x) := by
          rw [digital_reading hw _ hd, hp]; decide
        obtain ⟨e1, e2, -⟩ := process_result_above hw x.now _ (sense s x) hr
        rw [← hwk, hh] at e1
        rw [← hwk, hh, hdet] at e2
        have hmod : (s.hysteresis + 1) % 256 ≤ s.hysteresis + 1 := Nat.mod_le _ _
        obtain ⟨g1, g2⟩ := ih (work hw s x).1 (n + 1)
          (by
            rw [e2]; split_ifs with h
            · intro _; omega
            · intro h'; have := h1 h'; omega)
          (by rw [e1]; split_ifs <;> omega)
        simp only [Bool.and_self, if_true]
        exact ⟨fun h => by have := g1 h; omega, by omega⟩

/-- Counting low polls of the digital build: `detected` is not cleared from a
saturated counter before 8 low polls have been seen. -/
theorem count_low (hw : Hardware) (hd : hw.WATERSENSOR_ANALOG = false) (xs : List Sense) :
    ∀ (s : WaterState) (m : Nat), (s.detected = false → 8 ≤ m) → 8 ≤ s.hysteresis + m →
      ((waterAfter hw s xs).detected = false → 8 ≤ m + countPolls hw (pinLow hw) s xs) ∧
      8 ≤ (waterAfter hw s xs).hysteresis + (m + countPolls hw (pinLow hw) s xs) := by
  induction xs with
  | nil => intro s m h1 h2; exact ⟨h1, h2⟩
  | cons x xs ih =>
    intro s m h1 h2
    simp only [waterAfter, countPolls]
    have hh : (sense s x).hysteresis = s.hysteresis := rfl
    have hdet : (sense s x).detected = s.detected := rfl
    cases hc : completes hw x.now (sense s x)
    · obtain ⟨-, e1, e2, -⟩ := water_work_idle hw x.now (sense s x) hc
      have e1' : (work hw s x).1.hysteresis = s.hysteresis := e1
      have e2' : (work hw s x).1.detected = s.detected := e2
      obtain ⟨g1, g2⟩ := ih (work hw s x).1 m (by rw [e2']; exact h1) (by rw [e1']; exact h2)
      simp only [Bool.false_and, Bool.false_eq_true, if_false, Nat.zero_add]
      exact ⟨g1, g2⟩
    · have hwk : work hw s x = process_result hw x.now (reading hw (sense s x)) (sense s x) :=
        water_work_completes hw x.now (sense s x) hc
      rw [pinLow_eq]
      cases hp : pinHigh hw (sense s x)
      · have hr : reading hw (sense s x) ≤ 486 := by
          rw [digital_reading hw _ hd, hp]; decide
        obtain ⟨e1, e2, -⟩ := process_result_below hw x.now _ (sense s x) hr
        rw [← hwk, hh] at e1
        rw [← hwk, hh, hdet] at e2
        obtain ⟨g1, g2⟩ := ih (work hw s x).1 (m + 1)
          (by
            rw [e2]; split_ifs with h
            · intro _; omega
            · intro h'; have := h1 h'; omega)
          (by rw [e1]; omega)
        simp only [Bool.not_false, Bool.and_self, if_true]
        exact ⟨fun h => by have := g1 h; omega, by omega⟩
      · have hr : 486 < reading hw (sense s x) := by
          rw [digital_reading hw _ hd, hp]; decide
        obtain ⟨e1, e2, -⟩ := process_result_above hw x.now _ (sense s x) hr
        rw [← hwk, hh] at e1
        rw [← hwk, hh, hdet] at e2
        obtain ⟨g1, g2⟩ := ih (work hw s x).1 m
          (by
            rw [e2]; split_ifs with h
            · intro h'; simp at h'
            · exact h1)
          (by
            rw [e1]; split_ifs with h
            · rw [Nat.mod_eq_of_lt (by omega)]; omega
            · exact h2)
        simp only [Bool.not_true, Bool.and_false, Bool.false_eq_true, if_false, Nat.zero_add]
        exact ⟨g1, g2⟩

/-- In the digital build every reported value is 0 or 520. -/
theorem digital_values (hw : Hardware) (hd : hw.WATERSENSOR_ANALOG = false) (xs : List Sense) :
    ∀ (s : WaterState), ∀ v ∈ sensorCalls (waterEvents hw s xs), v = 0 ∨ v = 520 := by
  induction xs with
  | nil => intro s v hv; simp [waterEvents, sensorCalls] at hv
  | cons x xs ih =>
    intro s v hv
    simp only [waterEvents, sensorCalls_append, List.mem_append] at hv
    rcases hv with hv | hv
    · have h := water_work_reports_reading hw x.now (sense s x) v hv
      rw [h, digital_reading hw _ hd]
      split_ifs
      · exact Or.inr rfl
      · exact Or.inl rfl
    · exact ih _ v hv

/-- C20. Digital sensor path (`WATERSENSOR_ANALOG` undefined). A completing
call classifies and reports exactly 520 when the masked sensor pin is non-zero
and exactly 0 otherwise. Hence, over every run of `water_work` calls from a
state whose last reported value is 0 (as at power-on) or 520: every value
passed to `watersensor_event` is 0 or 520; a call reports exactly when it
completes a poll whose pin level differs from the level last reported, and then
reports that level; `detected` is set from a counter of 0 only after 8
completed polls with the pin high, and cleared from a saturated counter only
after 8 completed polls with the pin low. -/
theorem digital_path (hw : Hardware) (s : WaterState) (xs : List Sense)
    (hd : hw.WATERSENSOR_ANALOG = false)
    (hold : s.old_reflectionquality = 0 ∨ s.old_reflectionquality = 520) :
    (∀ (now : Nat) (t : WaterState), completes hw now t = true →
      water_work hw now t = process_result hw now
        (if t.WATERSENSORANALOG_PORT &&& hw.WATERSENSORANALOG_MASK ≠ 0 then 520 else 0) t ∧
      (water_work hw now t).1.cur_reflectionquality
        = (if t.WATERSENSORANALOG_PORT &&& hw.WATERSENSORANALOG_MASK ≠ 0 then 520 else 0)) ∧
    (∀ v ∈ sensorCalls (waterEvents hw s xs), v = 0 ∨ v = 520) ∧
    (∀ (k : Nat) (x : Sense) (r : WaterState × List Event), xs[k]? = some x →
      (waterRun hw s xs)[k]? = some r →
      sensorCalls r.2
        = (if completes hw x.now (sense (waterAfter hw s (xs.take k)) x) = true ∧
              pinHigh hw (sense (waterAfter hw s (xs.take k)) x)
                ≠ decide ((waterAfter hw s (xs.take k)).old_reflectionquality = 520)
            then [if pinHigh hw (sense (waterAfter hw s (xs.take k)) x) = true then 520 else 0]
            else [])) ∧
    (s.hysteresis = 0 → s.detected = false → (waterAfter hw s xs).detected = true →
      8 ≤ countPolls hw (pinHigh hw) s xs) ∧
    (8 ≤ s.hysteresis → s.detected = true → (waterAfter hw s xs).detected = false →
      8 ≤ countPolls hw (pinLow hw) s xs) := by
  have hread : ∀ t : WaterState, reading hw t
      = (if t.WATERSENSORANALOG_PORT &&& hw.WATERSENSORANALOG_MASK ≠ 0 then 520 else 0) := by
    intro t
    unfold reading DETECTION_THRESHOLD
    rw [hd]
    rfl
  refine ⟨?_, digital_values hw hd xs s, ?_, ?_, ?_⟩
  · intro now t hc
    rw [water_work_completes hw now t hc, process_result_cur, hread]
    exact ⟨rfl, rfl⟩
  · intro k x r hx hr
    rw [waterRun_getElem?, hx] at hr
    simp only [Option.map_some', Option.some.injEq] at hr
    subst hr
    have hkeep : (waterAfter hw s (xs.take k)).old_reflectionquality = 0 ∨
        (waterAfter hw s (xs.take k)).old_reflectionquality = 520 :=
      waterAfter_keeps hw
        (fun u => u.old_reflectionquality = 0 ∨ u.old_reflectionquality = 520)
        (fun u y hu => (digital_report hw y.now (sense u y) hu (by
          rw [digital_reading hw _ hd]
          split_ifs
          · exact Or.inr rfl
          · exact Or.inl rfl)).2)
        (xs.take k) s hold
    have hrep := (digital_report hw x.now (sense (waterAfter hw s (xs.take k)) x) hkeep (by
      rw [digital_reading hw _ hd]
      split_ifs
      · exact Or.inr rfl
      · exact Or.inl rfl)).1
    have hso : (sense (waterAfter hw s (xs.take k)) x).old_reflectionquality
        = (waterAfter hw s (xs.take k)).old_reflectionquality := rfl
    rw [hso, digital_reading hw _ hd] at hrep
    show sensorCalls (water_work hw x.now (sense (waterAfter hw s (xs.take k)) x)).2 = _
    rw [hrep]
    cases hp : pinHigh hw (sense (waterAfter hw s (xs.take k)) x) <;>
      rcases hkeep with h0 | h520 <;> simp [*]
  · intro h0 hdet hafter
    have h := (count_high hw hd xs s 0 (by rw [hdet]; intro h; simp at h) (by omega)).1 hafter
    omega
  · intro h8 hdet hafter
    have h := (count_low hw hd xs s 0 (by rw [hdet]; intro h; simp at h) (by omega)).1 hafter
    omega

theorem digital_path_witness :
    sensorCalls (lastCall powerOn (waterRun digital powerOn highPoll)).2
      = (if completes digital (high 10).now
              (sense (waterAfter digital powerOn (highPoll.take 1)) (high 10)) = true ∧
            pinHigh digital (sense (waterAfter digital powerOn (highPoll.take 1)) (high 10))
              ≠ decide ((waterAfter digital powerOn (highPoll.take 1)).old_reflectionquality = 520)
          then [if pinHigh digital
                  (sense (waterAfter digital powerOn (highPoll.take 1)) (high 10)) = true
                then 520 else 0]
          else []) :=
  (digital_path digital powerOn highPoll rfl (Or.inl rfl)).2.2.1 1 (high 10)
    (lastCall powerOn (waterRun digital powerOn highPoll)) rfl (by decide!)

/-! #### The A/D channel of `water_init` -/

theorem exit_iff (mask : Nat) : mask &&& 0x01 ≠ 0 ↔ mask.testBit 0 = true := by
  rw [Nat.and_one_is_mod, Nat.testBit_zero, decide_eq_true_eq]
  omega

/-- The loop exits after `c` executions of its body when bit `c` is the lowest
set bit of the mask, with the mask shifted down by `c` and the channel `c`
higher. -/
theorem channel_loop_finds (c : Nat) :
    ∀ (fuel mask channel : Nat), mask.testBit c = true →
      (∀ i, i < c → mask.testBit i = false) → c ≤ fuel → channel + c < 256 →
      channel_loop fuel mask channel = some (mask >>> c, channel + c) := by
  induction c with
  | zero =>
    intro fuel mask channel hc _ _ _
    have hex : mask &&& 0x01 ≠ 0 := (exit_iff mask).mpr hc
    cases fuel with
    | zero => unfold channel_loop; rw [if_pos hex]; rfl
    | succ f => unfold channel_loop; rw [if_pos hex]; rfl
  | succ c ih =>
    intro fuel mask channel hc hlow hfuel hch
    have h0 : ¬ mask &&& 0x01 ≠ 0 := by
      rw [exit_iff, hlow 0 (by omega)]
      exact Bool.false_ne_true
    cases fuel with
    | zero => omega
    | succ f =>
      unfold channel_loop
      rw [if_neg h0, Nat.mod_eq_of_lt (by omega)]
      rw [ih f (mask >>> 0x01) (channel + 1)
        (by rw [Nat.testBit_shiftRight, Nat.add_comm 1 c]; exact hc)
        (fun i hi => by rw [Nat.testBit_shiftRight]; exact hlow (1 + i) (by omega))
        (by omega) (by omega)]
      rw [← Nat.shiftRight_add, Nat.add_comm 1 c, Nat.add_assoc, Nat.add_comm 1 c]

/-- The loop has not exited after `fuel` executions of its body when bits 0 to
`fuel` of the mask are all clear. -/
theorem channel_loop_runs (fuel : Nat) :
    ∀ (mask channel : Nat), (∀ i, i ≤ fuel → mask.testBit i = false) →
      channel_loop fuel mask channel = none := by
  induction fuel with
  | zero =>
    intro mask channel h
    have h0 : ¬ mask &&& 0x01 ≠ 0 := by
      rw [exit_iff, h 0 (le_refl _)]
      exact Bool.false_ne_true
    unfold channel_loop
    rw [if_neg h0]
  | succ f ih =>
    intro mask channel h
    have h0 : ¬ mask &&& 0x01 ≠ 0 := by
      rw [exit_iff, h 0 (by omega)]
      exact Bool.false_ne_true
    unfold channel_loop
    rw [if_neg h0]
    exact ih _ _ (fun i hi => by rw [Nat.testBit_shiftRight]; exact h (1 + i) (by omega))

/-- A non-zero byte has a lowest set bit, below 8. -/
theorem lowest_set_bit (mask : Nat) (hpos : 0 < mask) (hbyte : mask < 256) :
    ∃ c, c ≤ 7 ∧ mask.testBit c = true ∧ ∀ i, i < c → mask.testBit i = false := by
  have hex : ∃ i, mask.testBit i = true := Nat.ne_zero_implies_bit_true (by omega)
  refine ⟨Nat.find hex, ?_, Nat.find_spec hex, fun i hi => ?_⟩
  · have hge : mask ≥ 2 ^ Nat.find hex := Nat.testBit_implies_ge (Nat.find_spec hex)
    by_contra hgt
    have h8 : (2 : Nat) ^ 8 ≤ 2 ^ Nat.find hex := Nat.pow_le_pow_right (by omega) (by omega)
    have : (256 : Nat) ≤ 2 ^ Nat.find hex := by simpa using h8
    omega
  · have := Nat.find_min hex hi
    cases hb : mask.testBit i
    · rfl
    · exact absurd hb this

/-- C21. A/D channel derivation in `water_init` (analog build). For every
non-zero 8-bit mask the loop exits within 7 executions of its body, after
exactly `c` of them, where `c` is the index of the least significant set bit of
the mask, with `channel = c`; `water_init` then selects channel `c`. For a mask
of 0 the loop has not exited after any number of executions. -/
theorem channel_derivation (hw : Hardware) (adc : ADC) (mask : Nat)
    (hpos : 0 < mask) (hbyte : mask < 256) :
    (∃ c, c ≤ 7 ∧ mask.testBit c = true ∧ (∀ i, i < c → mask.testBit i = false) ∧
      channel_loop 7 mask 0 = some (mask >>> c, c) ∧
      (∀ fuel, c ≤ fuel → channel_loop fuel mask 0 = some (mask >>> c, c)) ∧
      (∀ fuel, fuel < c → channel_loop fuel mask 0 = none) ∧
      (hw.WATERSENSOR_ANALOG = true → hw.WATERSENSORANALOG_MASK = mask →
        water_init hw 7 adc
          = some { adc with ADON := 1, CHS := c, ADFM := 1, ADCS := 7, ADNREF := 0,
                            ADPREF := 0 })) ∧
    (∀ fuel channel, channel_loop fuel 0 channel = none) := by
  obtain ⟨c, hc7, hbit, hlow⟩ := lowest_set_bit mask hpos hbyte
  have hfind : ∀ fuel, c ≤ fuel → channel_loop fuel mask 0 = some (mask >>> c, c) := by
    intro fuel hf
    have h := channel_loop_finds c fuel mask 0 hbit hlow hf (by omega)
    rw [Nat.zero_add] at h
    exact h
  refine ⟨⟨c, hc7, hbit, hlow, hfind 7 hc7, hfind, ?_, ?_⟩, ?_⟩
  · intro fuel hf
    exact channel_loop_runs fuel mask 0 (fun i hi => hlow i (by omega))
  · intro ha hm
    unfold water_init
    rw [if_pos ha, hm, Nat.mod_eq_of_lt hbyte, hfind 7 hc7]
  · intro fuel channel
    exact channel_loop_runs fuel 0 channel (fun i _ => Nat.zero_testBit i)

theorem channel_derivation_witness :
    channel_loop 7 0x20 0 = some (0x20 >>> 5, 5) ∧
    water_init bench5 7 adcOff
      = some { adcOff with ADON := 1, CHS := 5, ADFM := 1, ADCS := 7, ADNREF := 0, ADPREF := 0 } := by
  obtain ⟨⟨c, -, hbit, hlow, hloop, -, -, hinit⟩, -⟩ :=
    channel_derivation bench5 adcOff 0x20 (by decide) (by decide)
  have hc : c = 5 := by
    have h5 : (0x20 : Nat).testBit 5 = true := by decide
    rcases Nat.lt_trichotomy c 5 with h | h | h
    · exfalso
      have : c = 0 ∨ c = 1 ∨ c = 2 ∨ c = 3 ∨ c = 4 := by omega
      rcases this with rfl | rfl | rfl | rfl | rfl <;> exact absurd hbit (by decide)
    · exact h
    · exact absurd h5 (by rw [hlow 5 h]; decide)
  subst hc
  exact ⟨hloop, hinit rfl rfl⟩

end Water

/-! ### Theorems about `catgenie120.c` -/

namespace CatGenie

/-! #### Registers and bit operations -/

theorem read_write (r : Ports) (q : Port) (v : Nat) : (r.write q v).read q = v := by
  cases q <;> rfl

theorem or_and_mask (x m : Nat) : (x ||| m) &&& m = m := by
  apply Nat.eq_of_testBit_eq
  intro i
  simp only [Nat.testBit_and, Nat.testBit_or]
  cases x.testBit i <;> cases m.testBit i <;> rfl

theorem andnot_and_mask (x m : Nat) (hm : m < 256) : (x &&& (255 ^^^ m)) &&& m = 0 := by
  apply Nat.eq_of_testBit_eq
  intro i
  have h255 : (255 : Nat).testBit i = decide (i < 8) := Nat.testBit_two_pow_sub_one 8 i
  simp only [Nat.testBit_and, Nat.testBit_xor, Nat.zero_testBit, h255]
  by_cases hi : i < 8
  · simp [hi]
  · have hlt : m < 2 ^ i :=
      lt_of_lt_of_le hm (by
        have : (2 : Nat) ^ 8 ≤ 2 ^ i := Nat.pow_le_pow_right (by omega) (by omega)
        simpa using this)
    simp [Nat.testBit_lt_two_pow hlt]

theorem updateAt_getElem? {α : Type} (f : α → α) (i : Nat) (l : List α) :
    (updateAt f i l)[i]? = (l[i]?).map f := by
  induction l generalizing i with
  | nil => simp [updateAt]
  | cons x xs ih =>
    cases i with
    | zero => simp [updateAt]
    | succ i => simpa [updateAt] using ih i

theorem updateAt_getElem?_ne {α : Type} (f : α → α) (i j : Nat) (l : List α) (h : j ≠ i) :
    (updateAt f i l)[j]? = l[j]? := by
  induction l generalizing i j with
  | nil => simp [updateAt]
  | cons x xs ih =>
    cases i with
    | zero =>
      cases j with
      | zero => exact absurd rfl h
      | succ j => simp [updateAt]
    | succ i =>
      cases j with
      | zero => simp [updateAt]
      | succ j => simpa [updateAt] using ih i j (by omega)

/-! #### The debouncer step -/

/-- The debouncer loop body in closed form: the commit of the re-sampled value
is unconditional. -/
theorem debounce_eq (b : Board) (now : Nat) (ports : Ports) (temp : Nat) (d : debouncer) :
    debounce b now ports temp d =
      if timeoutexpired b.TICK_BITS now d.timer = true then
        ({ d with state := ports.read d.port &&& d.port_mask, timer := Timer.never },
          if ports.read d.port &&& d.port_mask ≠ d.state
            then [⟨temp, d.handler, ports.read d.port &&& d.port_mask⟩] else [])
      else (d, []) := by
  unfold debounce
  by_cases h : timeoutexpired b.TICK_BITS now d.timer = true
  · rw [if_pos h, if_pos h]
    dsimp only
    by_cases hne : ports.read d.port &&& d.port_mask ≠ d.state
    · rw [if_pos hne, if_pos hne]; rfl
    · rw [if_neg hne, if_neg hne]
      have he : ports.read d.port &&& d.port_mask = d.state := not_not.mp hne
      rw [he]; rfl
  · rw [if_neg h, if_neg h]

theorem callsOf_append (i : Nat) (xs ys : List Call) :
    callsOf i (xs ++ ys) = callsOf i xs ++ callsOf i ys := by
  simp [callsOf]

theorem callsOf_debounce (b : Board) (now : Nat) (ports : Ports) (i j : Nat) (d : debouncer) :
    callsOf i (debounce b now ports j d).2
      = if j = i then (debounce b now ports j d).2 else [] := by
  rw [debounce_eq]
  unfold callsOf
  by_cases hij : j = i
  · subst hij
    rw [if_pos rfl]
    split_ifs <;> simp
  · rw [if_neg hij]
    split_ifs <;> simp [hij]

theorem edge_rearm_fields (b : Board) (now temp mask i : Nat) (s : State) :
    (edge_rearm b now temp mask i s).PORTA_old = s.PORTA_old ∧
    (edge_rearm b now temp mask i s).PORTB_old = s.PORTB_old ∧
    (edge_rearm b now temp mask i s).ports = s.ports ∧
    (edge_rearm b now temp mask i s).pacers = s.pacers ∧
    (edge_rearm b now temp mask i s).debouncers
      = (if temp &&& mask ≠ 0 then rearm b now i s.debouncers else s.debouncers) := by
  unfold edge_rearm
  by_cases h : temp &&& mask ≠ 0
  · rw [if_pos h, if_pos h]; exact ⟨rfl, rfl, rfl, rfl, rfl⟩
  · rw [if_neg h, if_neg h]; exact ⟨rfl, rfl, rfl, rfl, rfl⟩

/-- The re-arming the scan applies to one debouncer record. -/
theorem rearm_four (b : Board) (now : Nat) (d0 d1 d2 d3 : debouncer) :
    rearm b now 0 [d0, d1, d2, d3]
      = [{ d0 with timer := settimeout b.TICK_BITS now d0.timeout }, d1, d2, d3] ∧
    rearm b now 1 [d0, d1, d2, d3]
      = [d0, { d1 with timer := settimeout b.TICK_BITS now d1.timeout }, d2, d3] ∧
    rearm b now 2 [d0, d1, d2, d3]
      = [d0, d1, { d2 with timer := settimeout b.TICK_BITS now d2.timeout }, d3] ∧
    rearm b now 3 [d0, d1, d2, d3]
      = [d0, d1, d2, { d3 with timer := settimeout b.TICK_BITS now d3.timeout }] :=
  ⟨rfl, rfl, rfl, rfl⟩

/-- The scan on a four-element debouncer array. -/
theorem scan_four (b : Board) (now : Nat) (s : State) (d0 d1 d2 d3 : debouncer)
    (hds : s.debouncers = [d0, d1, d2, d3]) :
    (scan b now s).debouncers
      = [if (s.ports.read Port.B ^^^ s.PORTB_old) &&& b.STARTBUTTON_MASK ≠ 0
            then { d0 with timer := settimeout b.TICK_BITS now d0.timeout } else d0,
         if (s.ports.read Port.B ^^^ s.PORTB_old) &&& b.SETUPBUTTON_MASK ≠ 0
            then { d1 with timer := settimeout b.TICK_BITS now d1.timeout } else d1,
         if (s.ports.read Port.A ^^^ s.PORTA_old) &&& b.WATERSENSOR_MASK ≠ 0
            then { d2 with timer := settimeout b.TICK_BITS now d2.timeout } else d2,
         if (s.ports.read Port.B ^^^ s.PORTB_old) &&& b.HEATSENSOR_MASK ≠ 0
            then { d3 with timer := settimeout b.TICK_BITS now d3.timeout } else d3] ∧
    (scan b now s).PORTA_old = s.ports.read Port.A ∧
    (scan b now s).PORTB_old = s.ports.read Port.B ∧
    (scan b now s).ports = s.ports := by
  unfold scan
  dsimp only
  simp only [edge_rearm_fields, hds, DEBOUNCER_SENSOR_WATER, DEBOUNCER_BUTTON_START,
    DEBOUNCER_BUTTON_SETUP, DEBOUNCER_SENSOR_HEAT]
  refine ⟨?_, trivial, trivial, trivial⟩
  by_cases c2 : (s.ports.read Port.A ^^^ s.PORTA_old) &&& b.WATERSENSOR_MASK ≠ 0 <;>
  by_cases c0 : (s.ports.read Port.B ^^^ s.PORTB_old) &&& b.STARTBUTTON_MASK ≠ 0 <;>
  by_cases c1 : (s.ports.read Port.B ^^^ s.PORTB_old) &&& b.SETUPBUTTON_MASK ≠ 0 <;>
  by_cases c3 : (s.ports.read Port.B ^^^ s.PORTB_old) &&& b.HEATSENSOR_MASK ≠ 0 <;>
  simp only [c0, c1, c2, c3, if_true, if_false, not_true_eq_false, not_false_eq_true, ne_eq,
    (rearm_four b now _ _ _ _).1, (rearm_four b now _ _ _ _).2.1,
    (rearm_four b now _ _ _ _).2.2.1, (rearm_four b now _ _ _ _).2.2.2]

/-- One iteration on a four-element debouncer array, channel by channel. -/
theorem iterate_channels (b : Board) (s : State) (x : Input) (d0 d1 d2 d3 : debouncer)
    (hds : s.debouncers = [d0, d1, d2, d3]) :
    (iterate b s x).1.debouncers
      = [(channel b x s.PORTB_old 0 d0).1, (channel b x s.PORTB_old 1 d1).1,
         (channel b x s.PORTA_old 2 d2).1, (channel b x s.PORTB_old 3 d3).1] ∧
    (iterate b s x).2
      = (channel b x s.PORTB_old 0 d0).2 ++ ((channel b x s.PORTB_old 1 d1).2 ++
         ((channel b x s.PORTA_old 2 d2).2 ++ ((channel b x s.PORTB_old 3 d3).2 ++ []))) ∧
    (iterate b s x).1.PORTA_old = x.ports.read Port.A ∧
    (iterate b s x).1.PORTB_old = x.ports.read Port.B := by
  obtain ⟨h1, h2, h3, h4⟩ := scan_four b x.now { s with ports := x.ports } d0 d1 d2 d3 hds
  unfold iterate catgenie_work
  dsimp only
  rw [h1, h4]
  exact ⟨rfl, rfl, h2, h3⟩

theorem callsOf_channel (b : Board) (x : Input) (old i j : Nat) (d : debouncer) :
    callsOf i (channel b x old j d).2 = if j = i then (channel b x old j d).2 else [] := by
  unfold channel
  exact callsOf_debounce _ _ _ _ _ _

theorem length_four (ds : List debouncer) (h : ds.length = 4) :
    ∃ d0 d1 d2 d3, ds = [d0, d1, d2, d3] := by
  match ds, h with
  | [d0, d1, d2, d3], _ => exact ⟨d0, d1, d2, d3, rfl⟩

/-- The calls of debouncer `i` in a run of the super-loop are those of its own
channel. -/
theorem runCalls_channel (b : Board) (i : Nat) (xs : List Input) :
    ∀ (s : State) (d : debouncer), s.debouncers.length = 4 → s.debouncers[i]? = some d →
      callsOf i (runCalls b s xs) = channelRun b i d (scanOld s i) xs := by
  induction xs with
  | nil => intro s d _ _; rfl
  | cons x xs ih =>
    intro s d hlen hd
    obtain ⟨d0, d1, d2, d3, hds⟩ := length_four s.debouncers hlen
    obtain ⟨h1, h2, h3, h4⟩ := iterate_channels b s x d0 d1 d2 d3 hds
    have hlen' : (iterate b s x).1.debouncers.length = 4 := by rw [h1]; rfl
    unfold runCalls channelRun
    rw [callsOf_append, h2]
    simp only [callsOf_append, callsOf_channel]
    rw [hds] at hd
    match i, hd with
    | 0, hd =>
      simp only [List.getElem?_cons_zero, Option.some.injEq] at hd
      subst hd
      rw [ih (iterate b s x).1 (channel b x s.PORTB_old 0 d0).1 hlen' (by rw [h1]; rfl)]
      have ho : scanOld (iterate b s x).1 0 = x.ports.read (scanPort 0) := h4
      rw [ho]
      simp [scanOld, DEBOUNCER_SENSOR_WATER, callsOf]
    | 1, hd =>
      simp only [List.getElem?_cons_succ, List.getElem?_cons_zero, Option.some.injEq] at hd
      subst hd
      rw [ih (iterate b s x).1 (channel b x s.PORTB_old 1 d1).1 hlen' (by rw [h1]; rfl)]
      have ho : scanOld (iterate b s x).1 1 = x.ports.read (scanPort 1) := h4
      rw [ho]
      simp [scanOld, DEBOUNCER_SENSOR_WATER, callsOf]
    | 2, hd =>
      simp only [List.getElem?_cons_succ, List.getElem?_cons_zero, Option.some.injEq] at hd
      subst hd
      rw [ih (iterate b s x).1 (channel b x s.PORTA_old 2 d2).1 hlen' (by rw [h1]; rfl)]
      have ho : scanOld (iterate b s x).1 2 = x.ports.read (scanPort 2) := h3
      rw [ho]
      simp [scanOld, DEBOUNCER_SENSOR_WATER, callsOf]
    | 3, hd =>
      simp only [List.getElem?_cons_succ, List.getElem?_cons_zero, Option.some.injEq] at hd
      subst hd
      rw [ih (iterate b s x).1 (channel b x s.PORTB_old 3 d3).1 hlen' (by rw [h1]; rfl)]
      have ho : scanOld (iterate b s x).1 3 = x.ports.read (scanPort 3) := h4
      rw [ho]
      simp [scanOld, DEBOUNCER_SENSOR_WATER, callsOf]
    | n + 4, hd => simp at hd

/-- The scan sees an edge exactly when the masked input differs from the masked
value of the previous scan. -/
theorem edge_iff (v old m : Nat) : (v ^^^ old) &&& m ≠ 0 ↔ v &&& m ≠ old &&& m := by
  rw [Nat.and_xor_distrib_right, ne_eq, ne_eq, Nat.xor_eq_zero]

/-- One iteration on a debouncer that re-samples the port and mask the scan
looks at: the timer the expiry test sees is re-armed on an edge; on expiry the
input is committed and reported if it differs from the stored state. -/
theorem channel_eq (b : Board) (x : Input) (old i : Nat) (d : debouncer)
    (hport : d.port = scanPort i) (hmask : d.port_mask = scanMask b i) :
    channel b x old i d =
      if timeoutexpired b.TICK_BITS x.now
          (if inputOf b i x ≠ old &&& scanMask b i
            then settimeout b.TICK_BITS x.now d.timeout else d.timer) = true then
        ({ d with state := inputOf b i x, timer := Timer.never },
          if inputOf b i x ≠ d.state then [⟨i, d.handler, inputOf b i x⟩] else [])
      else
        ({ d with timer := (if inputOf b i x ≠ old &&& scanMask b i
            then settimeout b.TICK_BITS x.now d.timeout else d.timer) }, []) := by
  unfold channel
  rw [debounce_eq]
  have hin : inputOf b i x = x.ports.read (scanPort i) &&& scanMask b i := rfl
  have hin' : x.ports.read d.port &&& d.port_mask = inputOf b i x := by rw [hport, hmask, hin]
  by_cases hedge : (x.ports.read (scanPort i) ^^^ old) &&& scanMask b i ≠ 0
  · have hv : inputOf b i x ≠ old &&& scanMask b i := by rw [hin]; exact (edge_iff _ _ _).mp hedge
    rw [if_pos hedge, if_pos hv]
    dsimp only
    rw [hin']
  · have hv : ¬ inputOf b i x ≠ old &&& scanMask b i := by
      rw [hin]; exact fun h => hedge ((edge_iff _ _ _).mpr h)
    rw [if_neg hedge, if_neg hv, hin']

/-- A debouncer whose stored state and previously scanned input both equal the
input, which then stays there, calls its handler no more. -/
theorem channelRun_quiet (b : Board) (i A : Nat) (xs : List Input) :
    ∀ (d : debouncer) (old : Nat), d.port = scanPort i → d.port_mask = scanMask b i →
      d.state = A → old &&& scanMask b i = A → (∀ x ∈ xs, inputOf b i x = A) →
      channelRun b i d old xs = [] := by
  induction xs with
  | nil => intro d old _ _ _ _ _; rfl
  | cons x xs ih =>
    intro d old hport hmask hstate hold hin
    have hx : inputOf b i x = A := hin x (List.mem_cons_self _ _)
    have hrest : ∀ y ∈ xs, inputOf b i y = A := fun y hy => hin y (List.mem_cons_of_mem _ hy)
    have hstep := channel_eq b x old i d hport hmask
    rw [hx, hold, hstate] at hstep
    simp only [channelRun]
    by_cases hex : timeoutexpired b.TICK_BITS x.now
        (if A ≠ A then settimeout b.TICK_BITS x.now d.timeout else d.timer) = true
    · rw [if_pos hex, if_neg (fun h => h rfl)] at hstep
      rw [hstep, List.nil_append]
      exact ih _ _ hport hmask rfl hx hrest
    · rw [if_neg hex] at hstep
      rw [hstep, List.nil_append]
      exact ih _ _ hport hmask rfl hx hrest

/-- While the input stays where the previous scan saw it and the timer, armed
at `t1` for at most half the counter range, has not run out, a debouncer does
nothing. -/
theorem channelRun_waiting (b : Board) (i B t1 : Nat) (rest : List Input) (mid : List Input) :
    ∀ (d : debouncer) (old : Nat), d.port = scanPort i → d.port_mask = scanMask b i →
      d.timer = settimeout b.TICK_BITS t1 d.timeout →
      d.timeout ≤ tickModulus b.TICK_BITS / 2 → old &&& scanMask b i = B →
      (∀ x ∈ mid, inputOf b i x = B ∧ t1 ≤ x.now ∧ x.now < t1 + d.timeout) →
      ∃ old', old' &&& scanMask b i = B ∧
        channelRun b i d old (mid ++ rest) = channelRun b i d old' rest := by
  induction mid with
  | nil => intro d old _ _ _ _ hold _; exact ⟨old, hold, rfl⟩
  | cons x xs ih =>
    intro d old hport hmask htimer hhalf hold hin
    obtain ⟨hx, hx1, hx2⟩ := hin x (List.mem_cons_self _ _)
    have hnot : timeoutexpired b.TICK_BITS x.now
        (if B ≠ B then settimeout b.TICK_BITS x.now d.timeout else d.timer) = false := by
      rw [if_neg (fun h => h rfl), htimer]
      exact not_expired_before _ _ _ _ hx1 hx2 hhalf
    have hstep : channel b x old i d = (d, []) := by
      rw [channel_eq b x old i d hport hmask, hx, hold, if_neg (by rw [hnot]; exact Bool.false_ne_true),
        if_neg (fun h => h rfl)]
    obtain ⟨old', ho, hrun⟩ := ih d (x.ports.read (scanPort i)) hport hmask htimer hhalf hx
      (fun y hy => hin y (List.mem_cons_of_mem _ hy))
    refine ⟨old', ho, ?_⟩
    simp only [List.cons_append, channelRun, hstep, List.nil_append]
    exact hrun

/-- A debouncer armed at `t0` whose stored state differs from the input `B`,
with the input staying at `B`: if some iteration falls between the deadline and
half the counter range after it, the handler is called once, with `B`. -/
theorem channelRun_armed (b : Board) (i B t0 : Nat) (xs : List Input) :
    ∀ (d : debouncer) (old : Nat), d.port = scanPort i → d.port_mask = scanMask b i →
      d.timer = settimeout b.TICK_BITS t0 d.timeout → d.state ≠ B →
      old &&& scanMask b i = B → (∀ x ∈ xs, inputOf b i x = B) →
      (∃ x ∈ xs, t0 + d.timeout ≤ x.now ∧
        x.now < t0 + d.timeout + tickModulus b.TICK_BITS / 2) →
      channelRun b i d old xs = [⟨i, d.handler, B⟩] := by
  induction xs with
  | nil => intro d old _ _ _ _ _ _ hex; obtain ⟨x, hx, -⟩ := hex; simp at hx
  | cons x xs ih =>
    intro d old hport hmask htimer hstate hold hin hwin
    have hx : inputOf b i x = B := hin x (List.mem_cons_self _ _)
    have hrest : ∀ y ∈ xs, inputOf b i y = B := fun y hy => hin y (List.mem_cons_of_mem _ hy)
    have hnn : ¬ (B ≠ B) := fun h => h rfl
    have hstep := channel_eq b x old i d hport hmask
    rw [hx, hold, if_neg hnn] at hstep
    simp only [channelRun]
    by_cases hex : timeoutexpired b.TICK_BITS x.now d.timer = true
    · rw [if_pos hex, if_pos (fun h => hstate h.symm)] at hstep
      have hq := channelRun_quiet b i B xs { d with state := B, timer := Timer.never }
        (x.ports.read (scanPort i)) hport hmask rfl hx hrest
      rw [hstep]
      dsimp only
      rw [hq]
      rfl
    · rw [if_neg hex] at hstep
      rw [hstep, List.nil_append]
      apply ih _ _ hport hmask htimer hstate hx hrest
      obtain ⟨y, hy, hy1, hy2⟩ := hwin
      rcases List.mem_cons.mp hy with rfl | hy'
      · exfalso
        apply hex
        rw [htimer]
        exact expired_in_window _ _ _ _ hy1 hy2
      · exact ⟨y, hy', hy1, hy2⟩

/-- C6. Debounce idempotence. Take a debouncer (of a four-element array) that
re-samples the port and mask the scan looks at, with a non-zero delay of at
most half the tick range, last-stable value `A`, and `A` seen at the previous
scan; its timer may be disarmed or in any other state. If the scanned input goes to `B` at iteration `e1`, stays
at `B` during `mid`, is back at `A` at iteration `e2`, scanned less than the
delay after `e1`, and stays at `A` during `post`, then the handler of that
debouncer is called zero times in the whole run, however long `post` is. -/
theorem debounce_idempotence (b : Board) (s : State) (i : Nat) (d : debouncer) (A B : Nat)
    (e1 : Input) (mid : List Input) (e2 : Input) (post : List Input)
    (hlen : s.debouncers.length = DEBOUNCER_MAX) (hd : s.debouncers[i]? = some d)
    (hport : d.port = scanPort i) (hmask : d.port_mask = scanMask b i)
    (hdelay : 0 < d.timeout) (hhalf : d.timeout ≤ tickModulus b.TICK_BITS / 2)
    (hstate : d.state = A) (hold : scanOld s i &&& scanMask b i = A)
    (hAB : B ≠ A) (he1 : inputOf b i e1 = B)
    (hmid : ∀ x ∈ mid, inputOf b i x = B ∧ e1.now ≤ x.now ∧ x.now ≤ e2.now)
    (he2 : inputOf b i e2 = A) (ht : e1.now ≤ e2.now ∧ e2.now < e1.now + d.timeout)
    (hpost : ∀ x ∈ post, inputOf b i x = A) :
    callsOf i (runCalls b s (e1 :: (mid ++ e2 :: post))) = [] := by
  rw [runCalls_channel b i _ s d hlen hd]
  have hne1 : ¬ timeoutexpired b.TICK_BITS e1.now
      (settimeout b.TICK_BITS e1.now d.timeout) = true := by
    rw [not_expired_before _ _ _ _ (le_refl _) (by omega) hhalf]
    exact Bool.false_ne_true
  have hne2 : ¬ timeoutexpired b.TICK_BITS e2.now
      (settimeout b.TICK_BITS e2.now d.timeout) = true := by
    rw [not_expired_before _ _ _ _ (le_refl _) (by omega) hhalf]
    exact Bool.false_ne_true
  -- iteration `e1`: the edge arms the timer, which has not run out
  have hstep1 := channel_eq b e1 (scanOld s i) i d hport hmask
  rw [he1, hold, if_pos hAB, if_neg hne1] at hstep1
  simp only [channelRun]
  rw [hstep1, List.nil_append]
  dsimp only
  -- iterations `mid`: nothing happens
  obtain ⟨old', ho, hrun⟩ := channelRun_waiting b i B e1.now (e2 :: post) mid
    { d with timer := settimeout b.TICK_BITS e1.now d.timeout } (e1.ports.read (scanPort i))
    hport hmask rfl hhalf he1 (fun x hx => by
      obtain ⟨h1, h2, h3⟩ := hmid x hx
      have h4 : x.now < e1.now + d.timeout := by omega
      exact ⟨h1, h2, h4⟩)
  rw [hrun]
  -- iteration `e2`: the edge re-arms the timer, which has not run out
  have hstep2 := channel_eq b e2 old' i
    { d with timer := settimeout b.TICK_BITS e1.now d.timeout } hport hmask
  rw [he2, ho, if_pos hAB.symm] at hstep2
  dsimp only at hstep2
  rw [if_neg hne2] at hstep2
  simp only [channelRun]
  rw [hstep2, List.nil_append]
  -- iterations `post`: the input equals the stored state
  exact channelRun_quiet b i A post _ _ hport hmask hstate he2 hpost

theorem debounce_idempotence_witness :
    callsOf 0 (runCalls board (start board)
      (down 1000 :: ([down 1010, down 1020] ++ up 1049 :: [up 1100, up 1200, up 70000]))) = [] :=
  debounce_idempotence board (start board) 0
    { timer := Timer.never, timeout := 50, state := 0, port := Port.B, port_mask := 0x01,
      handler := Handler.startbutton_event }
    0 1 (down 1000) [down 1010, down 1020] (up 1049) [up 1100, up 1200, up 70000]
    rfl rfl rfl rfl (by decide) (by decide) rfl rfl (by decide) rfl (by decide) rfl (by decide)
    (by decide)

/-- C7. Debounce confirmation. Take a debouncer (of a four-element array) that
re-samples the port and mask the scan looks at, with last-stable value `A`. If
the scan of iteration `e0` sees the input change to `B`, different from `A`, the
input stays at `B` during `hold`, and `catgenie_work` runs at some iteration
that is at least the configured delay, and less than the delay plus half the
tick range, after `e0`, then over the whole run the handler is called exactly
once, with `B`. -/
theorem debounce_confirmation (b : Board) (s : State) (i : Nat) (d : debouncer) (A B : Nat)
    (e0 : Input) (hold : List Input)
    (hlen : s.debouncers.length = DEBOUNCER_MAX) (hd : s.debouncers[i]? = some d)
    (hport : d.port = scanPort i) (hmask : d.port_mask = scanMask b i)
    (hstate : d.state = A) (hAB : B ≠ A)
    (hedge : scanOld s i &&& scanMask b i ≠ B)
    (he0 : inputOf b i e0 = B) (hhold : ∀ x ∈ hold, inputOf b i x = B)
    (hheld : ∃ x ∈ e0 :: hold, e0.now + d.timeout ≤ x.now ∧
      x.now < e0.now + d.timeout + tickModulus b.TICK_BITS / 2) :
    callsOf i (runCalls b s (e0 :: hold)) = [⟨i, d.handler, B⟩] := by
  rw [runCalls_channel b i _ s d hlen hd]
  have hstep := channel_eq b e0 (scanOld s i) i d hport hmask
  rw [he0, if_pos (fun h => hedge h.symm)] at hstep
  simp only [channelRun]
  by_cases hex : timeoutexpired b.TICK_BITS e0.now
      (settimeout b.TICK_BITS e0.now d.timeout) = true
  · rw [if_pos hex, hstate, if_pos hAB] at hstep
    have hq := channelRun_quiet b i B hold { d with state := B, timer := Timer.never }
      (e0.ports.read (scanPort i)) hport hmask rfl he0 hhold
    rw [hstep]
    dsimp only
    rw [hq]
    rfl
  · rw [if_neg hex] at hstep
    rw [hstep, List.nil_append]
    dsimp only
    have hrun := channelRun_armed b i B e0.now hold
      { d with timer := settimeout b.TICK_BITS e0.now d.timeout } (e0.ports.read (scanPort i))
      hport hmask rfl (by rw [hstate]; exact hAB.symm) he0 hhold
      (by
        obtain ⟨y, hy, hy1, hy2⟩ := hheld
        rcases List.mem_cons.mp hy with rfl | hy'
        · exact absurd (expired_in_window _ _ _ _ hy1 hy2) hex
        · exact ⟨y, hy', hy1, hy2⟩)
    exact hrun

theorem debounce_confirmation_witness :
    callsOf 0 (runCalls board (start board) (down 1000 :: [down 1030, down 1060, down 1090]))
      = [⟨0, Handler.startbutton_event, 1⟩] :=
  debounce_confirmation board (start board) 0
    { timer := Timer.never, timeout := 50, state := 0, port := Port.B, port_mask := 0x01,
      handler := Handler.startbutton_event }
    0 1 (down 1000) [down 1030, down 1060, down 1090]
    rfl rfl rfl rfl rfl (by decide) (by decide) rfl (by decide)
    ⟨down 1060, by decide, by decide, by decide⟩

/-- One expired pacer step from a single-bit mask `2 ^ j`. -/
theorem pace_expired_spec (b : Board) (now : Nat) (ports : Ports) (p : pacer) (j : Nat)
    (hj : j < 8) (hmask : p.mask = 2 ^ j) (hpm : p.port_mask < 256) :
    (pace_expired b now ports p).2.mask = 2 ^ ((j + 1) % 8) ∧
    (pace_expired b now ports p).2.pattern
        = (if j = 7 ∧ p.repeat_ = 0 then 0 else p.pattern) ∧
    (pace_expired b now ports p).2.repeat_ = p.repeat_ ∧
    (pace_expired b now ports p).2.port = p.port ∧
    (pace_expired b now ports p).2.port_mask = p.port_mask ∧
    outputBit (pace_expired b now ports p).1 (pace_expired b now ports p).2
        = (if p.pattern &&& 2 ^ j ≠ 0 then p.port_mask else 0) := by
  have hout : ∀ q : pacer, q.port = p.port → q.port_mask = p.port_mask →
      outputBit (if p.pattern &&& 2 ^ j ≠ 0
          then ports.write p.port (ports.read p.port ||| p.port_mask)
          else ports.write p.port (ports.read p.port &&& (255 ^^^ p.port_mask))) q
        = (if p.pattern &&& 2 ^ j ≠ 0 then p.port_mask else 0) := by
    intro q hq1 hq2
    unfold outputBit
    rw [hq1, hq2]
    by_cases hb : p.pattern &&& 2 ^ j ≠ 0
    · rw [if_pos hb, if_pos hb, read_write, or_and_mask]
    · rw [if_neg hb, if_neg hb, read_write, andnot_and_mask _ _ hpm]
  unfold pace_expired
  dsimp only
  rw [hmask]
  by_cases h7 : j = 7
  · subst h7
    have hz : (2 ^ 7 <<< 1) % 256 = 0 := by decide
    rw [if_pos hz]
    by_cases hr : p.repeat_ = 0
    · rw [if_pos hr]
      exact ⟨rfl, (if_pos ⟨rfl, hr⟩).symm, rfl, rfl, rfl, hout _ rfl rfl⟩
    · rw [if_neg hr]
      exact ⟨rfl, (if_neg (fun h => hr h.2)).symm, rfl, rfl, rfl, hout _ rfl rfl⟩
  · have hnz : (2 ^ j <<< 1) % 256 = 2 ^ ((j + 1) % 8) ∧ (2 ^ j <<< 1) % 256 ≠ 0 := by
      have hj7 : j < 7 := by omega
      interval_cases j <;> decide
    rw [if_neg hnz.2]
    exact ⟨hnz.1, (if_neg (fun h => h7 h.1)).symm, rfl, rfl, rfl, hout _ rfl rfl⟩

/-- The expired steps of a pacer that starts with the single-bit mask `2 ^ j`:
what the `k`-th of them (counted from 0) leaves in the record and on the pin. -/
theorem paceRun_spec (b : Board) (xs : List Input) :
    ∀ (p : pacer) (j : Nat), j < 8 → p.mask = 2 ^ j → p.port_mask < 256 →
      ∀ (k : Nat) (r : Ports × pacer), (paceRun b p xs)[k]? = some r →
        r.2.repeat_ = p.repeat_ ∧ r.2.port_mask = p.port_mask ∧
        (p.repeat_ ≠ 0 → r.2.pattern = p.pattern ∧
          outputBit r.1 r.2 = (if p.pattern &&& 2 ^ ((j + k) % 8) ≠ 0 then p.port_mask else 0)) ∧
        (p.repeat_ = 0 → r.2.pattern = (if 8 ≤ j + k + 1 then 0 else p.pattern) ∧
          outputBit r.1 r.2
            = (if j + k < 8 ∧ p.pattern &&& 2 ^ (j + k) ≠ 0 then p.port_mask else 0)) := by
  induction xs with
  | nil => intro p j _ _ _ k r hr; simp [paceRun] at hr
  | cons x xs ih =>
    intro p j hj hmask hpm k r hr
    unfold paceRun at hr
    by_cases hex : timeoutexpired b.TICK_BITS x.now p.timer = true
    · rw [if_pos hex] at hr
      have hpace : pace b x.now x.ports p = pace_expired b x.now x.ports p := by
        unfold pace; rw [if_pos hex]
      rw [hpace] at hr
      obtain ⟨e1, e2, e3, -, e5, e6⟩ := pace_expired_spec b x.now x.ports p j hj hmask hpm
      cases k with
      | zero =>
        simp only [List.getElem?_cons_zero, Option.some.injEq] at hr
        subst hr
        refine ⟨e3, e5, fun hrep => ⟨?_, ?_⟩, fun hrep => ⟨?_, ?_⟩⟩
        · rw [e2, if_neg (fun h => hrep h.2)]
        · rw [e6, Nat.add_zero, Nat.mod_eq_of_lt hj]
        · rw [e2]
          by_cases h7 : j = 7
          · rw [if_pos ⟨h7, hrep⟩, if_pos (by omega)]
          · rw [if_neg (fun h => h7 h.1), if_neg (by omega)]
        · rw [e6, Nat.add_zero]
          by_cases hb : p.pattern &&& 2 ^ j ≠ 0
          · rw [if_pos hb, if_pos ⟨hj, hb⟩]
          · rw [if_neg hb, if_neg (fun h => hb h.2)]
      | succ k =>
        simp only [List.getElem?_cons_succ] at hr
        obtain ⟨f1, f2, f3, f4⟩ := ih (pace_expired b x.now x.ports p).2 ((j + 1) % 8)
          (Nat.mod_lt _ (by omega)) e1 (by rw [e5]; exact hpm) k r hr
        rw [e3] at f1 f3 f4
        rw [e5] at f2 f3 f4
        refine ⟨f1, f2, fun hrep => ?_, fun hrep => ?_⟩
        · obtain ⟨g1, g2⟩ := f3 hrep
          have hpat : (pace_expired b x.now x.ports p).2.pattern = p.pattern := by
            rw [e2]; exact if_neg (fun h => hrep h.2)
          have hidx : ((j + 1) % 8 + k) % 8 = (j + (k + 1)) % 8 := by omega
          rw [hpat] at g1 g2
          rw [hidx] at g2
          exact ⟨g1, g2⟩
        · obtain ⟨g1, g2⟩ := f4 hrep
          by_cases h7 : j = 7
          · subst h7
            have hpat : (pace_expired b x.now x.ports p).2.pattern = 0 := by
              rw [e2]; exact if_pos ⟨rfl, hrep⟩
            rw [hpat] at g1 g2
            have hc : 8 ≤ 7 + (k + 1) + 1 := by omega
            have hA : ¬ ((7 + 1) % 8 + k < 8 ∧ 0 &&& 2 ^ ((7 + 1) % 8 + k) ≠ 0) :=
              fun h => h.2 (Nat.zero_and _)
            have hB : ¬ (7 + (k + 1) < 8 ∧ p.pattern &&& 2 ^ (7 + (k + 1)) ≠ 0) :=
              fun h => by omega
            refine ⟨?_, ?_⟩
            · rw [if_pos hc, g1]; split_ifs <;> rfl
            · rw [g2, if_neg hA, if_neg hB]
          · have hpat : (pace_expired b x.now x.ports p).2.pattern = p.pattern := by
              rw [e2]; exact if_neg (fun h => h7 h.1)
            have hm : (j + 1) % 8 = j + 1 := Nat.mod_eq_of_lt (by omega)
            have hidx : j + 1 + k = j + (k + 1) := by omega
            rw [hpat, hm, hidx] at g1 g2
            exact ⟨g1, g2⟩
    · rw [if_neg hex] at hr
      exact ih p j hj hmask hpm k r hr

/-! #### The ports and the record after a pacer step -/

theorem read_write_ne (r : Ports) (q q' : Port) (v : Nat) (h : q' ≠ q) :
    (r.write q v).read q' = r.read q' := by
  cases q <;> cases q' <;> first | rfl | exact absurd rfl h

/-- The ports and the timer after an expired pacer step. -/
theorem pace_expired_frame (b : Board) (now : Nat) (ports : Ports) (p : pacer) :
    (pace_expired b now ports p).1
      = (if p.pattern &&& p.mask ≠ 0
          then ports.write p.port (ports.read p.port ||| p.port_mask)
          else ports.write p.port (ports.read p.port &&& (255 ^^^ p.port_mask))) ∧
    (pace_expired b now ports p).2.timer = settimeout b.TICK_BITS now (PACER_BITTIME b) := by
  unfold pace_expired
  dsimp only
  split_ifs <;> exact ⟨rfl, rfl⟩

/-- The record after an expired pacer step from a single-bit mask `2 ^ j`. -/
theorem pace_expired_record (b : Board) (now : Nat) (ports : Ports) (p : pacer) (j : Nat)
    (hj : j < 8) (hmask : p.mask = 2 ^ j) :
    (pace_expired b now ports p).2.mask = 2 ^ ((j + 1) % 8) ∧
    (pace_expired b now ports p).2.pattern
        = (if j = 7 ∧ p.repeat_ = 0 then 0 else p.pattern) ∧
    (pace_expired b now ports p).2.repeat_ = p.repeat_ ∧
    (pace_expired b now ports p).2.port = p.port ∧
    (pace_expired b now ports p).2.port_mask = p.port_mask := by
  unfold pace_expired
  dsimp only
  rw [hmask]
  by_cases h7 : j = 7
  · subst h7
    have hz : (2 ^ 7 <<< 1) % 256 = 0 := by decide
    rw [if_pos hz]
    by_cases hr : p.repeat_ = 0
    · rw [if_pos hr]
      exact ⟨rfl, (if_pos ⟨rfl, hr⟩).symm, rfl, rfl, rfl⟩
    · rw [if_neg hr]
      exact ⟨rfl, (if_neg (fun h => hr h.2)).symm, rfl, rfl, rfl⟩
  · have hnz : (2 ^ j <<< 1) % 256 = 2 ^ ((j + 1) % 8) ∧ (2 ^ j <<< 1) % 256 ≠ 0 := by
      have hj7 : j < 7 := by omega
      interval_cases j <;> decide
    rw [if_neg hnz.2]
    exact ⟨hnz.1, (if_neg (fun h => h7 h.1)).symm, rfl, rfl, rfl⟩

/-- The mask along the expired steps of a pacer that starts at `2 ^ j`. -/
theorem paceRun_mask (b : Board) (xs : List Input) :
    ∀ (p : pacer) (j : Nat), j < 8 → p.mask = 2 ^ j →
      ∀ (k : Nat) (r : Ports × pacer), (paceRun b p xs)[k]? = some r →
        r.2.mask = 2 ^ ((j + k + 1) % 8) := by
  induction xs with
  | nil => intro p j _ _ k r hr; simp [paceRun] at hr
  | cons x xs ih =>
    intro p j hj hmask k r hr
    unfold paceRun at hr
    by_cases hex : timeoutexpired b.TICK_BITS x.now p.timer = true
    · rw [if_pos hex] at hr
      have hpace : pace b x.now x.ports p = pace_expired b x.now x.ports p := by
        unfold pace; rw [if_pos hex]
      rw [hpace] at hr
      obtain ⟨e1, -⟩ := pace_expired_record b x.now x.ports p j hj hmask
      cases k with
      | zero =>
        simp only [List.getElem?_cons_zero, Option.some.injEq] at hr
        subst hr
        rw [e1]
      | succ k =>
        simp only [List.getElem?_cons_succ] at hr
        have h := ih (pace_expired b x.now x.ports p).2 ((j + 1) % 8)
          (Nat.mod_lt _ (by omega)) e1 k r hr
        rw [h]
        have hidx : ((j + 1) % 8 + k + 1) % 8 = (j + (k + 1) + 1) % 8 := by omega
        rw [hidx]
    · rw [if_neg hex] at hr
      exact ih p j hj hmask k r hr

/-! #### The pacer loop inside `catgenie_work` -/

/-- The scan touches neither the pacers nor the port registers. -/
theorem scan_frame (b : Board) (now : Nat) (s : State) :
    (scan b now s).pacers = s.pacers ∧ (scan b now s).ports = s.ports := by
  unfold scan
  dsimp only
  simp only [edge_rearm_fields]
  exact ⟨trivial, trivial⟩

/-- The pacers and the ports after `catgenie_work` are those the pacer loop
leaves. -/
theorem catgenie_work_pacers (b : Board) (now : Nat) (s : State) :
    (catgenie_work b now s).1.pacers = (run_pacers b now s.ports s.pacers).2 ∧
    (catgenie_work b now s).1.ports = (run_pacers b now s.ports s.pacers).1 := by
  obtain ⟨h1, h2⟩ := scan_frame b now s
  unfold catgenie_work
  dsimp only
  rw [h1, h2]
  exact ⟨rfl, rfl⟩

/-- The record a pacer step leaves does not depend on the port registers. -/
theorem pace_snd (b : Board) (now : Nat) (r r' : Ports) (p : pacer) :
    (pace b now r p).2 = (pace b now r' p).2 := by
  unfold pace pace_expired
  dsimp only
  split_ifs <;> rfl

/-- A pacer step never changes the pacer's port or port mask. -/
theorem pace_wiring (b : Board) (now : Nat) (r : Ports) (p : pacer) :
    (pace b now r p).2.port = p.port ∧ (pace b now r p).2.port_mask = p.port_mask := by
  unfold pace pace_expired
  dsimp only
  split_ifs <;> exact ⟨rfl, rfl⟩

theorem run_pacers_cons (b : Board) (now : Nat) (r : Ports) (q : pacer) (qs : List pacer) :
    (run_pacers b now r (q :: qs)).1 = (run_pacers b now (pace b now r q).1 qs).1 ∧
    (run_pacers b now r (q :: qs)).2
      = (pace b now r q).2 :: (run_pacers b now (pace b now r q).1 qs).2 :=
  ⟨rfl, rfl⟩

/-- The pacer loop applies the loop body to every pacer record. -/
theorem run_pacers_snd (b : Board) (now : Nat) (ps : List pacer) :
    ∀ (r : Ports), (run_pacers b now r ps).2 = ps.map (fun q => (pace b now r q).2) := by
  induction ps with
  | nil => intro r; rfl
  | cons q qs ih =>
    intro r
    rw [(run_pacers_cons b now r q qs).2, ih, List.map_cons]
    congr 1
    exact List.map_congr_left (fun x _ => pace_snd b now _ _ x)

theorem view_or (v m M : Nat) (h : m &&& M = 0) : (v ||| m) &&& M = v &&& M := by
  apply Nat.eq_of_testBit_eq
  intro i
  have hi : (m &&& M).testBit i = false := by rw [h]; exact Nat.zero_testBit i
  rw [Nat.testBit_and] at hi
  simp only [Nat.testBit_and, Nat.testBit_or]
  cases hv : v.testBit i <;> cases hm : m.testBit i <;> cases hM : M.testBit i <;>
    simp_all

theorem view_andnot (v m M : Nat) (hM : M < 256) (h : m &&& M = 0) :
    (v &&& (255 ^^^ m)) &&& M = v &&& M := by
  apply Nat.eq_of_testBit_eq
  intro i
  have hi : (m &&& M).testBit i = false := by rw [h]; exact Nat.zero_testBit i
  rw [Nat.testBit_and] at hi
  have h255 : (255 : Nat).testBit i = decide (i < 8) := Nat.testBit_two_pow_sub_one 8 i
  simp only [Nat.testBit_and, Nat.testBit_xor, h255]
  by_cases h8 : i < 8
  · cases hv : v.testBit i <;> cases hm : m.testBit i <;> cases hMi : M.testBit i <;>
      simp_all
  · have hlt : M < 2 ^ i :=
      lt_of_lt_of_le hM (by
        have : (2 : Nat) ^ 8 ≤ 2 ^ i := Nat.pow_le_pow_right (by omega) (by omega)
        simpa using this)
    simp [Nat.testBit_lt_two_pow hlt]

/-- A pacer step leaves alone the bits of `M` on port `P` when the pacer is on
another port or shares no port-mask bit with `M`. -/
theorem pace_other (b : Board) (now : Nat) (r : Ports) (q : pacer) (P : Port) (M : Nat)
    (hM : M < 256) (h : q.port ≠ P ∨ q.port_mask &&& M = 0) :
    (pace b now r q).1.read P &&& M = r.read P &&& M := by
  unfold pace
  by_cases hex : timeoutexpired b.TICK_BITS now q.timer = true
  · rw [if_pos hex, (pace_expired_frame b now r q).1]
    by_cases hP : q.port = P
    · have hd : q.port_mask &&& M = 0 := h.resolve_left (not_not.mpr hP)
      subst hP
      by_cases hb : q.pattern &&& q.mask ≠ 0
      · rw [if_pos hb, read_write, view_or _ _ _ hd]
      · rw [if_neg hb, read_write, view_andnot _ _ _ hM hd]
    · by_cases hb : q.pattern &&& q.mask ≠ 0
      · rw [if_pos hb, read_write_ne _ _ _ _ (Ne.symm hP)]
      · rw [if_neg hb, read_write_ne _ _ _ _ (Ne.symm hP)]
  · rw [if_neg hex]

/-- An expired pacer step makes the pacer's own pin equal to the current
pattern bit. -/
theorem pace_self (b : Board) (now : Nat) (r : Ports) (p : pacer)
    (hex : timeoutexpired b.TICK_BITS now p.timer = true) (hpm : p.port_mask < 256) :
    (pace b now r p).1.read p.port &&& p.port_mask
      = (if p.pattern &&& p.mask ≠ 0 then p.port_mask else 0) := by
  unfold pace
  rw [if_pos hex, (pace_expired_frame b now r p).1]
  by_cases hb : p.pattern &&& p.mask ≠ 0
  · rw [if_pos hb, if_pos hb, read_write, or_and_mask]
  · rw [if_neg hb, if_neg hb, read_write, andnot_and_mask _ _ hpm]

theorem pace_idle (b : Board) (now : Nat) (r : Ports) (p : pacer)
    (hex : ¬ timeoutexpired b.TICK_BITS now p.timer = true) : pace b now r p = (r, p) := by
  unfold pace
  rw [if_neg hex]

theorem pace_view (b : Board) (now : Nat) (r r' : Ports) (p : pacer) (hpm : p.port_mask < 256)
    (h : r.read p.port &&& p.port_mask = r'.read p.port &&& p.port_mask) :
    (pace b now r p).1.read p.port &&& p.port_mask
      = (pace b now r' p).1.read p.port &&& p.port_mask := by
  by_cases hex : timeoutexpired b.TICK_BITS now p.timer = true
  · rw [pace_self b now r p hex hpm, pace_self b now r' p hex hpm]
  · rw [pace_idle b now r p hex, pace_idle b now r' p hex]
    exact h

theorem run_pacers_others (b : Board) (now : Nat) (P : Port) (M : Nat) (hM : M < 256)
    (ps : List pacer) :
    ∀ (r : Ports), (∀ q ∈ ps, q.port ≠ P ∨ q.port_mask &&& M = 0) →
      (run_pacers b now r ps).1.read P &&& M = r.read P &&& M := by
  induction ps with
  | nil => intro r _; rfl
  | cons q qs ih =>
    intro r h
    rw [(run_pacers_cons b now r q qs).1, ih _ (fun x hx => h x (List.mem_cons_of_mem _ hx)),
      pace_other b now r q P M hM (h q (List.mem_cons_self _ _))]

theorem OwnPin_zero (P : Port) (M : Nat) (q : pacer) (qs : List pacer) :
    OwnPin P M 0 (q :: qs) ↔ ∀ x ∈ qs, x.port ≠ P ∨ x.port_mask &&& M = 0 := by
  unfold OwnPin
  rfl

theorem OwnPin_succ (P : Port) (M i : Nat) (q : pacer) (qs : List pacer) :
    OwnPin P M (i + 1) (q :: qs)
      ↔ (q.port ≠ P ∨ q.port_mask &&& M = 0) ∧ OwnPin P M i qs := by
  unfold OwnPin
  rw [List.eraseIdx_cons_succ]
  exact List.forall_mem_cons

/-- Pacer steps keep the wiring: the pin stays the pacer's own. -/
theorem OwnPin_map (P : Port) (M : Nat) (g : pacer → pacer)
    (hg : ∀ q, (g q).port = q.port ∧ (g q).port_mask = q.port_mask) (ps : List pacer) :
    ∀ (i : Nat), OwnPin P M i ps → OwnPin P M i (ps.map g) := by
  induction ps with
  | nil => intro i _ q hq; simp at hq
  | cons q qs ih =>
    intro i h
    cases i with
    | zero =>
      rw [List.map_cons, OwnPin_zero]
      rw [OwnPin_zero] at h
      intro x hx
      obtain ⟨y, hy, rfl⟩ := List.mem_map.mp hx
      rw [(hg y).1, (hg y).2]
      exact h y hy
    | succ i =>
      rw [List.map_cons, OwnPin_succ]
      rw [OwnPin_succ] at h
      refine ⟨?_, ih i h.2⟩
      rw [(hg q).1, (hg q).2]
      exact h.1

/-- After the pacer loop, a pacer's own pin is as that pacer's step leaves
it. -/
theorem run_pacers_pin (b : Board) (now : Nat) (ps : List pacer) :
    ∀ (i : Nat) (r : Ports) (p : pacer), ps[i]? = some p → p.port_mask < 256 →
      OwnPin p.port p.port_mask i ps →
      (run_pacers b now r ps).1.read p.port &&& p.port_mask
        = (pace b now r p).1.read p.port &&& p.port_mask := by
  induction ps with
  | nil => intro i r p hp; simp at hp
  | cons q qs ih =>
    intro i r p hp hpm hown
    cases i with
    | zero =>
      simp only [List.getElem?_cons_zero, Option.some.injEq] at hp
      subst hp
      rw [OwnPin_zero] at hown
      rw [(run_pacers_cons b now r q qs).1]
      exact run_pacers_others b now q.port q.port_mask hpm qs _ hown
    | succ i =>
      simp only [List.getElem?_cons_succ] at hp
      rw [OwnPin_succ] at hown
      rw [(run_pacers_cons b now r q qs).1, ih i _ p hp hpm hown.2]
      exact pace_view b now _ _ p hpm (pace_other b now r q p.port p.port_mask hpm hown.1)

/-- One iteration of the super-loop applies the pacer loop body to every
pacer, starting from the ports as read. -/
theorem iterate_pacers (b : Board) (s : State) (x : Input) :
    (iterate b s x).1.pacers = s.pacers.map (fun q => (pace b x.now x.ports q).2) ∧
    (iterate b s x).1.ports = (run_pacers b x.now x.ports s.pacers).1 := by
  obtain ⟨h1, h2⟩ := catgenie_work_pacers b x.now { s with ports := x.ports }
  unfold iterate
  rw [h1, h2, run_pacers_snd]
  exact ⟨rfl, rfl⟩

theorem iterate_pacer (b : Board) (s : State) (x : Input) (i : Nat) (p : pacer)
    (hp : s.pacers[i]? = some p) :
    (iterate b s x).1.pacers[i]? = some (pace b x.now x.ports p).2 := by
  rw [(iterate_pacers b s x).1, List.getElem?_map, hp]
  rfl

/-- The records of `pacers[i]` after the iterations that found its timer
expired are those of the pacer stepped on its own. -/
theorem pacerSteps_records (b : Board) (i : Nat) (xs : List Input) :
    ∀ (s : State) (p : pacer), s.pacers[i]? = some p →
      (pacerSteps b i s xs).map (fun t => t.pacers[i]?)
        = (paceRun b p xs).map (fun r => some r.2) := by
  induction xs with
  | nil => intro s p _; rfl
  | cons x xs ih =>
    intro s p hp
    have hp' := iterate_pacer b s x i p hp
    have ih' := ih (iterate b s x).1 (pace b x.now x.ports p).2 hp'
    unfold pacerSteps paceRun
    rw [hp]
    dsimp only
    by_cases hex : timeoutexpired b.TICK_BITS x.now p.timer = true
    · rw [if_pos hex, if_pos hex, List.map_cons, List.map_cons, ih', hp']
    · rw [if_neg hex, if_neg hex]
      rw [pace_idle b x.now x.ports p hex] at ih'
      exact ih'

/-- The pin of `pacers[i]` after the iterations that found its timer expired is
as the pacer stepped on its own leaves it, when the pin is the pacer's own. -/
theorem pacerSteps_pins (b : Board) (i : Nat) (P : Port) (M : Nat) (hM : M < 256)
    (xs : List Input) :
    ∀ (s : State) (p : pacer), s.pacers[i]? = some p → p.port = P → p.port_mask = M →
      OwnPin P M i s.pacers →
      (pacerSteps b i s xs).map (fun t => t.ports.read P &&& M)
        = (paceRun b p xs).map (fun r => r.1.read P &&& M) := by
  induction xs with
  | nil => intro s p _ _ _ _; rfl
  | cons x xs ih =>
    intro s p hp hP hMq hown
    have hp' := iterate_pacer b s x i p hp
    have hw := pace_wiring b x.now x.ports p
    have hown' : OwnPin P M i (iterate b s x).1.pacers := by
      rw [(iterate_pacers b s x).1]
      exact OwnPin_map P M _ (fun q => pace_wiring b x.now x.ports q) s.pacers i hown
    have hview : (iterate b s x).1.ports.read P &&& M
        = (pace b x.now x.ports p).1.read P &&& M := by
      rw [(iterate_pacers b s x).2]
      subst hP hMq
      exact run_pacers_pin b x.now s.pacers i x.ports p hp hM hown
    have ih' := ih (iterate b s x).1 (pace b x.now x.ports p).2 hp'
      (by rw [hw.1, hP]) (by rw [hw.2, hMq]) hown'
    unfold pacerSteps paceRun
    rw [hp]
    dsimp only
    by_cases hex : timeoutexpired b.TICK_BITS x.now p.timer = true
    · rw [if_pos hex, if_pos hex, List.map_cons, List.map_cons, ih', hview]
    · rw [if_neg hex, if_neg hex]
      rw [pace_idle b x.now x.ports p hex] at ih'
      exact ih'

theorem map_getElem?_eq {α β γ : Type} (f : α → γ) (g : β → γ) (l : List α) (m : List β)
    (h : l.map f = m.map g) (k : Nat) (a : α) (ha : l[k]? = some a) :
    ∃ c, m[k]? = some c ∧ g c = f a := by
  have hk : (l.map f)[k]? = some (f a) := by rw [List.getElem?_map, ha]; rfl
  rw [h, List.getElem?_map] at hk
  cases hm : m[k]? with
  | none => rw [hm] at hk; simp at hk
  | some c =>
    rw [hm] at hk
    simp only [Option.map_some', Option.some.injEq] at hk
    exact ⟨c, rfl, hk⟩

/-- Arming pacer `c`: the record of pacer `c` gets mask `0x01` and the new
pattern and repeat flag; nothing else in the state changes. -/
theorem arm_spec (c pat rep : Nat) (s : State) (p : pacer) (hp : s.pacers[c]? = some p) :
    (updateAt (fun (q : pacer) => { q with mask := 0x01, pattern := pat, repeat_ := rep })
        c s.pacers)[c]?
      = some { p with mask := 0x01, pattern := pat, repeat_ := rep } ∧
    (∀ j, j ≠ c →
      (updateAt (fun (q : pacer) => { q with mask := 0x01, pattern := pat, repeat_ := rep })
        c s.pacers)[j]? = s.pacers[j]?) := by
  refine ⟨?_, fun j hj => updateAt_getElem?_ne _ c j s.pacers hj⟩
  rw [updateAt_getElem?, hp]
  rfl

/-- The first expired step of an armed pacer outputs bit 0 of its pattern. -/
theorem armed_first_step (b : Board) (now : Nat) (ports : Ports) (p : pacer)
    (hmask : p.mask = 0x01) (hpm : p.port_mask < 256) :
    outputBit (pace_expired b now ports p).1 (pace_expired b now ports p).2
      = (if p.pattern.testBit 0 = true then p.port_mask else 0) := by
  obtain ⟨-, -, -, -, -, h⟩ := pace_expired_spec b now ports p 0 (by omega) hmask hpm
  rw [h, Nat.and_two_pow]
  cases hb : p.pattern.testBit 0
  · simp
  · simp

/-- The loop body for `pacers[i]` takes the ports from where the loop reaches
`pacers[i]` to where it reaches `pacers[i + 1]`. -/
theorem run_pacers_take (b : Board) (now : Nat) (ps : List pacer) :
    ∀ (i : Nat) (r : Ports) (p : pacer), ps[i]? = some p →
      (run_pacers b now r (ps.take (i + 1))).1
        = (pace b now (run_pacers b now r (ps.take i)).1 p).1 := by
  induction ps with
  | nil => intro i r p hp; simp at hp
  | cons q qs ih =>
    intro i r p hp
    cases i with
    | zero =>
      simp only [List.getElem?_cons_zero, Option.some.injEq] at hp
      subst hp
      rfl
    | succ i =>
      simp only [List.getElem?_cons_succ] at hp
      rw [List.take_succ_cons, List.take_succ_cons, (run_pacers_cons b now r q _).1,
        (run_pacers_cons b now r q _).1]
      exact ih i _ p hp

theorem reached_step (b : Board) (now : Nat) (s : State) (i : Nat) (p : pacer)
    (hp : s.pacers[i]? = some p) :
    reached b now s (i + 1) = (pace b now (reached b now s i) p).1 :=
  run_pacers_take b now s.pacers i s.ports p hp

theorem reached_end (b : Board) (now : Nat) (s : State) :
    reached b now s s.pacers.length = (catgenie_work b now s).1.ports := by
  unfold reached
  rw [List.take_length, (catgenie_work_pacers b now s).2]

/-- A pacer step keeps byte registers bytes. -/
theorem pace_bytes (b : Board) (now : Nat) (r : Ports) (p : pacer)
    (hr : ∀ q, r.read q < 256) (hpm : p.port_mask < 256) :
    ∀ q, (pace b now r p).1.read q < 256 := by
  intro q
  by_cases hex : timeoutexpired b.TICK_BITS now p.timer = true
  · unfold pace
    rw [if_pos hex, (pace_expired_frame b now r p).1]
    by_cases hq : q = p.port
    · subst hq
      by_cases hb : p.pattern &&& p.mask ≠ 0
      · rw [if_pos hb, read_write]
        have h1 : r.read p.port < 2 ^ 8 := hr _
        have h2 : p.port_mask < 2 ^ 8 := hpm
        exact Nat.or_lt_two_pow h1 h2
      · rw [if_neg hb, read_write]
        exact lt_of_le_of_lt Nat.and_le_left (hr _)
    · by_cases hb : p.pattern &&& p.mask ≠ 0
      · rw [if_pos hb, read_write_ne _ _ _ _ hq]; exact hr q
      · rw [if_neg hb, read_write_ne _ _ _ _ hq]; exact hr q
  · rw [pace_idle b now r p hex]
    exact hr q

theorem run_pacers_bytes (b : Board) (now : Nat) (ps : List pacer) :
    ∀ (r : Ports), (∀ q, r.read q < 256) → (∀ p ∈ ps, p.port_mask < 256) →
      ∀ q, (run_pacers b now r ps).1.read q < 256 := by
  induction ps with
  | nil => intro r hr _ q; exact hr q
  | cons p ps ih =>
    intro r hr hm q
    rw [(run_pacers_cons b now r p ps).1]
    exact ih _ (pace_bytes b now r p hr (hm p (List.mem_cons_self _ _)))
      (fun x hx => hm x (List.mem_cons_of_mem _ hx)) q

/-- The pin of `pacers[i]` right after its loop body has run, in the iterations
that found its timer expired, is as the pacer stepped on its own leaves it. -/
theorem pacerPins_pins (b : Board) (i : Nat) (P : Port) (M : Nat) (hM : M < 256)
    (xs : List Input) :
    ∀ (s : State) (p : pacer), s.pacers[i]? = some p → p.port = P → p.port_mask = M →
      (pacerPins b i s xs).map (fun r => r.read P &&& M)
        = (paceRun b p xs).map (fun r => r.1.read P &&& M) := by
  induction xs with
  | nil => intro s p _ _ _; rfl
  | cons x xs ih =>
    intro s p hp hP hMq
    have hp' := iterate_pacer b s x i p hp
    have hw := pace_wiring b x.now x.ports p
    have ih' := ih (iterate b s x).1 (pace b x.now x.ports p).2 hp'
      (by rw [hw.1, hP]) (by rw [hw.2, hMq])
    unfold pacerPins paceRun
    rw [hp]
    dsimp only
    by_cases hex : timeoutexpired b.TICK_BITS x.now p.timer = true
    · have hview : (reached b x.now { s with ports := x.ports } (i + 1)).read P &&& M
          = (pace b x.now x.ports p).1.read P &&& M := by
        rw [reached_step b x.now { s with ports := x.ports } i p hp]
        subst hP hMq
        rw [pace_self b x.now _ p hex hM, pace_self b x.now _ p hex hM]
      rw [if_pos hex, if_pos hex, List.map_cons, List.map_cons, ih', hview]
    · rw [if_neg hex, if_neg hex]
      rw [pace_idle b x.now x.ports p hex] at ih'
      exact ih'

/-- The port and port mask of a pacer along its expired steps. -/
theorem paceRun_wiring (b : Board) (xs : List Input) :
    ∀ (p : pacer) (k : Nat) (r : Ports × pacer), (paceRun b p xs)[k]? = some r →
      r.2.port = p.port ∧ r.2.port_mask = p.port_mask := by
  induction xs with
  | nil => intro p k r hr; simp [paceRun] at hr
  | cons x xs ih =>
    intro p k r hr
    unfold paceRun at hr
    have hw := pace_wiring b x.now x.ports p
    by_cases hex : timeoutexpired b.TICK_BITS x.now p.timer = true
    · rw [if_pos hex] at hr
      cases k with
      | zero =>
        simp only [List.getElem?_cons_zero, Option.some.injEq] at hr
        subst hr
        exact hw
      | succ k =>
        simp only [List.getElem?_cons_succ] at hr
        obtain ⟨h1, h2⟩ := ih _ k r hr
        exact ⟨h1.trans hw.1, h2.trans hw.2⟩
    · rw [if_neg hex] at hr
      exact ih p k r hr

/-- With a non-zero repeat flag no sequence of iterations changes the pattern
or the repeat flag of a pacer whose mask is a single bit. -/
theorem afterIterations_repeat (b : Board) (i : Nat) (xs : List Input) :
    ∀ (s : State) (p : pacer) (j : Nat), s.pacers[i]? = some p → j < 8 → p.mask = 2 ^ j →
      p.repeat_ ≠ 0 →
      ∃ q, (afterIterations b s xs).pacers[i]? = some q ∧ q.pattern = p.pattern ∧
        q.repeat_ = p.repeat_ := by
  induction xs with
  | nil => intro s p j hp _ _ _; exact ⟨p, hp, rfl, rfl⟩
  | cons x xs ih =>
    intro s p j hp hj hmask hrep
    have hp' := iterate_pacer b s x i p hp
    unfold afterIterations
    by_cases hex : timeoutexpired b.TICK_BITS x.now p.timer = true
    · have hpace : pace b x.now x.ports p = pace_expired b x.now x.ports p := by
        unfold pace; rw [if_pos hex]
      obtain ⟨e1, e2, e3, -, -⟩ := pace_expired_record b x.now x.ports p j hj hmask
      rw [hpace] at hp'
      obtain ⟨q, h1, h2, h3⟩ := ih _ _ ((j + 1) % 8) hp' (Nat.mod_lt _ (by omega)) e1
        (by rw [e3]; exact hrep)
      refine ⟨q, h1, ?_, ?_⟩
      · rw [h2, e2, if_neg (fun h => hrep h.2)]
      · rw [h3, e3]
    · rw [pace_idle b x.now x.ports p hex] at hp'
      exact ih _ p j hp' hj hmask hrep

/-- Every arming function rewrites the record of its own pacer only. -/
theorem armers_pacers (c : Nat) (f : Nat → Nat → State → State) (pat rep : Nat) (s : State)
    (hf : (c, f) ∈ armers) :
    (f pat rep s).pacers
      = updateAt (fun (q : pacer) => { q with mask := 0x01, pattern := pat, repeat_ := rep })
          c s.pacers := by
  unfold armers at hf
  simp only [List.mem_cons, Prod.mk.injEq, List.mem_singleton, List.not_mem_nil, or_false] at hf
  rcases hf with ⟨rfl, rfl⟩ | ⟨rfl, rfl⟩ | ⟨rfl, rfl⟩ | ⟨rfl, rfl⟩ | ⟨rfl, rfl⟩ <;> rfl

theorem eraseIdx_updateAt {α : Type} (g : α → α) (l : List α) :
    ∀ (i : Nat), (updateAt g i l).eraseIdx i = l.eraseIdx i := by
  induction l with
  | nil => intro i; cases i <;> rfl
  | cons x xs ih =>
    intro i
    cases i with
    | zero => rfl
    | succ i =>
      show x :: (updateAt g i xs).eraseIdx i = x :: xs.eraseIdx i
      rw [ih i]

/-- An armed pacer: its record, and its pin is still its own if it was. -/
theorem armed_pacer (c : Nat) (f : Nat → Nat → State → State) (pat rep : Nat) (s : State)
    (p : pacer) (hf : (c, f) ∈ armers) (hp : s.pacers[c]? = some p) :
    (f pat rep s).pacers[c]? = some { p with mask := 0x01, pattern := pat, repeat_ := rep } ∧
    (OwnPin p.port p.port_mask c s.pacers → OwnPin p.port p.port_mask c (f pat rep s).pacers) := by
  rw [armers_pacers c f pat rep s hf]
  refine ⟨(arm_spec c pat rep s p hp).1, fun hpin => ?_⟩
  unfold OwnPin
  rw [eraseIdx_updateAt]
  exact hpin

/-- The output an armed pacer (mask `0x01`) stepped on its own gives at its
`k`-th expired step, read through the port and port mask it was armed with. -/
theorem armed_run (b : Board) (xs : List Input) (p : pacer) (hmask : p.mask = 0x01)
    (hpm : p.port_mask < 256) (k : Nat) (r : Ports × pacer)
    (hr : (paceRun b p xs)[k]? = some r) :
    r.2.repeat_ = p.repeat_ ∧
    (p.repeat_ ≠ 0 → r.2.pattern = p.pattern ∧
      r.1.read p.port &&& p.port_mask
        = (if p.pattern.testBit (k % 8) = true then p.port_mask else 0)) ∧
    (p.repeat_ = 0 →
      r.1.read p.port &&& p.port_mask
        = (if k < 8 ∧ p.pattern &&& 2 ^ k ≠ 0 then p.port_mask else 0)) := by
  obtain ⟨w1, w2⟩ := paceRun_wiring b xs p k r hr
  obtain ⟨h0, -, h1, h2⟩ := paceRun_spec b xs p 0 (by omega) hmask hpm k r hr
  refine ⟨h0, fun hrep => ?_, fun hrep => ?_⟩
  · obtain ⟨g1, g2⟩ := h1 hrep
    refine ⟨g1, ?_⟩
    unfold outputBit at g2
    rw [w1, w2, Nat.zero_add, Nat.and_two_pow] at g2
    rw [g2]
    cases hb : p.pattern.testBit (k % 8)
    · simp
    · simp
  · obtain ⟨-, g2⟩ := h2 hrep
    unfold outputBit at g2
    rw [w1, w2, Nat.zero_add] at g2
    exact g2

/-! #### Playback, the single step and arming -/

/-- C9 (as stated, refuted). With the beeper armed by `set_Beeper(0b10100000, 0)`
on the sample board, the first eight calls of `catgenie_work` that find the
beeper's timer expired drive the beeper pin (mask `0x02`) to 0,0,0,0,0,1,0,1,
not 1,0,1,0,0,0,0,0, and leave it so when they return: the pattern is played
from bit 0. -/
theorem one_shot_is_lsb_first :
    armed.pacers[PACER_BEEPER]? = some beepOnce ∧
    (pacerPins board PACER_BEEPER armed (bitTimes 8)).map (fun r => outputBit r beepOnce)
      = [0, 0, 0, 0, 0, 2, 0, 2] ∧
    (pacerSteps board PACER_BEEPER armed (bitTimes 8)).map (fun t => outputBit t.ports beepOnce)
      = [0, 0, 0, 0, 0, 2, 0, 2] := by
  refine ⟨by decide!, by decide!, by decide!⟩

/-- C9 (amended). Pacer one-shot playback: after any arming function (such as
`set_Beeper`) has armed its pacer with pattern `0b10100000` and repeat 0, the
`k`-th call of `catgenie_work` (counted from 0) that finds the pacer's timer
expired drives its output bit to 0,0,0,0,0,1,0,1 for `k` = 0..7 (bit 0 of the
pattern first) and to 0 for every later `k`, as long as the pacer is not armed
again. The bit has that value right after the pacer's loop body, and also when
`catgenie_work` returns if no other pacer drives the same pin. -/
theorem one_shot_playback (b : Board) (c : Nat) (f : Nat → Nat → State → State) (s : State)
    (p : pacer) (xs : List Input) (hf : (c, f) ∈ armers) (hp : s.pacers[c]? = some p)
    (hpm : p.port_mask < 256) (k : Nat) :
    (∀ r, (pacerPins b c (f 0xA0 0 s) xs)[k]? = some r →
      outputBit r p = (if k = 5 ∨ k = 7 then p.port_mask else 0)) ∧
    (OwnPin p.port p.port_mask c s.pacers →
      ∀ t, (pacerSteps b c (f 0xA0 0 s) xs)[k]? = some t →
        outputBit t.ports p = (if k = 5 ∨ k = 7 then p.port_mask else 0)) := by
  obtain ⟨harm, hown⟩ := armed_pacer c f 0xA0 0 s p hf hp
  have hiff : (k < 8 ∧ 0xA0 &&& 2 ^ k ≠ 0) ↔ (k = 5 ∨ k = 7) := by
    by_cases hk : k < 8
    · interval_cases k <;> decide
    · exact ⟨fun h => absurd h.1 hk, fun h => by omega⟩
  have hrun : ∀ r, (paceRun b { p with mask := 0x01, pattern := 0xA0, repeat_ := 0 } xs)[k]?
      = some r → r.1.read p.port &&& p.port_mask = (if k = 5 ∨ k = 7 then p.port_mask else 0) := by
    intro r hr
    obtain ⟨-, -, h⟩ := armed_run b xs { p with mask := 0x01, pattern := 0xA0, repeat_ := 0 }
      rfl hpm k r hr
    exact (h rfl).trans (if_congr hiff rfl rfl)
  refine ⟨fun r hr => ?_, fun hpin t ht => ?_⟩
  · obtain ⟨r', hr', hview⟩ := map_getElem?_eq _ _ _ _
      (pacerPins_pins b c p.port p.port_mask hpm xs (f 0xA0 0 s) _ harm rfl rfl) k r hr
    unfold outputBit
    rw [← hview]
    exact hrun r' hr'
  · obtain ⟨r', hr', hview⟩ := map_getElem?_eq _ _ _ _
      (pacerSteps_pins b c p.port p.port_mask hpm xs (f 0xA0 0 s) _ harm rfl rfl (hown hpin))
      k t ht
    unfold outputBit
    rw [← hview]
    exact hrun r' hr'

theorem one_shot_playback_witness :
    outputBit (lastState armed (pacerSteps board PACER_BEEPER armed (bitTimes 6))).ports quiet
      = 0x02 :=
  (one_shot_playback board PACER_BEEPER set_Beeper (start board) quiet (bitTimes 6)
    (by simp [armers]) (by decide!) (by decide) 5).2 (by unfold OwnPin; decide!)
    (lastState armed (pacerSteps board PACER_BEEPER armed (bitTimes 6))) (by decide!)

/-- C10. Pacer repeat playback: after any arming function has armed its pacer
with a pattern `pat` and a non-zero repeat flag, no sequence of calls of
`catgenie_work` changes the stored pattern, and the `n`-th call (counted from
0) that finds the pacer's timer expired drives its output bit to bit `n mod 8`
of `pat`. The bit has that value right after the pacer's loop body, and also
when `catgenie_work` returns if no other pacer drives the same pin. -/
theorem repeat_playback (b : Board) (c : Nat) (f : Nat → Nat → State → State) (pat rep : Nat)
    (s : State) (p : pacer) (hf : (c, f) ∈ armers) (hp : s.pacers[c]? = some p)
    (hrep : rep ≠ 0) (hpm : p.port_mask < 256) :
    (∀ (xs : List Input), ∃ q, (afterIterations b (f pat rep s) xs).pacers[c]? = some q ∧
      q.pattern = pat ∧ q.repeat_ = rep) ∧
    (∀ (xs : List Input) (n : Nat) (r : Ports), (pacerPins b c (f pat rep s) xs)[n]? = some r →
      outputBit r p = (if pat.testBit (n % 8) = true then p.port_mask else 0)) ∧
    (∀ (xs : List Input) (n : Nat) (t : State),
      (pacerSteps b c (f pat rep s) xs)[n]? = some t →
      (∃ q, t.pacers[c]? = some q ∧ q.pattern = pat) ∧
      (OwnPin p.port p.port_mask c s.pacers →
        outputBit t.ports p = (if pat.testBit (n % 8) = true then p.port_mask else 0))) := by
  obtain ⟨harm, hown⟩ := armed_pacer c f pat rep s p hf hp
  have hrun : ∀ xs n r,
      (paceRun b { p with mask := 0x01, pattern := pat, repeat_ := rep } xs)[n]? = some r →
      r.2.pattern = pat ∧
      r.1.read p.port &&& p.port_mask
        = (if pat.testBit (n % 8) = true then p.port_mask else 0) := by
    intro xs n r hr
    obtain ⟨-, h, -⟩ := armed_run b xs { p with mask := 0x01, pattern := pat, repeat_ := rep }
      rfl hpm n r hr
    exact h hrep
  refine ⟨fun xs => ?_, fun xs n r hr => ?_, fun xs n t ht => ⟨?_, fun hpin => ?_⟩⟩
  · exact afterIterations_repeat b c xs (f pat rep s) _ 0 harm (by omega) rfl hrep
  · obtain ⟨r', hr', hview⟩ := map_getElem?_eq _ _ _ _
      (pacerPins_pins b c p.port p.port_mask hpm xs (f pat rep s) _ harm rfl rfl) n r hr
    unfold outputBit
    rw [← hview]
    exact (hrun xs n r' hr').2
  · obtain ⟨r', hr', hrec⟩ := map_getElem?_eq _ _ _ _
      (pacerSteps_records b c xs (f pat rep s) _ harm) n t ht
    exact ⟨r'.2, hrec.symm, (hrun xs n r' hr').1⟩
  · obtain ⟨r', hr', hview⟩ := map_getElem?_eq _ _ _ _
      (pacerSteps_pins b c p.port p.port_mask hpm xs (f pat rep s) _ harm rfl rfl (hown hpin))
      n t ht
    unfold outputBit
    rw [← hview]
    exact (hrun xs n r' hr').2

theorem repeat_playback_witness :
    (∃ q, (afterIterations board armedForever (bitTimes 14)).pacers[PACER_BEEPER]? = some q ∧
      q.pattern = 0xA0 ∧ q.repeat_ = 1) ∧
    outputBit
      (lastState armedForever (pacerSteps board PACER_BEEPER armedForever (bitTimes 14))).ports
      quiet = 0x02 :=
  ⟨(repeat_playback board PACER_BEEPER set_Beeper 0xA0 1 (start board) quiet
      (by simp [armers]) (by decide!) (by decide) (by decide)).1 (bitTimes 14),
    ((repeat_playback board PACER_BEEPER set_Beeper 0xA0 1 (start board) quiet
      (by simp [armers]) (by decide!) (by decide) (by decide)).2.2 (bitTimes 14) 13
      (lastState armedForever (pacerSteps board PACER_BEEPER armedForever (bitTimes 14)))
      (by decide!)).2 (by unfold OwnPin; decide!)⟩

/-- C11. Single pacer step in `catgenie_work`. For a pacer `pacers[i]` whose
mask is the single bit `2 ^ j` (`j < 8`), with byte ports and byte port masks,
one call of `catgenie_work` runs the loop body for it between the points where
the loop reaches `pacers[i]` and `pacers[i + 1]`. If its timer is expired, the
call re-arms the timer for `PACER_BITTIME`, the body makes the `port_mask` bits
of its port equal to `(pattern & mask) != 0` and leaves every other bit of that
port and every other port unchanged, and the mask moves to the next higher bit,
wrapping from `0x80` to `0x01`, where the pattern is cleared iff `repeat` is 0;
when the pin is the pacer's own, the `port_mask` bits still have that value
when `catgenie_work` returns. If its timer is not expired, the record and the
ports are unchanged by its body. The ports start the loop as the call found
them and end it as the call leaves them. Over any run of calls the mask after
the `k`-th call that finds the timer expired is `2 ^ ((j + k + 1) mod 8)`: it
stays a single bit and is back at its starting value exactly after every 8th
such call. -/
theorem pacer_single_step (b : Board) (now : Nat) (s : State) (i : Nat) (p : pacer) (j : Nat)
    (hp : s.pacers[i]? = some p) (hj : j < 8) (hmask : p.mask = 2 ^ j)
    (hmasks : ∀ q ∈ s.pacers, q.port_mask < 256) (hbytes : ∀ q, s.ports.read q < 256) :
    (∃ p', (catgenie_work b now s).1.pacers[i]? = some p' ∧
      (timeoutexpired b.TICK_BITS now p.timer = true →
        p'.timer = settimeout b.TICK_BITS now (PACER_BITTIME b) ∧
        p'.mask = 2 ^ ((j + 1) % 8) ∧
        p'.pattern = (if j = 7 ∧ p.repeat_ = 0 then 0 else p.pattern) ∧
        p'.repeat_ = p.repeat_ ∧ p'.port = p.port ∧ p'.port_mask = p.port_mask ∧
        (∀ t, ((reached b now s (i + 1)).read p.port).testBit t
          = (if p.port_mask.testBit t = true then decide (p.pattern &&& p.mask ≠ 0)
              else ((reached b now s i).read p.port).testBit t)) ∧
        (∀ q, q ≠ p.port → (reached b now s (i + 1)).read q = (reached b now s i).read q) ∧
        (OwnPin p.port p.port_mask i s.pacers → ∀ t, p.port_mask.testBit t = true →
          ((catgenie_work b now s).1.ports.read p.port).testBit t
            = decide (p.pattern &&& p.mask ≠ 0))) ∧
      (timeoutexpired b.TICK_BITS now p.timer = false →
        p' = p ∧ reached b now s (i + 1) = reached b now s i)) ∧
    reached b now s 0 = s.ports ∧
    reached b now s s.pacers.length = (catgenie_work b now s).1.ports ∧
    (∀ (xs : List Input) (k : Nat) (t : State), (pacerSteps b i s xs)[k]? = some t →
      ∃ q, t.pacers[i]? = some q ∧ q.mask = 2 ^ ((j + k + 1) % 8) ∧
        (q.mask = p.mask ↔ (k + 1) % 8 = 0)) := by
  have hpm : p.port_mask < 256 := hmasks p (List.getElem?_mem hp)
  have hrec : (catgenie_work b now s).1.pacers[i]? = some (pace b now (reached b now s i) p).2 := by
    rw [(catgenie_work_pacers b now s).1, run_pacers_snd, List.getElem?_map, hp]
    exact congrArg some (pace_snd b now _ _ p)
  have hstep := reached_step b now s i p hp
  have hport : (reached b now s i).read p.port < 256 :=
    run_pacers_bytes b now _ s.ports hbytes
      (fun q hq => hmasks q (List.mem_of_mem_take hq)) p.port
  refine ⟨⟨_, hrec, ?_, ?_⟩, rfl, reached_end b now s, ?_⟩
  · intro hex
    have hpace : pace b now (reached b now s i) p = pace_expired b now (reached b now s i) p := by
      unfold pace; rw [if_pos hex]
    obtain ⟨f1, f2⟩ := pace_expired_frame b now (reached b now s i) p
    obtain ⟨e1, e2, e3, e4, e5⟩ := pace_expired_record b now (reached b now s i) p j hj hmask
    rw [hstep, hpace]
    refine ⟨f2, e1, e2, e3, e4, e5, ?_, ?_, ?_⟩
    · intro t
      rw [f1]
      by_cases hb : p.pattern &&& p.mask ≠ 0
      · rw [if_pos hb, read_write, testBit_set]
        cases hm : p.port_mask.testBit t <;> simp [hb]
      · rw [if_neg hb, read_write, testBit_clear _ _ t hport hpm]
        cases hm : p.port_mask.testBit t <;> simp [hb]
    · intro q hq
      rw [f1]
      split_ifs <;> exact read_write_ne _ _ _ _ hq
    · intro hown t ht
      have hview : (catgenie_work b now s).1.ports.read p.port &&& p.port_mask
          = (if p.pattern &&& p.mask ≠ 0 then p.port_mask else 0) := by
        rw [(catgenie_work_pacers b now s).2, run_pacers_pin b now s.pacers i s.ports p hp hpm hown]
        exact pace_self b now s.ports p hex hpm
      have hbit := congrArg (fun v => Nat.testBit v t) hview
      simp only [Nat.testBit_and, ht, Bool.and_true] at hbit
      rw [hbit]
      by_cases hb : p.pattern &&& p.mask ≠ 0
      · rw [if_pos hb, ht]; simp [hb]
      · rw [if_neg hb, Nat.zero_testBit]; simp [hb]
  · intro hex
    have hidle := pace_idle b now (reached b now s i) p (by rw [hex]; exact Bool.false_ne_true)
    rw [hstep, hidle]
    exact ⟨rfl, rfl⟩
  · intro xs k t ht
    obtain ⟨r, hr, hq⟩ := map_getElem?_eq _ _ _ _ (pacerSteps_records b i xs s p hp) k t ht
    have hm := paceRun_mask b xs p j hj hmask k r hr
    refine ⟨r.2, hq.symm, hm, ?_⟩
    rw [hm, hmask]
    constructor
    · intro h
      have := Nat.pow_right_injective (le_refl 2) h
      omega
    · intro h
      have hidx : (j + k + 1) % 8 = j := by omega
      rw [hidx]

theorem pacer_single_step_witness :
    (∃ p', (catgenie_work board 0 armed).1.pacers[PACER_BEEPER]? = some p' ∧
      p'.timer = settimeout board.TICK_BITS 0 (PACER_BITTIME board) ∧
      p'.mask = 2 ^ ((0 + 1) % 8) ∧
      ((catgenie_work board 0 armed).1.ports.read beepOnce.port).testBit 1
        = decide (beepOnce.pattern &&& beepOnce.mask ≠ 0)) ∧
    reached board 0 armed armed.pacers.length = (catgenie_work board 0 armed).1.ports := by
  obtain ⟨⟨p', h1, h2, -⟩, -, h3, -⟩ :=
    pacer_single_step board 0 armed PACER_BEEPER beepOnce 0 (by decide!) (by decide) rfl
      (by decide!) (fun q => by cases q <;> decide!)
  exact ⟨⟨p', h1, (h2 rfl).1, (h2 rfl).2.1,
    (h2 rfl).2.2.2.2.2.2.2.2 (by unfold OwnPin; decide!) 1 (by decide)⟩, h3⟩

/-- C12. Pacer arming. Each of `set_Beeper`, `set_LED_Error`, `set_LED_Locked`,
`set_LED_Cartridge` and `set_LED_Cat`, for every pattern, repeat value and prior
state of its pacer, sets its own pacer's mask to `0x01` and its pattern and
repeat flag to the arguments, and leaves that pacer's timer, port and port
mask, the port registers, the other pacers, the debouncers and the scan data
unchanged; the next expired step of that pacer then outputs bit 0 of the new
pattern. -/
theorem pacer_arming (b : Board) (c : Nat) (f : Nat → Nat → State → State) (pat rep : Nat)
    (s : State) (p : pacer) (now : Nat) (ports : Ports)
    (hf : (c, f) ∈ armers) (hp : s.pacers[c]? = some p) (hpm : p.port_mask < 256) :
    (f pat rep s).pacers[c]? = some { p with mask := 0x01, pattern := pat, repeat_ := rep } ∧
    (∀ j, j ≠ c → (f pat rep s).pacers[j]? = s.pacers[j]?) ∧
    (f pat rep s).ports = s.ports ∧ (f pat rep s).debouncers = s.debouncers ∧
    (f pat rep s).PORTA_old = s.PORTA_old ∧ (f pat rep s).PORTB_old = s.PORTB_old ∧
    (timeoutexpired b.TICK_BITS now p.timer = true →
      outputBit (pace b now ports { p with mask := 0x01, pattern := pat, repeat_ := rep }).1
          (pace b now ports { p with mask := 0x01, pattern := pat, repeat_ := rep }).2
        = (if pat.testBit 0 = true then p.port_mask else 0)) := by
  have hout : timeoutexpired b.TICK_BITS now p.timer = true →
      outputBit (pace b now ports { p with mask := 0x01, pattern := pat, repeat_ := rep }).1
          (pace b now ports { p with mask := 0x01, pattern := pat, repeat_ := rep }).2
        = (if pat.testBit 0 = true then p.port_mask else 0) := by
    intro hex
    have hpace : pace b now ports { p with mask := 0x01, pattern := pat, repeat_ := rep }
        = pace_expired b now ports { p with mask := 0x01, pattern := pat, repeat_ := rep } := by
      unfold pace; rw [if_pos hex]
    rw [hpace]
    exact armed_first_step b now ports _ rfl hpm
  unfold armers at hf
  simp only [List.mem_cons, Prod.mk.injEq, List.mem_singleton, List.not_mem_nil, or_false] at hf
  rcases hf with ⟨rfl, rfl⟩ | ⟨rfl, rfl⟩ | ⟨rfl, rfl⟩ | ⟨rfl, rfl⟩ | ⟨rfl, rfl⟩
  · obtain ⟨h1, h2⟩ := arm_spec PACER_BEEPER pat rep s p hp
    exact ⟨h1, h2, rfl, rfl, rfl, rfl, hout⟩
  · obtain ⟨h1, h2⟩ := arm_spec PACER_LED_ERROR pat rep s p hp
    exact ⟨h1, h2, rfl, rfl, rfl, rfl, hout⟩
  · obtain ⟨h1, h2⟩ := arm_spec PACER_LED_LOCKED pat rep s p hp
    exact ⟨h1, h2, rfl, rfl, rfl, rfl, hout⟩
  · obtain ⟨h1, h2⟩ := arm_spec PACER_LED_CARTRIDGE pat rep s p hp
    exact ⟨h1, h2, rfl, rfl, rfl, rfl, hout⟩
  · obtain ⟨h1, h2⟩ := arm_spec PACER_LED_CAT pat rep s p hp
    exact ⟨h1, h2, rfl, rfl, rfl, rfl, hout⟩

theorem pacer_arming_witness :
    (set_LED_Error 0xA0 0 { start board with pacers := [beepOnce, midPattern] }).pacers[1]?
      = some { midPattern with mask := 0x01, pattern := 0xA0, repeat_ := 0 } ∧
    (set_LED_Error 0xA0 0 { start board with pacers := [beepOnce, midPattern] }).ports
      = (start board).ports :=
  ⟨(pacer_arming board PACER_LED_ERROR set_LED_Error 0xA0 0
      { start board with pacers := [beepOnce, midPattern] } midPattern 0 clear
      (by simp [armers]) rfl (by decide)).1,
    (pacer_arming board PACER_LED_ERROR set_LED_Error 0xA0 0
      { start board with pacers := [beepOnce, midPattern] } midPattern 0 clear
      (by simp [armers]) rfl (by decide)).2.2.1⟩

/-! #### The actuators -/

/-- Switching an actuator off with `PORT &= !MASK` and a non-zero mask clears
every bit of the port. -/
theorem off_with_lnot (r : Ports) (q : Port) (mask : Nat) (hm : mask ≠ 0) :
    (port_and r q (lnot mask)).read q = 0 := by
  unfold port_and lnot
  rw [if_neg hm, read_write]
  exact Nat.and_zero _

/-- Switching an actuator off with `PORT &= ~MASK` clears the mask bits of a
byte port and no other bit. -/
theorem off_with_bnot (r : Ports) (q : Port) (mask i : Nat) (hr : r.read q < 256)
    (hm : mask < 256) :
    ((port_and r q (bnot mask)).read q).testBit i = ((r.read q).testBit i && !mask.testBit i) := by
  unfold port_and bnot
  rw [read_write]
  exact testBit_clear _ _ i hr hm

/-- C19 (the code at a failing input). With every bit of port D set and all
four actuators on single-bit masks of port D, `set_Water(0)`, `set_Dosage(0)`,
`set_Pump(0)` and `set_Dryer(0)` each leave port D at 0, where clearing only the
actuator's own bit would leave `0xEF`, `0xDF`, `0xBF` and `0x7F`. On the same
ports `set_LED(1, 0)`, `set_Bowl(BOWL_STOP)` and `set_Arm(ARM_STOP)` clear only
their own bits, and `set_Water(1)` on clear ports sets only its own bit. -/
theorem actuator_off_clears_port :
    (set_Water rig 0 running).ports.read rig.WATER_PORT = 0 ∧
    (set_Dosage rig 0 running).ports.read rig.DOSAGE_PORT = 0 ∧
    (set_Pump rig 0 running).ports.read rig.PUMP_PORT = 0 ∧
    (set_Dryer rig 0 running).ports.read rig.DRYER_PORT = 0 ∧
    running.ports.read rig.WATER_PORT &&& bnot rig.WATER_MASK = 0xEF ∧
    running.ports.read rig.DOSAGE_PORT &&& bnot rig.DOSAGE_MASK = 0xDF ∧
    running.ports.read rig.PUMP_PORT &&& bnot rig.PUMP_MASK = 0xBF ∧
    running.ports.read rig.DRYER_PORT &&& bnot rig.DRYER_MASK = 0x7F ∧
    (set_LED rig 1 0 running).ports.read rig.LED_1_PORT = 0xFB ∧
    (set_Bowl rig rig.BOWL_STOP running).ports.read rig.BOWL_PORT = 0xFC ∧
    (set_Arm rig rig.ARM_STOP running).ports.read rig.ARM_PORT = 0xF3 ∧
    (set_Water rig 1 (start board)).ports.read rig.WATER_PORT = 0x10 := by
  refine ⟨by decide!, by decide!, by decide!, by decide!, by decide!, by decide!, by decide!,
    by decide!, by decide!, by decide!, by decide!, by decide!⟩

end CatGenie

end CatGenius
